import Mathlib

/-!
Verification of the ciigo AsciiDoc parser core against its specification.

The Go sources are shallowly embedded: Go strings are modelled as lists of
Unicode scalar values (`GoStr`); where the source indexes raw bytes in a way
that can differ from scalar indexing (UTF-8 byte lengths), the byte
arithmetic is reproduced explicitly via `Char.utf8Size`.  Go runtime panics
(out-of-range indexing / invalid slicing) are modelled with `Except GoPanic`.
The third-party line source (shuLhan/share lib/parser with delimiter a
newline) is modelled as a list of newline-separated segments, following its
documented behaviour: each call yields the next segment plus an indicator of
whether a newline terminator was consumed.
-/

namespace Ciigo

/-- Model of a Go string: the sequence of Unicode scalar values. -/
abbrev GoStr := List Char

/-- Embed a Lean string literal as a `GoStr`. -/
def gs (s : String) : GoStr := s.toList

/-- A Go runtime panic (index out of range / invalid slice). -/
inductive GoPanic where
  | oob
deriving DecidableEq

/-- Result of running Go code that may panic. -/
abbrev GoRes (α : Type) := Except GoPanic α

/-- The space and tab characters used pervasively by the source. -/
def isSpaceTab (c : Char) : Bool := c = ' ' || c = '\t'

/-- White space as trimmed by strings.TrimSpace (ASCII fragment). -/
def isGoSpace (c : Char) : Bool :=
  c = ' ' || c = '\t' || c = '\n' || c = '\x0b' || c = '\x0c' || c = '\r'

/-- strings.TrimLeft with an arbitrary cutset. -/
def trimLeftIn (s : GoStr) (cut : GoStr) : GoStr :=
  s.dropWhile (fun c => cut.contains c)

/-- strings.TrimRight with an arbitrary cutset. -/
def trimRightIn (s : GoStr) (cut : GoStr) : GoStr :=
  (s.reverse.dropWhile (fun c => cut.contains c)).reverse

/-- strings.Trim with an arbitrary cutset. -/
def trimIn (s : GoStr) (cut : GoStr) : GoStr :=
  trimRightIn (trimLeftIn s cut) cut

/-- strings.TrimSpace. -/
def trimSpace (s : GoStr) : GoStr :=
  (s.dropWhile isGoSpace).reverse.dropWhile isGoSpace |>.reverse

/-- strings.Split with a one-character separator. -/
def splitChar (sep : Char) : GoStr → List GoStr
  | [] => [[]]
  | c :: rest =>
    if c = sep then [] :: splitChar sep rest
    else
      match splitChar sep rest with
      | g :: tl => (c :: g) :: tl
      | [] => [[c]]

/-- strings.SplitN with limit 2 and a one-character separator. -/
def split2 (sep : Char) (s : GoStr) : List GoStr :=
  if s.contains sep then [s.takeWhile (· ≠ sep), (s.dropWhile (· ≠ sep)).drop 1]
  else [s]

/-- Helper for `fields`: accumulates the current word (reversed). -/
def fieldsAux : GoStr → GoStr → List GoStr
  | [], acc => if acc = [] then [] else [acc.reverse]
  | c :: rest, acc =>
    if isGoSpace c then
      if acc = [] then fieldsAux rest [] else acc.reverse :: fieldsAux rest []
    else fieldsAux rest (c :: acc)

/-- strings.Fields: whitespace-separated words. -/
def fields (s : GoStr) : List GoStr := fieldsAux s []

/-- strings.IndexByte for an ASCII character: position of first occurrence.
For ASCII needles on valid UTF-8 the byte index equals the scalar index of
the text before it, which is what all call sites use it for. -/
def indexOfChar (c : Char) : GoStr → Option Nat
  | [] => none
  | x :: rest =>
    if x = c then some 0
    else (indexOfChar c rest).map (· + 1)

/-- Position of the first occurrence of a pattern (strings.Index). -/
def indexOfSeq (pat : GoStr) : GoStr → Option Nat
  | [] => if pat = [] then some 0 else none
  | x :: rest =>
    if pat.isPrefixOf (x :: rest) then some 0
    else (indexOfSeq pat rest).map (· + 1)

/-- strings.Join with a one-character separator. -/
def joinChar (sep : Char) : List GoStr → GoStr
  | [] => []
  | [p] => p
  | p :: rest => p ++ sep :: joinChar sep rest

/-- UTF-8 byte length of a string (len of a Go string). -/
def utf8Len (s : GoStr) : Nat := (s.map Char.utf8Size).sum

/-- ascii.IsAlnum from the shuLhan/share library: ASCII letters and digits. -/
def goIsAlnum (c : Char) : Bool := c.isAlphanum

/-- strings.ToLower restricted to ASCII (all strings it is applied to inside
the parser are ASCII keywords such as style names and admonition labels). -/
def toLowerChar (c : Char) : Char :=
  if 'A' ≤ c ∧ c ≤ 'Z' then Char.ofNat (c.toNat + 32) else c

/-- Charwise lowering of a string. -/
def toLowerStr (s : GoStr) : GoStr := s.map toLowerChar

/-- strings.Title applied to a single lowercase word (the only use site
passes an admonition class name, which contains no spaces). -/
def titleCase : GoStr → GoStr
  | [] => []
  | c :: rest => (if 'a' ≤ c ∧ c ≤ 'z' then Char.ofNat (c.toNat - 32) else c) :: rest

/-! ## Node and line kinds

The node/line kind constants of the authoritative source version (the one
declaring audio/video/admonition kinds).  The only arithmetic the source
performs on them, expParent = sectionKind - 1, is modelled by
`sectionPred`, which follows the declaration order of the constants. -/

inductive Kind where
  | unknown
  | docHeader
  | preamble
  | docContent
  | sectionL1
  | sectionL2
  | sectionL3
  | sectionL4
  | sectionL5
  | paragraph
  | literalParagraph
  | blockAdmonition
  | blockAudio
  | blockImage
  | blockListingDelimiter
  | blockLiteralNamed
  | blockLiteralDelimiter
  | blockOpen
  | blockSidebar
  | blockVideo
  | blockExample
  | listOrdered
  | listOrderedItem
  | listUnordered
  | listUnorderedItem
  | listDescription
  | listDescriptionItem
  | lineAdmonition
  | lineAttribute
  | lineBlockComment
  | lineBlockTitle
  | lineComment
  | lineEmpty
  | lineHorizontalRule
  | lineListContinue
  | linePageBreak
  | lineStyle
  | lineStyleClass
  | lineText
deriving DecidableEq

/-- Kinds classifying section lines. -/
def isSectionKind : Kind → Bool
  | .sectionL1 | .sectionL2 | .sectionL3 | .sectionL4 | .sectionL5 => true
  | _ => false

/-- expParent = kind - 1 on the section constants (the constants are
declared consecutively after docContent). -/
def sectionPred : Kind → Kind
  | .sectionL1 => .docContent
  | .sectionL2 => .sectionL1
  | .sectionL3 => .sectionL2
  | .sectionL4 => .sectionL3
  | .sectionL5 => .sectionL4
  | k => k

/-- The three list-container kinds map to their item kinds. -/
def containerItemKind : Kind → Option Kind
  | .listOrdered => some .listOrderedItem
  | .listUnordered => some .listUnorderedItem
  | .listDescription => some .listDescriptionItem
  | _ => none

/-- Kinds classifying list-item nodes. -/
def isListItemKind : Kind → Bool
  | .listOrderedItem | .listUnorderedItem | .listDescriptionItem => true
  | _ => false

/-! ## Style flag constants (bit values per the iota encoding in the source;
the unit test in the sources pins colophon=1, abstract=2, preface=4,
dedication=8). -/

def styleSectionColophon : Nat := 1
def styleSectionAbstract : Nat := 2
def styleSectionPreface : Nat := 4
def styleSectionDedication : Nat := 8
def styleSectionPartIntroduction : Nat := 16
def styleSectionAppendix : Nat := 32
def styleSectionGlossary : Nat := 64
def styleSectionBibliography : Nat := 128
def styleSectionIndex : Nat := 256
def styleParagraphLead : Nat := 512
def styleParagraphNormal : Nat := 1024
def styleNumberingArabic : Nat := 2048
def styleNumberingDecimal : Nat := 4096
def styleNumberingLoweralpha : Nat := 8192
def styleNumberingUpperalpha : Nat := 16384
def styleNumberingLowerroman : Nat := 32768
def styleNumberingUpperroman : Nat := 65536
def styleNumberingLowergreek : Nat := 131072
def styleDescriptionHorizontal : Nat := 262144
def styleDescriptionQandA : Nat := 524288
def styleAdmonition : Nat := 1048576
def styleBlockListing : Nat := 2097152

/-- The adocStyles lookup map (zero when absent, like a Go map read). -/
def adocStyles (name : GoStr) : Nat :=
  if name = gs "colophon" then styleSectionColophon
  else if name = gs "abstract" then styleSectionAbstract
  else if name = gs "preface" then styleSectionPreface
  else if name = gs "dedication" then styleSectionDedication
  else if name = gs "partintro" then styleSectionPartIntroduction
  else if name = gs "appendix" then styleSectionAppendix
  else if name = gs "glossary" then styleSectionGlossary
  else if name = gs "bibliography" then styleSectionBibliography
  else if name = gs "index" then styleSectionIndex
  else if name = gs ".lead" then styleParagraphLead
  else if name = gs ".normal" then styleParagraphNormal
  else if name = gs "arabic" then styleNumberingArabic
  else if name = gs "decimal" then styleNumberingDecimal
  else if name = gs "loweralpha" then styleNumberingLoweralpha
  else if name = gs "upperalpha" then styleNumberingUpperalpha
  else if name = gs "lowerroman" then styleNumberingLowerroman
  else if name = gs "upperroman" then styleNumberingUpperroman
  else if name = gs "lowergreek" then styleNumberingLowergreek
  else if name = gs "horizontal" then styleDescriptionHorizontal
  else if name = gs "qanda" then styleDescriptionQandA
  else if name = gs "CAUTION" then styleAdmonition
  else if name = gs "IMPORTANT" then styleAdmonition
  else if name = gs "NOTE" then styleAdmonition
  else if name = gs "TIP" then styleAdmonition
  else if name = gs "WARNING" then styleAdmonition
  else if name = gs "listing" then styleBlockListing
  else 0

/-- isStyleAdmonition: tests the admonition bit. -/
def isStyleAdmonitionB (style : Nat) : Bool := style &&& styleAdmonition > 0

/-! ## The node model (adocNode, first-child/next-sibling flattened into a
children list; the scalar fields follow the source struct). -/

structure NodeData where
  kind : Kind := .unknown
  level : Int := 0
  raw : GoStr := []
  rawTerm : GoStr := []
  rawTitle : GoStr := []
  style : Nat := 0
  classes : List GoStr := []
  alt : GoStr := []
  width : GoStr := []
  height : GoStr := []
  attrs : List (GoStr × GoStr) := []
  opts : List (GoStr × GoStr) := []
deriving DecidableEq

/-- A parsed document-tree node: its scalar data plus ordered children. -/
inductive Node where
  | mk (data : NodeData) (kids : List Node)

def Node.data : Node → NodeData
  | .mk d _ => d

def Node.kids : Node → List Node
  | .mk _ k => k

/-- A freshly allocated adocNode (Go zero value). -/
def freshNode : Node := .mk {} []

/-- Go map read with zero-value default: association-list lookup. -/
def mapGet (m : List (GoStr × GoStr)) (k : GoStr) : Option GoStr :=
  (m.find? (fun p => p.1 = k)).map (·.2)

/-- Go map write: replace or append. -/
def mapSet (m : List (GoStr × GoStr)) (k v : GoStr) : List (GoStr × GoStr) :=
  if (m.find? (fun p => p.1 = k)).isSome then
    m.map (fun p => if p.1 = k then (k, v) else p)
  else m ++ [(k, v)]

/-! ## Pure line-level functions (isAdmonition, isLineDescriptionItem,
parseStyle, whatKindOfLine) translated from the authoritative classifier. -/

/-- isAdmonition: an admonition label, a colon, then a space or tab. -/
def isAdmonition (line : GoStr) : Bool :=
  let try1 : GoStr → Option Nat := fun lbl =>
    if lbl.isPrefixOf line then some lbl.length else none
  let x? :=
    (try1 (gs "CAUTION")).orElse fun _ =>
    (try1 (gs "IMPORTANT")).orElse fun _ =>
    (try1 (gs "NOTE")).orElse fun _ =>
    (try1 (gs "TIP")).orElse fun _ =>
    (try1 (gs "WARNING"))
  match x? with
  | none => false
  | some x =>
    if x ≥ line.length then false
    else if line.get? x = some ':' then
      let x := x + 1
      if x ≥ line.length then false
      else
        match line.get? x with
        | some c => isSpaceTab c
        | none => false
    else false

/-- isLineDescriptionItem: "::" (optionally followed by space or tab) at a
positive position. -/
def isLineDescriptionItem (line : GoStr) : Bool :=
  (match indexOfSeq (gs ":: ") line with
   | some x => decide (x > 0)
   | none => false) ||
  (match indexOfSeq (gs "::\t") line with
   | some x => decide (x > 0)
   | none => false) ||
  (match indexOfSeq (gs "::") line with
   | some x => decide (x > 0)
   | none => false)

/-- parseStyle: strip brackets, split on commas, strip quotes from the first
part, look it up verbatim, then lowercased. -/
def parseStyle (line : GoStr) : GoStr × Nat :=
  let line := trimIn line (gs "[]")
  let parts := splitChar ',' line
  let styleName := trimIn (parts.headD []) (gs "\"")
  let styleKind := adocStyles styleName
  if styleKind > 0 then (styleName, styleKind)
  else
    let styleName := toLowerStr styleName
    (styleName, adocStyles styleName)

/-- The first-character dispatch chain of whatKindOfLine, applied to the
line after optional leading-space handling. The line is nonempty here. -/
def wkolDispatch (spaces : GoStr) (line : GoStr) : Kind × GoStr × GoStr :=
  match line.head? with
  | none => (.lineText, spaces, line)
  | some c0 =>
    if c0 = ':' then (.lineAttribute, spaces, line)
    else if c0 = '[' then
      let newline := trimRightIn line (gs " \t")
      if newline.getLast? = some ']' then
        if line = gs "[literal]" then (.blockLiteralNamed, spaces, line)
        else if line.get? 1 = some '.' then (.lineStyleClass, spaces, line)
        else (.lineStyle, spaces, line)
      else (.lineText, spaces, line)
    else if c0 = '=' then
      if line = gs "====" then (.blockExample, spaces, line)
      else
        let subs := fields line
        let k : Kind :=
          if subs.headD [] = gs "==" then .sectionL1
          else if subs.headD [] = gs "===" then .sectionL2
          else if subs.headD [] = gs "====" then .sectionL3
          else if subs.headD [] = gs "=====" then .sectionL4
          else if subs.headD [] = gs "======" then .sectionL5
          else .lineText
        (k, spaces, line)
    else if c0 = '.' then
      if line.length ≤ 1 then (.lineText, spaces, line)
      else if line = gs "...." then (.blockLiteralDelimiter, spaces, line)
      else if goIsAlnum (line.get? 1 |>.getD ' ') then (.lineBlockTitle, spaces, line)
      else if line.any isSpaceTab then (.listOrderedItem, spaces, line)
      else (.lineText, spaces, line)
    else if c0 = '*' then
      if line.length ≤ 1 then (.lineText, spaces, line)
      else if line = gs "****" then (.blockSidebar, spaces, line)
      else if line.any isSpaceTab then (.listUnorderedItem, spaces, line)
      else (.lineText, spaces, line)
    else if line = gs "+" then (.lineListContinue, spaces, line)
    else if line = gs "----" then (.blockListingDelimiter, spaces, line)
    else if isLineDescriptionItem line then (.listDescriptionItem, spaces, line)
    else (.lineText, spaces, line)

/-- whatKindOfLine: classify one line, also yielding the leading whitespace
and the (possibly trimmed) payload.  When the line consists of whitespace
only, the range loop of the source stops at the last character, so the
payload becomes that single trailing space character. -/
def whatKindOfLine (line : GoStr) : Kind × GoStr × GoStr :=
  if line = [] then (.lineEmpty, [], line)
  else if (gs "////").isPrefixOf line then (.lineBlockComment, [], line)
  else if (gs "//").isPrefixOf line then (.lineComment, [], line)
  else if line = gs "'''" ∨ line = gs "---" ∨ line = gs "- - -" ∨
      line = gs "***" ∨ line = gs "* * *" then (.lineHorizontalRule, [], line)
  else if line = gs "<<<" then (.linePageBreak, [], line)
  else if line = gs "--" then (.blockOpen, [], line)
  else if (gs "image::").isPrefixOf line then
    (.blockImage, [], trimRightIn (line.drop 7) (gs " \t"))
  else if (gs "video::").isPrefixOf line then
    (.blockVideo, [], trimRightIn (line.drop 7) (gs " \t"))
  else if (gs "audio::").isPrefixOf line then
    (.blockAudio, [], trimRightIn (line.drop 7) (gs " \t"))
  else if isAdmonition line then (.lineAdmonition, [], line)
  else
    let hasSpace := match line.head? with
      | some c => isSpaceTab c
      | none => false
    if hasSpace then
      let rest := line.dropWhile isSpaceTab
      let (spaces, newline) :=
        if rest = [] then (line.dropLast, [line.getLastD ' '])
        else (line.takeWhile isSpaceTab, rest)
      if isLineDescriptionItem newline then (.listDescriptionItem, spaces, newline)
      else if newline.head? ≠ some '*' ∧ newline.head? ≠ some '.' then
        (.literalParagraph, spaces, newline)
      else wkolDispatch spaces newline
    else wkolDispatch [] line

/-- isTitle: "=" or "#" followed by a space or tab; reading line[1] panics
on a one-character line. -/
def isTitle (line : GoStr) : GoRes Bool :=
  match line.head? with
  | some c0 =>
    if c0 = '=' ∨ c0 = '#' then
      match line.get? 1 with
      | some c1 => .ok (isSpaceTab c1)
      | none => .error .oob
    else .ok false
  | none => .error .oob

/-! ## Document state and line source -/

/-- The mutable scalar state of a Document during parsing (tree state is
threaded separately). `src` is the remaining input of the line source. -/
structure PState where
  attributes : List (GoStr × GoStr) := []
  title : GoStr := []
  author : GoStr := []
  revNumber : GoStr := []
  revSeparator : GoStr := []
  revDate : GoStr := []
  headerRaw : Option GoStr := none
  prevKind : Kind := .unknown
  kind : Kind := .unknown
  src : List GoStr := []
deriving DecidableEq

/-- One call of the line source: the next segment, whether a newline
delimiter was consumed (false exactly at end of input), and the rest. -/
def srcLine : List GoStr → GoStr × Bool × List GoStr
  | [] => ([], false, [])
  | [l] => (l, false, [])
  | l :: rest => (l, true, rest)

/-- Document.line: read one line, classify it, update prevKind/kind. -/
def docLine (st : PState) : GoStr × GoStr × Bool × PState :=
  let (raw, c, src') := srcLine st.src
  let (k, spaces, l) := whatKindOfLine raw
  (spaces, l, c, { st with prevKind := st.kind, kind := k, src := src' })

/-- parseIgnoreCommentBlock: consume raw lines until a "////" line or end of
input (bypasses classification entirely). -/
def parseIgnoreCommentBlock : Nat → PState → PState
  | 0, st => st
  | fuel + 1, st =>
    let (raw, c, src') := srcLine st.src
    let st' := { st with src := src' }
    if (gs "////").isPrefixOf raw then st'
    else if raw = [] ∧ c = false then st'
    else parseIgnoreCommentBlock fuel st'

/-- parseAttribute: validate a ":key: value" line and produce the key/value
pair to store (the caller writes it into the attributes map).  Reading
line[1] panics when the line is shorter than two characters.  In non-strict
mode invalid key characters are skipped; in strict mode they invalidate the
line. -/
def parseAttribute (line : GoStr) (strict : Bool) : GoRes (Option (GoStr × GoStr)) :=
  match line with
  | _ :: c1 :: rest =>
    if ¬(goIsAlnum c1 ∨ c1 = '_') then .ok none
    else
      let rec walk : GoStr → GoStr → Option (GoStr × GoStr)
        | [], _ => none
        | c :: r, key =>
          if c = ':' then some (key, trimSpace r)
          else if goIsAlnum c ∨ c = '_' ∨ c = '-' then walk r (key ++ [c])
          else if strict then none
          else walk r key
      .ok (walk rest [c1])
  | _ => .error .oob

/-- parseHeaderRevision: accept any line starting with a vee; when a comma is
present the text between the vee and the comma becomes RevNumber and the
trimmed remainder RevDate (with separator ","), otherwise everything after
the vee is RevNumber.  Returns none when the line is rejected. -/
def parseHeaderRevision (line : GoStr) : GoRes (Option (GoStr × GoStr × GoStr)) :=
  match line with
  | [] => .error .oob
  | c :: rest =>
    if c ≠ 'v' then .ok none
    else
      match indexOfChar ',' line with
      | some idx =>
        if idx > 0 then
          .ok (some ((line.take idx).drop 1, gs ",", trimSpace (line.drop (idx + 1))))
        else .ok (some (rest, [], []))
      | none => .ok (some (rest, [], []))

/-- Header-parser states. -/
inductive HState where
  | title
  | author
  | revision
  | hEnd
deriving DecidableEq

/-- parseHeader: title, optional author, optional revision, interleaved with
attribute and comment lines; returns the first unconsumed body line. -/
def parseHeader : Nat → PState → HState → GoRes (GoStr × GoStr × Bool × PState)
  | 0, st, _ => .ok ([], [], false, st)
  | fuel + 1, st, state =>
    let (spaces, line, c, st) := docLine st
    if line = [] ∧ c = false then .ok (spaces, [], false, st)
    else if line = [] then
      if state = .title then parseHeader fuel st state
      else .ok (spaces, line, c, st)
    else if (gs "////").isPrefixOf line then
      parseHeader fuel (parseIgnoreCommentBlock fuel st) state
    else if (gs "//").isPrefixOf line then parseHeader fuel st state
    else
      -- outcome of the attribute-line pre-check: loop again (valid
      -- attribute), return the line, or fall through to the state switch
      let attrStep : GoRes (Option (Option PState)) :=
        if line.head? = some ':' then
          match parseAttribute line false with
          | .error e => .error e
          | .ok (some (k, v)) =>
            .ok (some (some { st with attributes := mapSet st.attributes k v }))
          | .ok none =>
            if state ≠ .title then .ok none else .ok (some none)
        else .ok (some none)
      match attrStep with
      | .error e => .error e
      | .ok none => .ok (spaces, line, c, st)
      | .ok (some (some st')) => parseHeader fuel st' state
      | .ok (some none) =>
        match state with
        | .title =>
          match isTitle line with
          | .error e => .error e
          | .ok false => .ok (spaces, line, c, st)
          | .ok true =>
            let t := trimSpace (line.drop 2)
            parseHeader fuel
              { st with headerRaw := some t, title := t } .author
        | .author =>
          parseHeader fuel { st with author := line } .revision
        | .revision =>
          match parseHeaderRevision line with
          | .error e => .error e
          | .ok none => .ok (spaces, line, c, st)
          | .ok (some (num, sep, date)) =>
            parseHeader fuel
              { st with revNumber := num, revSeparator := sep, revDate := date }
              .hEnd
        | .hEnd => .ok (spaces, line, c, st)

/-! ## adocNode line parsers -/

/-- First scan loop of the ordered/unordered item parsers: count the marker
characters, stop at the first space or tab, skip everything else. -/
def scanMarks (mark : Char) : GoStr → Nat → Nat × GoStr
  | [], n => (n, [])
  | ch :: r, n =>
    if ch = mark then scanMarks mark r (n + 1)
    else if isSpaceTab ch then (n, ch :: r)
    else scanMarks mark r n

/-- adocNode.parseListOrdered: count dots, skip spaces, keep the rest as raw
text with a newline. -/
def nodeParseListOrdered (d : NodeData) (line : GoStr) : NodeData :=
  let (inc, rest1) := scanMarks '.' line 0
  let rest := rest1.dropWhile isSpaceTab
  { d with level := d.level + inc, raw := d.raw ++ rest ++ ['\n'] }

/-- adocNode.parseListUnordered: same with stars. -/
def nodeParseListUnordered (d : NodeData) (line : GoStr) : NodeData :=
  let (inc, rest1) := scanMarks '*' line 0
  let rest := rest1.dropWhile isSpaceTab
  { d with level := d.level + inc, raw := d.raw ++ rest ++ ['\n'] }

/-- adocNode.parseListDescription: the term is everything before the first
colon, each colon of the following run increments the level, which is then
decremented by two; the remainder (if longer than one byte) contributes the
node raw after skipping leading spaces.  The one-byte cutoff and the
whitespace-only fallback reproduce the byte-index arithmetic of the source
(the range loop retains the byte index of the last rune when it runs off the
end). -/
def nodeParseListDescription (d : NodeData) (line : GoStr) : NodeData :=
  if line.contains ':' then
    let term := line.takeWhile (· ≠ ':')
    let rest1 := line.dropWhile (· ≠ ':')
    let k := (rest1.takeWhile (· = ':')).length
    let afterCol := rest1.dropWhile (· = ':')
    let lineB := if afterCol ≠ [] ∧ utf8Len afterCol > 1 then afterCol else []
    let rawAdd :=
      if lineB = [] then []
      else
        let nonsp := lineB.dropWhile isSpaceTab
        if nonsp ≠ [] then nonsp else [lineB.getLastD ' ']
    { d with
        rawTerm := d.rawTerm ++ term,
        level := d.level + k - 2,
        raw := d.raw ++ rawAdd }
  else
    match line with
    | [] => { d with level := d.level - 2 }
    | _ =>
      let lastc := line.getLastD ' '
      { d with
          rawTerm := d.rawTerm ++ line,
          level := d.level - 2,
          raw := d.raw ++ (if lastc.utf8Size > 1 then [lastc] else []) }

/-- adocNode.parseStyleClass: strip brackets, split on dots, collect the
nonempty trimmed parts as classes. -/
def parseStyleClass (d : NodeData) (line : GoStr) : NodeData :=
  let line := trimIn line (gs "[]")
  let parts := splitChar '.' line
  parts.foldl
    (fun d cl =>
      let cl := trimSpace cl
      if cl ≠ [] then { d with classes := d.classes ++ [cl] } else d)
    d

/-- adocNode.parseLineAdmonition: lowercase label becomes a class, its
title-cased form the terminology, the trimmed remainder the raw text.
Callers only reach this for classifier-approved admonition lines, which
always contain a colon; the colon-free fallback is therefore dead code. -/
def parseLineAdmonition (d : NodeData) (line : GoStr) : NodeData :=
  match indexOfChar ':' line with
  | none => d
  | some sep =>
    let cl := toLowerStr (line.take sep)
    let rest := trimSpace (line.drop (sep + 1))
    { d with
        classes := d.classes ++ [cl],
        rawTerm := d.rawTerm ++ titleCase cl,
        raw := d.raw ++ rest ++ ['\n'] }

/-- Modelled from the spec: the method setStyleAdmonition is not present in
the sources (only its call sites are).  Per the specification an admonition
style line decorates the pending node with a class equal to the lowercase
admonition name, which the backend renders as the block label. -/
def setStyleAdmonition (d : NodeData) (name : GoStr) : NodeData :=
  let cl := toLowerStr name
  { d with classes := d.classes ++ [cl], rawTerm := d.rawTerm ++ titleCase cl }

/-- Modelled from the spec: the method IsStyleAdmonition on a node is not in
the sources; consistently with the free function isStyleAdmonition it tests
the admonition style bit of the node. -/
def nodeIsStyleAdmonition (d : NodeData) : Bool := isStyleAdmonitionB d.style

/-- adocNode.parseImage: needs a bracketed attribute list; positional
attributes are alt, width, height, later named float/align/role values
become classes.  Slicing panics when the closing bracket sits left of the
opening one. -/
def parseImage (d : NodeData) (line : GoStr) : GoRes (Option NodeData) :=
  match indexOfChar '[' line with
  | none => .ok none
  | some attrBegin =>
    match indexOfChar ']' line with
    | none => .ok none
    | some attrEnd =>
      let name := trimRightIn (line.take attrBegin) (gs " \t")
      if attrBegin + 1 > attrEnd then .error .oob
      else
        let d := { d with raw := d.raw ++ name }
        let attrs := splitChar ',' ((line.take attrEnd).drop (attrBegin + 1))
        let step : NodeData → Nat × GoStr → NodeData := fun d (x, attr) =>
          if x = 0 then
            let alt := trimSpace attr
            let alt :=
              if alt = [] then
                match indexOfChar '.' name with
                | some dot => if dot > 0 then name.take dot else alt
                | none => alt
              else alt
            { d with alt := alt }
          else if x = 1 then { d with width := attr }
          else if x = 2 then { d with height := attr }
          else
            match split2 '=' attr with
            | [k, v] =>
              let val := trimIn v (gs "\"")
              if k = gs "float" ∨ k = gs "align" ∨ k = gs "role" then
                let val := if val = gs "center" then gs "text-center" else val
                if val ≠ [] then { d with classes := d.classes ++ [val] } else d
              else d
            | _ => d
        .ok (some (attrs.enum.foldl step d))

/-! ## parseBlockAttribute

The tokenizer it uses comes from the external shuLhan/share parser library
(not part of this repository); Token and ReadEnclosed are modelled from
that library's documented behaviour: Token scans up to the next delimiter
of the set bracket/comma/equals/quote and returns the text before it
together with the delimiter (none at end of input); ReadEnclosed reads up
to the closing quote. -/

def pbaDelims : GoStr := ['[', ',', '=', '"']

/-- One Token call of the modelled tokenizer. -/
def pbaToken (s : GoStr) : GoStr × Option Char × GoStr :=
  let t := s.takeWhile (fun c => ¬ pbaDelims.contains c)
  match s.dropWhile (fun c => ¬ pbaDelims.contains c) with
  | [] => (t, none, [])
  | d :: rest => (t, some d, rest)

/-- One ReadEnclosed call (closing quote) of the modelled tokenizer. -/
def pbaReadQuoted (s : GoStr) : GoStr × Option Char × GoStr :=
  let t := s.takeWhile (· ≠ '"')
  match s.dropWhile (· ≠ '"') with
  | [] => (t, none, [])
  | d :: rest => (t, some d, rest)

/-- The inner skip loop: Token until a comma or end of input, returning the
remaining text and the final delimiter. -/
def pbaSkip : Nat → GoStr → Option Char → GoStr × Option Char
  | 0, s, c => (s, c)
  | fuel + 1, s, c =>
    if c = some ',' ∨ c = none then (s, c)
    else
      let (_, c', s') := pbaToken s
      pbaSkip fuel s' c'

/-- Main loop of parseBlockAttribute. -/
def pbaLoop : Nat → GoStr → Option Char → List GoStr → List GoStr
  | 0, _, _, out => out
  | fuel + 1, s, c, out =>
    if c = none then out
    else
      let (tok, c, s) := pbaToken s
      let tok := trimSpace tok
      if c = some ',' ∨ c = some ']' then
        let out := if tok ≠ [] then out ++ [tok] else out
        if c = some ']' then out
        else pbaLoop fuel s c out
      else if c ≠ some '=' then
        let (s, c) := pbaSkip fuel s c
        pbaLoop fuel s c out
      else
        let key := tok
        let (tok, c, s) := pbaToken s
        let tok := trimSpace tok
        if c = some '"' then
          let (q, c', s') := pbaReadQuoted s
          let q := trimSpace q
          let out := out ++ [key ++ '=' :: q]
          let (s'', c'') := pbaSkip fuel s' c'
          pbaLoop fuel s'' c'' out
        else
          let out := out ++ [key ++ '=' :: tok]
          let (s', c') := pbaSkip fuel s c
          pbaLoop fuel s' c' out

/-- parseBlockAttribute: parse a bracketed attribute list into entries of
the form name or name=value. -/
def parseBlockAttribute (s : GoStr) : List GoStr :=
  let (tok, c, rest) := pbaToken s
  if c ≠ some '[' then []
  else if tok ≠ [] then []
  else pbaLoop (s.length + 2) rest c []

/-- adocNode.parseVideo: the text before the bracket is the source; the
bracketed attribute list may carry a leading youtube/vimeo marker and
width/height/options and friends.  Slicing panics when the opening bracket
sits more than one position right of the closing one. -/
def parseVideo (d : NodeData) (line : GoStr) : GoRes (Option NodeData) :=
  match indexOfChar '[' line with
  | none => .ok none
  | some attrBegin =>
    match indexOfChar ']' line with
    | none => .ok none
    | some attrEnd =>
      if attrBegin > attrEnd + 1 then .error .oob
      else
        let videoSrc := trimRightIn (line.take attrBegin) (gs " \t")
        let attrs := parseBlockAttribute ((line.take (attrEnd + 1)).drop attrBegin)
        let d := { d with attrs := mapSet d.attrs (gs "src") videoSrc }
        let step : NodeData → Nat × GoStr → NodeData := fun d (x, attr) =>
          let kv := splitChar '=' attr
          let key := toLowerStr (kv.headD [])
          let val := if kv.length ≥ 2 then kv[1]! else gs "1"
          if x = 0 ∧ key = gs "youtube" then
            { d with attrs := mapSet d.attrs key val }
          else if x = 0 ∧ key = gs "vimeo" then
            { d with attrs := mapSet d.attrs key val }
          else if key = gs "width" then { d with width := val }
          else if key = gs "height" then { d with height := val }
          else if key = gs "options" ∨ key = gs "poster" ∨ key = gs "start" ∨
              key = gs "end" ∨ key = gs "theme" ∨ key = gs "lang" then
            { d with attrs := mapSet d.attrs key val }
          else d
        .ok (some (attrs.enum.foldl step d))

/-- adocNode.parseBlockAudio: source plus attribute list; an options
attribute is exploded into the Opts map with controls defaulting to 1. -/
def parseBlockAudio (d : NodeData) (line : GoStr) : GoRes (Option NodeData) :=
  match indexOfChar '[' line with
  | none => .ok none
  | some attrBegin =>
    match indexOfChar ']' line with
    | none => .ok none
    | some attrEnd =>
      if attrBegin > attrEnd + 1 then .error .oob
      else
        let src := trimRightIn (line.take attrBegin) (gs " \t")
        let attrs := parseBlockAttribute ((line.take (attrEnd + 1)).drop attrBegin)
        let d := { d with attrs := mapSet [] (gs "src") src }
        let step : NodeData → GoStr → NodeData := fun d attr =>
          let kv := splitChar '=' attr
          let key := toLowerStr (kv.headD [])
          let val := if kv.length ≥ 2 then kv[1]! else gs "1"
          if key = gs "options" then
            let d := { d with attrs := mapSet d.attrs key val }
            let opts := splitChar ',' val
            let o0 := mapSet [] (gs "controls") (gs "1")
            let opts' := opts.foldl
              (fun o opt =>
                if opt = gs "nocontrols" then mapSet o (gs "controls") (gs "0")
                else if opt = gs "controls" then mapSet o (gs "controls") (gs "1")
                else mapSet o opt (gs "1"))
              o0
            { d with opts := opts' }
          else d
        .ok (some (attrs.foldl step d))

/-! ## GenerateID

The source lowercases with strings.ToLower and classifies with
unicode.IsLetter/IsDigit.  Those table-driven functions are abstracted into
a unicode model; theorems assume only properties that the Go unicode
package satisfies (simple case folding is idempotent, the underscore is
neither letter nor digit and is fixed by lowering). -/

structure UnicodeModel where
  isLetter : Char → Bool
  isDigit : Char → Bool
  lower : Char → Char

/-- A character that survives into a generated ID. -/
def UnicodeModel.keep (um : UnicodeModel) (c : Char) : Bool :=
  um.isLetter c || um.isDigit c

/-- The character loop of GenerateID, tracking the last emitted character
(the accumulator starts with the prepended underscore). -/
def gidAux (um : UnicodeModel) : GoStr → Char → GoStr
  | [], _ => []
  | c :: rest, last =>
    if um.keep c then c :: gidAux um rest c
    else if last ≠ '_' then '_' :: gidAux um rest '_'
    else gidAux um rest last

/-- adocNode.GenerateID: prepend an underscore, lowercase, keep letters and
digits, collapse everything else into single underscores, trim trailing
underscores. -/
def generateID (um : UnicodeModel) (s : GoStr) : GoStr :=
  trimRightIn ('_' :: gidAux um (s.map um.lower) '_') (gs "_")

/-! ## GetVideoSource -/

/-- The component form of a net/url URL value as assembled by
GetVideoSource (the Go code renders it with URL.String; the claims concern
its components, so serialization-time percent-escaping is not modelled). -/
structure VideoURL where
  scheme : GoStr
  host : GoStr
  path : GoStr
  query : List GoStr
  fragment : GoStr
deriving DecidableEq

/-- Result of GetVideoSource: an assembled embed URL or a direct source
string. -/
inductive VideoOut where
  | url (u : VideoURL)
  | direct (s : GoStr)
deriving DecidableEq

/-- The per-option case of the youtube branch's options loop: autoplay and
loop append opt=1, modest appends modestbranding=1, nocontrols appends
controls=0 and playlist=src, nofullscreen appends fs=0 and writes the
nofullscreen attribute. -/
def ytStep (src : GoStr) (acc : List GoStr × NodeData) (opt0 : GoStr) :
    List GoStr × NodeData :=
  let opt := trimSpace opt0
  if opt = gs "autoplay" ∨ opt = gs "loop" then (acc.1 ++ [opt ++ gs "=1"], acc.2)
  else if opt = gs "modest" then (acc.1 ++ [gs "modestbranding=1"], acc.2)
  else if opt = gs "nocontrols" then
    (acc.1 ++ [gs "controls=0", gs "playlist=" ++ src], acc.2)
  else if opt = gs "nofullscreen" then
    (acc.1 ++ [gs "fs=0"],
     { acc.2 with attrs := mapSet acc.2.attrs (gs "nofullscreen") (gs "1") })
  else acc

/-- The query parameters of the youtube branch (rel=0, then start and end
when present, the options loop, then theme and hl) together with the node
data as the loop leaves it. -/
def ytQD (d : NodeData) : List GoStr × NodeData :=
  let src := (mapGet d.attrs (gs "src")).getD []
  let opts := splitChar ',' ((mapGet d.attrs (gs "options")).getD [])
  let q := [gs "rel=0"]
  let q := q ++ (match mapGet d.attrs (gs "start") with
    | some v => [gs "start=" ++ v]
    | none => [])
  let q := q ++ (match mapGet d.attrs (gs "end") with
    | some v => [gs "end=" ++ v]
    | none => [])
  let r := opts.foldl (ytStep src) (q, d)
  let q := r.1 ++ (match mapGet r.2.attrs (gs "theme") with
    | some v => [gs "theme=" ++ v]
    | none => [])
  let q := q ++ (match mapGet r.2.attrs (gs "lang") with
    | some v => [gs "hl=" ++ v]
    | none => [])
  (q, r.2)

/-- adocNode.GetVideoSource, returning the URL components (or direct
source) together with the node data, whose Attrs map the source mutates on
the nofullscreen option and in the non-embedded branch. -/
def getVideoSource (d : NodeData) : VideoOut × NodeData :=
  let src := (mapGet d.attrs (gs "src")).getD []
  let opts := splitChar ',' ((mapGet d.attrs (gs "options")).getD [])
  if (mapGet d.attrs (gs "youtube")).isSome then
    (.url { scheme := gs "https", host := gs "www.youtube.com",
            path := gs "/embed/" ++ src, query := (ytQD d).1, fragment := [] },
     (ytQD d).2)
  else if (mapGet d.attrs (gs "vimeo")).isSome then
    let q := opts.foldl
      (fun q opt =>
        let opt := trimSpace opt
        if opt = gs "autoplay" ∨ opt = gs "loop" then q ++ [opt ++ gs "=1"]
        else q)
      []
    let fragment := (match mapGet d.attrs (gs "start") with
      | some v => gs "at=" ++ v
      | none => [])
    (.url { scheme := gs "https", host := gs "player.vimeo.com",
            path := gs "/video/" ++ src, query := q, fragment := fragment }, d)
  else
    let d := opts.foldl
      (fun d opt =>
        let opt := trimSpace opt
        if opt = gs "autoplay" ∨ opt = gs "loop" then
          { d with attrs := mapSet (mapSet d.attrs (gs "nocontrols") (gs "1")) opt (gs "1") }
        else d)
      d
    let fragment :=
      match mapGet d.attrs (gs "start") with
      | some v =>
        (match mapGet d.attrs (gs "end") with
         | some w => gs "t=" ++ v ++ gs "," ++ w
         | none => gs "t=" ++ v)
      | none =>
        (match mapGet d.attrs (gs "end") with
         | some w => gs "t=0," ++ w
         | none => [])
    let out := if fragment ≠ [] then src ++ gs "#" ++ fragment else src
    (.direct out, d)

/-! ## The tree-building machinery

The source maintains a mutable tree with parent pointers; nodeParent walks
the chain upward and addChild appends to the end of a child list.  This is
modelled with a spine of open frames: the content root at the bottom, the
preamble and the open sections above it.  Attaching a finished node appends
it to the children of the top frame; moving nodeParent one step up closes
the top frame into its neighbour.  Sub-parsers receive the (kind, level)
pairs of the ancestor chain of their parent argument, which is all the
ancestor search of the source inspects. -/

structure Frame where
  data : NodeData
  kids : List Node

structure Spine where
  frames : List Frame
  rootKids : List Node

/-- addChild on the current nodeParent (the top frame, or the content
root when no frame is open). -/
def Spine.attach (sp : Spine) (n : Node) : Spine :=
  match sp.frames with
  | [] => { sp with rootKids := sp.rootKids ++ [n] }
  | f :: rest => { sp with frames := { f with kids := f.kids ++ [n] } :: rest }

/-- terminateCurrentNode: attach the current node if it has a kind, then
reset the cursor. -/
def termCur (sp : Spine) (cur : Node) : Spine × Node :=
  if cur.data.kind ≠ .unknown then (sp.attach cur, freshNode) else (sp, freshNode)

/-- Helper of the nodeParent walk: the closed node n is appended to the
next frame, which is inspected in turn. -/
def walkPop (exp : Kind) (n : Node) : List Frame → List Node → List Frame × List Node
  | [], rk => ([], rk ++ [n])
  | g :: rest, rk =>
    let g' : Frame := ⟨g.data, g.kids ++ [n]⟩
    if g'.data.kind = exp then (g' :: rest, rk)
    else walkPop exp (.mk g'.data g'.kids) rest rk

/-- The nodeParent walk of the section handler: close frames until the top
frame has the expected kind; when no frame matches, everything closes into
the content root. -/
def walkAux (exp : Kind) : List Frame → List Node → List Frame × List Node
  | [], rk => ([], rk)
  | f :: rest, rk =>
    if f.data.kind = exp then (f :: rest, rk)
    else walkPop exp (.mk f.data f.kids) rest rk

def walkSpine (exp : Kind) (sp : Spine) : Spine :=
  let (fr, rk) := walkAux exp sp.frames sp.rootKids
  { frames := fr, rootKids := rk }

/-- Helper of closing: thread the already-closed node downward. -/
def closeIntoAux (n : Node) : List Frame → List Node → List Node
  | [], rk => rk ++ [n]
  | g :: rest, rk => closeIntoAux (.mk g.data (g.kids ++ [n])) rest rk

/-- Closing every frame at the end of the parse yields the children of the
content root. -/
def closeInto : List Frame → List Node → List Node
  | [], rk => rk
  | f :: rest, rk => closeIntoAux (.mk f.data f.kids) rest rk

/-- consumeLinesUntil: read lines until the terminator kind (consuming it)
or one of the other terminating kinds (returning the line); comments are
skipped; each consumed line contributes its text plus a newline, with a
joining space when the node is a paragraph and the line was indented.
Returns the accumulated raw text, the terminating line, its delimiter flag
and the updated state. -/
def consumeLU : Nat → PState → Bool → Kind → List Kind → GoStr × GoStr × Bool × PState
  | 0, st, _, _, _ => ([], [], false, st)
  | fuel + 1, st, isPara, term, terms =>
    let (spaces, line, c, st) := docLine st
    if line = [] ∧ c = false then ([], line, c, st)
    else if st.kind = .lineBlockComment then
      consumeLU fuel (parseIgnoreCommentBlock fuel st) isPara term terms
    else if st.kind = .lineComment then consumeLU fuel st isPara term terms
    else if st.kind = term then ([], [], false, st)
    else if terms.contains st.kind then ([], line, c, st)
    else
      let piece := (if isPara ∧ spaces ≠ [] then [' '] else []) ++ line ++ ['\n']
      let (rest, l, cc, st') := consumeLU fuel st isPara term terms
      (piece ++ rest, l, cc, st')

/-- parseListBlock: consume the single block following a list-continuation
line and return it (if any) together with the next line. -/
def parseListBlockF : Nat → PState → Option Node × GoStr × Bool × PState
  | 0, st => (none, [], false, st)
  | fuel + 1, st =>
    let (_, line, c, st) := docLine st
    if line = [] ∧ c = false then (none, line, c, st)
    else if st.kind = .lineAdmonition then
      let d := parseLineAdmonition { kind := .lineAdmonition } line
      let (rawAdd, line, c, st) := consumeLU fuel st false .lineEmpty
        [.blockListingDelimiter, .blockLiteralDelimiter, .blockLiteralNamed,
         .lineListContinue]
      (some (.mk { d with raw := d.raw ++ rawAdd } []), line, c, st)
    else if st.kind = .lineBlockComment then
      parseListBlockF fuel (parseIgnoreCommentBlock fuel st)
    else if st.kind = .lineComment then parseListBlockF fuel st
    else if st.kind = .lineEmpty then (none, line, c, st)
    else if st.kind = .lineListContinue then parseListBlockF fuel st
    else if st.kind = .literalParagraph then
      let d : NodeData := { kind := .literalParagraph,
                            raw := trimLeftIn line (gs " \t") ++ ['\n'] }
      let (rawAdd, line, c, st) := consumeLU fuel st false .lineEmpty
        [.lineListContinue, .listOrderedItem, .listUnorderedItem]
      (some (.mk { d with raw := d.raw ++ rawAdd } []), line, c, st)
    else if st.kind = .lineText then
      let d : NodeData := { kind := .paragraph, raw := line ++ ['\n'] }
      let (rawAdd, line, c, st) := consumeLU fuel st true .lineEmpty
        [.lineListContinue, .listOrderedItem, .listUnorderedItem,
         .listDescriptionItem]
      (some (.mk { d with raw := d.raw ++ rawAdd } []), line, c, st)
    else if st.kind = .blockListingDelimiter then
      let (rawAdd, _, _, st) := consumeLU fuel st false .blockListingDelimiter []
      (some (.mk { kind := .blockListingDelimiter, raw := rawAdd } []), [], false, st)
    else if st.kind = .listOrderedItem ∨ st.kind = .listUnorderedItem ∨
        st.kind = .listDescriptionItem then
      (none, line, c, st)
    else parseListBlockF fuel st

/-- The ancestor search of the list parsers: walk the (kind, level) chain
looking for a list item of the given kind and level. -/
def ancestorHas (ancestors : List (Kind × Int)) (k : Kind) (lvl : Int) : Bool :=
  ancestors.any (fun p => p.1 = k ∧ p.2 = lvl)

mutual

/-- Document.parseListOrdered: build an ordered-list container whose first
item comes from the given line, then consume sibling items, nested lists
and attached blocks until a line ends the list. -/
def parseListOrderedF (fuel : Nat) (st : PState) (curTitle : GoStr)
    (curStyle : Nat) (ancestors : List (Kind × Int)) (title : GoStr)
    (line : GoStr) : GoStr × Bool × PState × Node :=
  match fuel with
  | 0 => ([], false, st, freshNode)
  | fuel + 1 =>
    let itemD := nodeParseListOrdered { kind := .listOrderedItem } line
    let listD : NodeData :=
      { kind := .listOrdered, rawTitle := title, level := itemD.level }
    ordLoop fuel st curTitle curStyle ancestors listD [] itemD [] [] false
termination_by structural fuel

/-- The loop of parseListOrdered. -/
def ordLoop (fuel : Nat) (st : PState) (curTitle : GoStr) (curStyle : Nat)
    (ancestors : List (Kind × Int)) (listD : NodeData) (done : List Node)
    (curD : NodeData) (curKids : List Node) (line : GoStr) (c : Bool) :
    GoStr × Bool × PState × Node :=
  match fuel with
  | 0 => (line, c, st, .mk listD (done ++ [.mk curD curKids]))
  | fuel + 1 =>
    let fin : Node := .mk listD (done ++ [.mk curD curKids])
    if line = [] then
      let (_, line, c, st) := docLine st
      if line = [] ∧ c = false then (line, c, st, fin)
      else ordLoop fuel st curTitle curStyle ancestors listD done curD curKids line c
    else
      let fin : Node := .mk listD (done ++ [.mk curD curKids])
      if st.kind = .lineBlockComment then
        ordLoop fuel (parseIgnoreCommentBlock fuel st) curTitle curStyle
          ancestors listD done curD curKids [] c
      else if st.kind = .lineComment then
        ordLoop fuel st curTitle curStyle ancestors listD done curD curKids [] c
      else if st.kind = .lineListContinue then
        let (n?, line, c, st) := parseListBlockF fuel st
        let curKids := match n? with
          | some n => curKids ++ [n]
          | none => curKids
        ordLoop fuel st curTitle curStyle ancestors listD done curD curKids line c
      else if st.kind = .lineEmpty then
        ordLoop fuel st curTitle curStyle ancestors listD done curD curKids line c
      else if st.kind = .lineStyle ∧ st.prevKind = .lineEmpty then (line, c, st, fin)
      else if st.kind = .listOrderedItem then
        let nd := nodeParseListOrdered { kind := .listOrderedItem } line
        if curD.level = nd.level then
          ordLoop fuel st curTitle curStyle ancestors listD
            (done ++ [.mk curD curKids]) nd [] [] c
        else if ancestorHas ancestors .listOrderedItem nd.level then (line, c, st, fin)
        else
          let anc' := (curD.kind, curD.level) :: (listD.kind, listD.level) :: ancestors
          let (line, c, st, sub) :=
            parseListOrderedF fuel st curTitle curStyle anc' [] line
          ordLoop fuel st curTitle curStyle ancestors listD done curD
            (curKids ++ [sub]) line c
      else if st.kind = .listUnorderedItem then
        let nd := nodeParseListUnordered { kind := .listUnorderedItem } line
        if ancestorHas ancestors .listUnorderedItem nd.level then (line, c, st, fin)
        else
          let anc' := (curD.kind, curD.level) :: (listD.kind, listD.level) :: ancestors
          let (line, c, st, sub) :=
            parseListUnorderedF fuel st curTitle curStyle anc' line
          ordLoop fuel st curTitle curStyle ancestors listD done curD
            (curKids ++ [sub]) line c
      else if st.kind = .listDescriptionItem then
        let nd := nodeParseListDescription { kind := .listDescriptionItem } line
        if ancestorHas ancestors .listDescriptionItem nd.level then (line, c, st, fin)
        else
          let anc' := (curD.kind, curD.level) :: (listD.kind, listD.level) :: ancestors
          let (line, c, st, sub) :=
            parseListDescriptionF fuel st curTitle curStyle anc' line
          ordLoop fuel st curTitle curStyle ancestors listD done curD
            (curKids ++ [sub]) line c
      else if st.kind = .lineAdmonition ∧ st.prevKind = .lineEmpty then (line, c, st, fin)
      else if st.kind = .lineText ∧ st.prevKind = .lineEmpty then (line, c, st, fin)
      else if st.kind = .blockLiteralNamed then
        if st.prevKind = .lineEmpty then (line, c, st, fin)
        else
          let (rawAdd, line, c, st) := consumeLU fuel st false .lineEmpty
            [.listOrderedItem, .listUnorderedItem]
          let n : Node := .mk { kind := .blockLiteralNamed, raw := rawAdd } []
          ordLoop fuel st curTitle curStyle ancestors listD done curD
            (curKids ++ [n]) line c
      else if st.kind = .blockListingDelimiter ∨ st.kind = .blockExample then
        (line, c, st, fin)
      else if isSectionKind st.kind ∧ st.prevKind = .lineEmpty then (line, c, st, fin)
      else
        ordLoop fuel st curTitle curStyle ancestors listD done
          { curD with raw := curD.raw ++ trimSpace line ++ ['\n'] } curKids [] c
termination_by structural fuel

/-- Document.parseListUnordered. -/
def parseListUnorderedF (fuel : Nat) (st : PState) (curTitle : GoStr)
    (curStyle : Nat) (ancestors : List (Kind × Int)) (line : GoStr) :
    GoStr × Bool × PState × Node :=
  match fuel with
  | 0 => ([], false, st, freshNode)
  | fuel + 1 =>
    let itemD := nodeParseListUnordered { kind := .listUnorderedItem } line
    let listD : NodeData :=
      { kind := .listUnordered, rawTitle := curTitle, level := itemD.level }
    unordLoop fuel st curTitle curStyle ancestors listD [] itemD [] [] false
termination_by structural fuel

/-- The loop of parseListUnordered. -/
def unordLoop (fuel : Nat) (st : PState) (curTitle : GoStr) (curStyle : Nat)
    (ancestors : List (Kind × Int)) (listD : NodeData) (done : List Node)
    (curD : NodeData) (curKids : List Node) (line : GoStr) (c : Bool) :
    GoStr × Bool × PState × Node :=
  match fuel with
  | 0 => (line, c, st, .mk listD (done ++ [.mk curD curKids]))
  | fuel + 1 =>
    let fin : Node := .mk listD (done ++ [.mk curD curKids])
    if line = [] then
      let (_, line, c, st) := docLine st
      if line = [] ∧ c = false then (line, c, st, fin)
      else unordLoop fuel st curTitle curStyle ancestors listD done curD curKids line c
    else
      if st.kind = .lineBlockComment then
        unordLoop fuel (parseIgnoreCommentBlock fuel st) curTitle curStyle
          ancestors listD done curD curKids [] c
      else if st.kind = .lineComment then
        unordLoop fuel st curTitle curStyle ancestors listD done curD curKids [] c
      else if st.kind = .lineListContinue then
        let (n?, line, c, st) := parseListBlockF fuel st
        let curKids := match n? with
          | some n => curKids ++ [n]
          | none => curKids
        unordLoop fuel st curTitle curStyle ancestors listD done curD curKids line c
      else if st.kind = .lineEmpty then
        unordLoop fuel st curTitle curStyle ancestors listD done curD curKids line c
      else if st.kind = .lineStyle ∧ st.prevKind = .lineEmpty then (line, c, st, fin)
      else if st.kind = .listOrderedItem then
        let nd := nodeParseListOrdered { kind := .listOrderedItem } line
        if ancestorHas ancestors .listOrderedItem nd.level then (line, c, st, fin)
        else
          let anc' := (curD.kind, curD.level) :: (listD.kind, listD.level) :: ancestors
          let (line, c, st, sub) :=
            parseListOrderedF fuel st curTitle curStyle anc' [] line
          unordLoop fuel st curTitle curStyle ancestors listD done curD
            (curKids ++ [sub]) line c
      else if st.kind = .listUnorderedItem then
        let nd := nodeParseListUnordered { kind := .listUnorderedItem } line
        if curD.level = nd.level then
          unordLoop fuel st curTitle curStyle ancestors listD
            (done ++ [.mk curD curKids]) nd [] [] c
        else if ancestorHas ancestors .listUnorderedItem nd.level then (line, c, st, fin)
        else
          let anc' := (curD.kind, curD.level) :: (listD.kind, listD.level) :: ancestors
          let (line, c, st, sub) :=
            parseListUnorderedF fuel st curTitle curStyle anc' line
          unordLoop fuel st curTitle curStyle ancestors listD done curD
            (curKids ++ [sub]) line c
      else if st.kind = .listDescriptionItem then
        let nd := nodeParseListDescription { kind := .listDescriptionItem } line
        if ancestorHas ancestors .listDescriptionItem nd.level then (line, c, st, fin)
        else
          let anc' := (curD.kind, curD.level) :: (listD.kind, listD.level) :: ancestors
          let (line, c, st, sub) :=
            parseListDescriptionF fuel st curTitle curStyle anc' line
          unordLoop fuel st curTitle curStyle ancestors listD done curD
            (curKids ++ [sub]) line c
      else if st.kind = .lineAdmonition ∧ st.prevKind = .lineEmpty then (line, c, st, fin)
      else if st.kind = .lineText ∧ st.prevKind = .lineEmpty then (line, c, st, fin)
      else if st.kind = .blockLiteralNamed then
        if st.prevKind = .lineEmpty then (line, c, st, fin)
        else
          let (rawAdd, line, c, st) := consumeLU fuel st false .lineEmpty
            [.listOrderedItem, .listUnorderedItem]
          let n : Node := .mk { kind := .blockLiteralNamed, raw := rawAdd } []
          unordLoop fuel st curTitle curStyle ancestors listD done curD
            (curKids ++ [n]) line c
      else if st.kind = .blockListingDelimiter ∨ st.kind = .blockExample then
        (line, c, st, fin)
      else if isSectionKind st.kind ∧ st.prevKind = .lineEmpty then (line, c, st, fin)
      else
        unordLoop fuel st curTitle curStyle ancestors listD done
          { curD with raw := curD.raw ++ trimSpace line ++ ['\n'] } curKids [] c
termination_by structural fuel

/-- Document.parseListDescription. -/
def parseListDescriptionF (fuel : Nat) (st : PState) (curTitle : GoStr)
    (curStyle : Nat) (ancestors : List (Kind × Int)) (line : GoStr) :
    GoStr × Bool × PState × Node :=
  match fuel with
  | 0 => ([], false, st, freshNode)
  | fuel + 1 =>
    let itemD := nodeParseListDescription
      { kind := .listDescriptionItem, style := curStyle } line
    let listD : NodeData :=
      { kind := .listDescription, rawTitle := curTitle, style := curStyle,
        level := itemD.level }
    descLoop fuel st curTitle curStyle ancestors listD [] itemD [] [] false
termination_by structural fuel

/-- The loop of parseListDescription. -/
def descLoop (fuel : Nat) (st : PState) (curTitle : GoStr) (curStyle : Nat)
    (ancestors : List (Kind × Int)) (listD : NodeData) (done : List Node)
    (curD : NodeData) (curKids : List Node) (line : GoStr) (c : Bool) :
    GoStr × Bool × PState × Node :=
  match fuel with
  | 0 => (line, c, st, .mk listD (done ++ [.mk curD curKids]))
  | fuel + 1 =>
    let fin : Node := .mk listD (done ++ [.mk curD curKids])
    if line = [] then
      let (_, line, c, st) := docLine st
      if line = [] ∧ c = false then (line, c, st, fin)
      else descLoop fuel st curTitle curStyle ancestors listD done curD curKids line c
    else
      if st.kind = .lineBlockComment then
        descLoop fuel (parseIgnoreCommentBlock fuel st) curTitle curStyle
          ancestors listD done curD curKids [] c
      else if st.kind = .lineComment then
        descLoop fuel st curTitle curStyle ancestors listD done curD curKids [] c
      else if st.kind = .lineListContinue then
        let (n?, line, c, st) := parseListBlockF fuel st
        let curKids := match n? with
          | some n => curKids ++ [n]
          | none => curKids
        descLoop fuel st curTitle curStyle ancestors listD done curD curKids line c
      else if st.kind = .lineEmpty then
        descLoop fuel st curTitle curStyle ancestors listD done curD curKids line c
      else if st.kind = .lineStyle ∧ st.prevKind = .lineEmpty then (line, c, st, fin)
      else if st.kind = .listOrderedItem then
        let anc' := (curD.kind, curD.level) :: (listD.kind, listD.level) :: ancestors
        let (line, c, st, sub) :=
          parseListOrderedF fuel st curTitle curStyle anc' [] line
        descLoop fuel st curTitle curStyle ancestors listD done curD
          (curKids ++ [sub]) line c
      else if st.kind = .listUnorderedItem then
        let anc' := (curD.kind, curD.level) :: (listD.kind, listD.level) :: ancestors
        let (line, c, st, sub) :=
          parseListUnorderedF fuel st curTitle curStyle anc' line
        descLoop fuel st curTitle curStyle ancestors listD done curD
          (curKids ++ [sub]) line c
      else if st.kind = .listDescriptionItem then
        let nd := nodeParseListDescription
          { kind := .listDescriptionItem, style := listD.style } line
        if curD.level = nd.level then
          descLoop fuel st curTitle curStyle ancestors listD
            (done ++ [.mk curD curKids]) nd [] [] c
        else if ancestorHas ancestors .listDescriptionItem nd.level then (line, c, st, fin)
        else
          let anc' := (curD.kind, curD.level) :: (listD.kind, listD.level) :: ancestors
          let (line, c, st, sub) :=
            parseListDescriptionF fuel st curTitle curStyle anc' line
          descLoop fuel st curTitle curStyle ancestors listD done curD
            (curKids ++ [sub]) line c
      else if st.kind = .lineText ∧ st.prevKind = .lineEmpty then (line, c, st, fin)
      else if st.kind = .blockLiteralNamed then
        if st.prevKind = .lineEmpty then (line, c, st, fin)
        else
          let (rawAdd, line, c, st) := consumeLU fuel st false .lineEmpty
            [.listOrderedItem, .listUnorderedItem]
          let n : Node := .mk { kind := .blockLiteralNamed, raw := rawAdd } []
          descLoop fuel st curTitle curStyle ancestors listD done curD
            (curKids ++ [n]) line c
      else if st.kind = .blockListingDelimiter ∨ st.kind = .blockExample then
        (line, c, st, fin)
      else if isSectionKind st.kind ∧ st.prevKind = .lineEmpty then (line, c, st, fin)
      else
        descLoop fuel st curTitle curStyle ancestors listD done
          { curD with raw := curD.raw ++ trimSpace line ++ ['\n'] } curKids [] c
termination_by structural fuel
end

/-! ## The block sub-parser (open and example blocks)

parseBlock builds children of the block node until the closing delimiter.
Its page-break case mutates doc.nodeCurrent, which on entry aliases the
block node itself; its image case may run terminateCurrentNode, attaching
the block node to the spine early and breaking the alias.  Both effects are
reproduced: blockD tracks the block node (aliased while `aliased`), freshC
the cursor after the alias is broken, `early` whether the block was already
attached (with `snaps` the cursor snapshots attached after it). -/

structure BlockSt where
  st : PState
  blockD : NodeData
  blockKids : List Node
  nodeD : NodeData
  aliased : Bool
  freshC : NodeData
  snaps : List Node
  early : Bool

mutual

/-- One continuation of the parseBlock loop. -/
def blockLoop (fuel : Nat) (b : BlockSt) (term : Kind) (line : GoStr)
    (spaces : GoStr) (c : Bool) : GoRes BlockSt :=
  match fuel with
  | 0 => .ok b
  | fuel + 1 =>
    if line = [] then
      let (spaces, line, c, st) := docLine b.st
      let b := { b with st := st }
      if line = [] ∧ c = false then .ok b
      else blockStep fuel b term line spaces c
    else blockStep fuel b term line spaces c

/-- The dispatch of one parseBlock iteration. -/
def blockStep (fuel : Nat) (b : BlockSt) (term : Kind) (line : GoStr)
    (spaces : GoStr) (c : Bool) : GoRes BlockSt :=
  match fuel with
  | 0 => .ok b
  | fuel + 1 =>
    let k := b.st.kind
    if k = .lineEmpty then
      let b :=
        if b.nodeD.kind ≠ .unknown then
          { b with blockKids := b.blockKids ++ [.mk b.nodeD []], nodeD := {} }
        else b
      blockLoop fuel b term line spaces c
    else if k = .lineBlockComment then
      blockLoop fuel { b with st := parseIgnoreCommentBlock fuel b.st } term [] spaces c
    else if k = .lineComment then blockLoop fuel b term [] spaces c
    else if k = .lineHorizontalRule then
      let b :=
        if b.nodeD.kind ≠ .unknown then
          { b with blockKids := b.blockKids ++ [.mk b.nodeD []], nodeD := {} }
        else b
      let b := { b with
          blockKids := b.blockKids ++ [.mk { b.nodeD with
          kind := .lineHorizontalRule } []],
          nodeD := {} }
      blockLoop fuel b term [] spaces c
    else if k = .linePageBreak then
      let curKind := if b.aliased then b.blockD.kind else b.freshC.kind
      let b :=
        if curKind ≠ .unknown then
          { b with blockKids := b.blockKids ++ [.mk b.nodeD []], nodeD := {} }
        else b
      let b :=
        if b.aliased then { b with blockD := { b.blockD with kind := .linePageBreak } }
        else { b with freshC := { b.freshC with kind := .linePageBreak } }
      let b := { b with blockKids := b.blockKids ++ [.mk b.nodeD []], nodeD := {} }
      blockLoop fuel b term [] spaces c
    else if k = .lineAttribute then
      match parseAttribute line true with
      | .error e => .error e
      | .ok (some (key, v)) =>
        let b := { b with st := { b.st with attributes := mapSet b.st.attributes key v } }
        blockLoop fuel b term [] spaces c
      | .ok none =>
        if b.nodeD.kind = .unknown then
          let nd := { b.nodeD with kind := .paragraph, raw := b.nodeD.raw ++ line ++ ['\n'] }
          let (rawAdd, line, c, st) := consumeLU fuel b.st true .lineEmpty
            [term, .blockListingDelimiter, .blockLiteralDelimiter,
             .blockLiteralNamed, .lineListContinue]
          let b := { b with
              st := st,
              blockKids := b.blockKids ++ [.mk { nd with
              raw := nd.raw ++ rawAdd } []],
              nodeD := {} }
          blockLoop fuel b term line spaces c
        else
          blockLoop fuel
            { b with nodeD := { b.nodeD with raw := b.nodeD.raw ++ line } }
            term [] spaces c
    else if k = .lineStyle then
      let (styleName, styleKind) := parseStyle line
      if styleKind ≠ 0 then
        let nd := { b.nodeD with style := b.nodeD.style ||| styleKind }
        let nd := if isStyleAdmonitionB styleKind then setStyleAdmonition nd styleName else nd
        blockLoop fuel { b with nodeD := nd } term [] spaces c
      else blockLoop fuel b term [] spaces c
    else if k = .lineStyleClass then
      blockLoop fuel { b with nodeD := parseStyleClass b.nodeD line } term [] spaces c
    else if k = .lineText ∨ k = .lineListContinue ∨ isSectionKind k then
      if b.nodeD.kind = .unknown then
        let nd := { b.nodeD with kind := .paragraph, raw := b.nodeD.raw ++ line ++ ['\n'] }
        let (rawAdd, line, c, st) := consumeLU fuel b.st true .lineEmpty
          [term, .blockListingDelimiter, .blockLiteralDelimiter,
           .blockLiteralNamed, .lineListContinue]
        let b := { b with
            st := st,
            blockKids := b.blockKids ++ [.mk { nd with
            raw := nd.raw ++ rawAdd } []],
            nodeD := {} }
        blockLoop fuel b term line spaces c
      else
        blockLoop fuel
          { b with nodeD := { b.nodeD with raw := b.nodeD.raw ++ line } }
          term [] spaces c
    else if k = .lineBlockTitle then
      blockLoop fuel { b with nodeD := { b.nodeD with rawTitle := line.drop 1 } }
        term [] spaces c
    else if k = .literalParagraph then
      let nd := { b.nodeD with
          kind := .literalParagraph,
          raw := b.nodeD.raw ++ spaces ++ line ++ ['\n'] }
      let (rawAdd, line, c, st) := consumeLU fuel b.st false .lineEmpty
        [term, .blockListingDelimiter, .blockLiteralNamed, .blockLiteralDelimiter]
      let b := { b with
          st := st,
          blockKids := b.blockKids ++ [.mk { nd with
          raw := nd.raw ++ rawAdd } []],
          nodeD := {} }
      blockLoop fuel b term line spaces c
    else if k = .blockLiteralDelimiter ∨ k = .blockListingDelimiter then
      let nd := { b.nodeD with kind := k }
      let (rawAdd, _, _, st) := consumeLU fuel b.st false k []
      let b := { b with
          st := st,
          blockKids := b.blockKids ++ [.mk { nd with
          raw := nd.raw ++ rawAdd } []],
          nodeD := {} }
      blockLoop fuel b term [] spaces c
    else if k = .blockLiteralNamed then
      let nd := { b.nodeD with kind := k }
      let (rawAdd, _, _, st) := consumeLU fuel b.st false .lineEmpty []
      let b := { b with
          st := st,
          blockKids := b.blockKids ++ [.mk { nd with
          raw := nd.raw ++ rawAdd } []],
          nodeD := {} }
      blockLoop fuel b term [] spaces c
    else if k = .listOrderedItem then
      let curA := if b.aliased then b.blockD else b.freshC
      let (line, c, st, sub) := parseListOrderedF fuel b.st curA.rawTitle curA.style
        [(b.blockD.kind, b.blockD.level)] [] line
      let b := { b with
          st := st,
          blockKids := b.blockKids ++ [sub, .mk b.nodeD []], nodeD := {} }
      blockLoop fuel b term line spaces c
    else if k = .listUnorderedItem then
      let curA := if b.aliased then b.blockD else b.freshC
      let (line, c, st, sub) := parseListUnorderedF fuel b.st curA.rawTitle curA.style
        [(b.blockD.kind, b.blockD.level)] line
      let b := { b with
          st := st,
          blockKids := b.blockKids ++ [sub, .mk b.nodeD []], nodeD := {} }
      blockLoop fuel b term line spaces c
    else if k = .listDescriptionItem then
      let curA := if b.aliased then b.blockD else b.freshC
      let (line, c, st, sub) := parseListDescriptionF fuel b.st curA.rawTitle curA.style
        [(b.blockD.kind, b.blockD.level)] line
      let b := { b with
          st := st,
          blockKids := b.blockKids ++ [sub, .mk b.nodeD []], nodeD := {} }
      blockLoop fuel b term line spaces c
    else if k = .blockImage then
      let b :=
        if b.nodeD.kind ≠ .unknown then
          -- doc.terminateCurrentNode(): attach the cursor to the spine
          -- (the block node itself while aliased), then reset it
          let b :=
            if b.aliased then { b with aliased := false, freshC := {}, early := true }
            else if b.freshC.kind ≠ .unknown then
              { b with snaps := b.snaps ++ [.mk b.freshC []], freshC := {} }
            else { b with freshC := {} }
          { b with blockKids := b.blockKids ++ [.mk b.nodeD []], nodeD := {} }
        else b
      match parseImage b.nodeD line with
      | .error e => .error e
      | .ok (some d') =>
        let b := { b with
            blockKids := b.blockKids ++ [.mk { d' with
            kind := .blockImage } []],
            nodeD := {} }
        blockLoop fuel b term [] spaces c
      | .ok none =>
        let nd := { b.nodeD with
            kind := .paragraph,
            raw := b.nodeD.raw ++ gs "image::" ++ line ++ ['\n'] }
        let (rawAdd, _, _, st) := consumeLU fuel b.st true .lineEmpty
          [term, .blockListingDelimiter, .blockLiteralDelimiter,
           .blockLiteralNamed, .lineListContinue]
        let b := { b with
            st := st,
            blockKids := b.blockKids ++ [.mk { nd with
            raw := nd.raw ++ rawAdd } []],
            nodeD := {} }
        blockLoop fuel b term [] spaces c
    else if k = term then .ok b
    else blockLoop fuel b term [] spaces c

end

/-- Document.parseBlock: parse the contents of an open or example block.
Returns the state, the nodes the call attached to the spine (the block node
itself first when the inner terminateCurrentNode fired) and the value of
doc.nodeCurrent when the call returns. -/
def parseBlockF (fuel : Nat) (st : PState) (blockD : NodeData)
    (blockKids0 : List Node) (term : Kind) :
    GoRes (PState × List Node × Node) :=
  let b0 : BlockSt := { st := st, blockD := blockD, blockKids := blockKids0,
                        nodeD := {}, aliased := true, freshC := {},
                        snaps := [], early := false }
  match blockLoop fuel b0 term [] [] false with
  | .error e => .error e
  | .ok b =>
    let blockFinal : Node := .mk b.blockD b.blockKids
    if b.early then .ok (b.st, blockFinal :: b.snaps, .mk b.freshC [])
    else .ok (b.st, [], blockFinal)

/-- The (kind, level) ancestor chain seen from doc.nodeParent: the open
frames from the top down to the content root. -/
def spineAncestors (sp : Spine) : List (Kind × Int) :=
  sp.frames.map (fun f => (f.data.kind, f.data.level)) ++ [(Kind.docContent, 0)]

mutual

/-- The loop head of Document.Parse: fetch a line when none is pending,
stop at end of input (dropping any cursor node, as the source does). -/
def parseBody (fuel : Nat) (st : PState) (sp : Spine) (cur : Node)
    (line : GoStr) (spaces : GoStr) (c : Bool) : GoRes (PState × Spine) :=
  match fuel with
  | 0 => .ok (st, sp)
  | fuel + 1 =>
    if line = [] then
      let (spaces, line, c, st) := docLine st
      if line = [] ∧ c = false then .ok (st, sp)
      else bodyStep fuel st sp cur line spaces c
    else bodyStep fuel st sp cur line spaces c

/-- One dispatch of the Document.Parse switch. -/
def bodyStep (fuel : Nat) (st : PState) (sp : Spine) (cur : Node)
    (line : GoStr) (spaces : GoStr) (c : Bool) : GoRes (PState × Spine) :=
  match fuel with
  | 0 => .ok (st, sp)
  | fuel + 1 =>
    let k := st.kind
    if k = .lineEmpty then
      let (sp, cur) := if cur.data.kind ≠ .unknown then termCur sp cur else (sp, cur)
      parseBody fuel st sp cur line spaces c
    else if k = .lineBlockComment then
      parseBody fuel (parseIgnoreCommentBlock fuel st) sp cur [] spaces c
    else if k = .lineComment then parseBody fuel st sp cur [] spaces c
    else if k = .lineHorizontalRule ∨ k = .linePageBreak then
      let (sp, cur) := if cur.data.kind ≠ .unknown then termCur sp cur else (sp, cur)
      let cur := Node.mk { cur.data with kind := k } cur.kids
      let (sp, cur) := termCur sp cur
      parseBody fuel st sp cur [] spaces c
    else if k = .lineAttribute then
      match parseAttribute line true with
      | .error e => .error e
      | .ok (some (key, v)) =>
        let st := { st with attributes := mapSet st.attributes key v }
        let (sp, cur) := termCur sp cur
        parseBody fuel st sp cur [] spaces c
      | .ok none =>
        let cur :=
          if cur.data.kind ≠ .unknown then
            Node.mk { cur.data with raw := cur.data.raw ++ line } cur.kids
          else cur
        parseBody fuel st sp cur [] spaces c
    else if k = .lineStyle then
      let (styleName, styleKind) := parseStyle line
      if styleKind ≠ 0 then
        let d := { cur.data with style := cur.data.style ||| styleKind }
        let d := if isStyleAdmonitionB styleKind then setStyleAdmonition d styleName else d
        parseBody fuel st sp (.mk d cur.kids) [] spaces c
      else parseBody fuel st sp cur [] spaces c
    else if k = .lineStyleClass then
      parseBody fuel st sp (.mk (parseStyleClass cur.data line) cur.kids) [] spaces c
    else if k = .lineText ∨ k = .lineListContinue then
      if cur.data.kind = .unknown then
        let d := { cur.data with kind := .paragraph, raw := cur.data.raw ++ line ++ ['\n'] }
        let (rawAdd, line, c, st) := consumeLU fuel st true .lineEmpty
          [.blockListingDelimiter, .blockLiteralDelimiter, .blockLiteralNamed,
           .lineListContinue]
        let (sp, cur) := termCur sp (.mk { d with raw := d.raw ++ rawAdd } cur.kids)
        parseBody fuel st sp cur line spaces c
      else
        parseBody fuel st sp
          (.mk { cur.data with raw := cur.data.raw ++ line } cur.kids) [] spaces c
    else if k = .lineBlockTitle then
      parseBody fuel st sp (.mk { cur.data with rawTitle := line.drop 1 } cur.kids)
        [] spaces c
    else if k = .lineAdmonition then
      let d := parseLineAdmonition { cur.data with kind := .lineAdmonition } line
      let (rawAdd, line, c, st) := consumeLU fuel st false .lineEmpty
        [.blockListingDelimiter, .blockLiteralDelimiter, .blockLiteralNamed,
         .lineListContinue]
      let (sp, cur) := termCur sp (.mk { d with raw := d.raw ++ rawAdd } cur.kids)
      parseBody fuel st sp cur line spaces c
    else if isSectionKind k then
      let (sp, cur) := if cur.data.kind ≠ .unknown then termCur sp cur else (sp, cur)
      let secD := { cur.data with
          kind := k,
          raw := cur.data.raw ++ trimLeftIn line (gs "= \t") }
      let sp := walkSpine (sectionPred k) sp
      let sp : Spine := { sp with frames := ⟨secD, cur.kids⟩ :: sp.frames }
      parseBody fuel st sp freshNode [] spaces c
    else if k = .literalParagraph then
      if cur.data.kind = .unknown ∧ nodeIsStyleAdmonition cur.data then
        let d := { cur.data with
            kind := .paragraph,
            raw := cur.data.raw ++ spaces ++ line ++ ['\n'] }
        let (rawAdd, _, _, st) := consumeLU fuel st true .lineEmpty
          [.blockListingDelimiter, .blockLiteralDelimiter, .blockLiteralNamed,
           .lineListContinue]
        let (sp, cur) := termCur sp (.mk { d with raw := d.raw ++ rawAdd } cur.kids)
        parseBody fuel st sp cur [] spaces c
      else
        let d := { cur.data with
            kind := k,
            raw := cur.data.raw ++ spaces ++ line ++ ['\n'] }
        let (rawAdd, _, _, st) := consumeLU fuel st false .lineEmpty
          [.blockListingDelimiter, .blockLiteralDelimiter, .blockLiteralNamed]
        let (sp, cur) := termCur sp (.mk { d with raw := d.raw ++ rawAdd } cur.kids)
        parseBody fuel st sp cur [] spaces c
    else if k = .blockLiteralDelimiter ∨ k = .blockListingDelimiter then
      let d := { cur.data with kind := k }
      let (rawAdd, _, _, st) := consumeLU fuel st false k []
      let (sp, cur) := termCur sp (.mk { d with raw := d.raw ++ rawAdd } cur.kids)
      parseBody fuel st sp cur [] spaces c
    else if k = .blockLiteralNamed then
      let d := { cur.data with kind := k }
      let (rawAdd, _, _, st) := consumeLU fuel st false .lineEmpty []
      let (sp, cur) := termCur sp (.mk { d with raw := d.raw ++ rawAdd } cur.kids)
      parseBody fuel st sp cur [] spaces c
    else if k = .listOrderedItem then
      let (line, c, st, sub) := parseListOrderedF fuel st cur.data.rawTitle
        cur.data.style (spineAncestors sp) cur.data.rawTitle line
      let sp := sp.attach sub
      let (sp, cur) := termCur sp cur
      parseBody fuel st sp cur line spaces c
    else if k = .listUnorderedItem then
      let (line, c, st, sub) := parseListUnorderedF fuel st cur.data.rawTitle
        cur.data.style (spineAncestors sp) line
      let sp := sp.attach sub
      let (sp, cur) := termCur sp cur
      parseBody fuel st sp cur line spaces c
    else if k = .listDescriptionItem then
      let (line, c, st, sub) := parseListDescriptionF fuel st cur.data.rawTitle
        cur.data.style (spineAncestors sp) line
      let sp := sp.attach sub
      let (sp, cur) := termCur sp cur
      parseBody fuel st sp cur line spaces c
    else if k = .blockImage then
      let (sp, cur) := if cur.data.kind ≠ .unknown then termCur sp cur else (sp, cur)
      match parseImage cur.data line with
      | .error e => .error e
      | .ok (some d') =>
        let (sp, cur) := termCur sp (.mk { d' with kind := .blockImage } cur.kids)
        parseBody fuel st sp cur [] spaces c
      | .ok none =>
        let d := { cur.data with
            kind := .paragraph,
            raw := cur.data.raw ++ gs "image::" ++ line ++ ['\n'] }
        parseBody fuel st sp (.mk d cur.kids) [] spaces c
    else if k = .blockOpen ∨ k = .blockExample then
      let blockD := { cur.data with kind := k }
      match parseBlockF fuel st blockD cur.kids k with
      | .error e => .error e
      | .ok (st, spineAdds, curAfter) =>
        let sp := spineAdds.foldl Spine.attach sp
        let (sp, cur) := termCur sp curAfter
        parseBody fuel st sp cur [] spaces c
    else if k = .blockVideo then
      let (sp, cur) := if cur.data.kind ≠ .unknown then termCur sp cur else (sp, cur)
      match parseVideo cur.data line with
      | .error e => .error e
      | .ok (some d') =>
        let (sp, cur) := termCur sp (.mk { d' with kind := .blockVideo } cur.kids)
        parseBody fuel st sp cur [] spaces c
      | .ok none =>
        let d := { cur.data with
            kind := .paragraph,
            raw := cur.data.raw ++ gs "video::" ++ line ++ ['\n'] }
        parseBody fuel st sp (.mk d cur.kids) [] spaces c
    else if k = .blockAudio then
      let (sp, cur) := if cur.data.kind ≠ .unknown then termCur sp cur else (sp, cur)
      match parseBlockAudio cur.data line with
      | .error e => .error e
      | .ok (some d') =>
        let (sp, cur) := termCur sp (.mk { d' with kind := .blockAudio } cur.kids)
        parseBody fuel st sp cur [] spaces c
      | .ok none =>
        let d := { cur.data with
            kind := .paragraph,
            raw := cur.data.raw ++ gs "audio::" ++ line ++ ['\n'] }
        parseBody fuel st sp (.mk d cur.kids) [] spaces c
    else parseBody fuel st sp cur [] spaces c

end

/-- The parsed document: header scalars, attribute map and content tree. -/
structure Doc where
  title : GoStr
  author : GoStr
  revNumber : GoStr
  revSeparator : GoStr
  revDate : GoStr
  attributes : List (GoStr × GoStr)
  headerRaw : Option GoStr
  content : Node

/-- Document.Parse: split the input into lines, run the header parser, then
the body parser beneath a fresh preamble under the content root. -/
def parseDoc (input : GoStr) (fuel : Nat) : GoRes Doc :=
  let st0 : PState := { src := splitChar '\n' input }
  match parseHeader fuel st0 .title with
  | .error e => .error e
  | .ok (spaces, line, c, st) =>
    let sp0 : Spine := { frames := [⟨{ kind := .preamble }, []⟩], rootKids := [] }
    match parseBody fuel st sp0 freshNode line spaces c with
    | .error e => .error e
    | .ok (st, sp) =>
      .ok { title := st.title, author := st.author, revNumber := st.revNumber,
            revSeparator := st.revSeparator, revDate := st.revDate,
            attributes := st.attributes, headerRaw := st.headerRaw,
            content := .mk { kind := .docContent } (closeInto sp.frames sp.rootKids) }

/-! ## General list lemmas -/

theorem takeWhile_append_all {α : Type} (p : α → Bool) (l1 l2 : List α)
    (h : ∀ x ∈ l1, p x) : (l1 ++ l2).takeWhile p = l1 ++ l2.takeWhile p := by
  induction l1 with
  | nil => simp
  | cons a t ih =>
    simp only [List.cons_append, List.takeWhile_cons]
    rw [h a (by simp), ih (fun x hx => h x (by simp [hx]))]
    simp

theorem dropWhile_append_all {α : Type} (p : α → Bool) (l1 l2 : List α)
    (h : ∀ x ∈ l1, p x) : (l1 ++ l2).dropWhile p = l2.dropWhile p := by
  induction l1 with
  | nil => simp
  | cons a t ih =>
    simp only [List.cons_append, List.dropWhile_cons]
    rw [h a (by simp), ih (fun x hx => h x (by simp [hx]))]
    simp

/-! ## C6: the description-list item line parser -/

/-- C6: for a description-list item line built from a term (free of colons),
a run of k ≥ 2 colons and a remainder not starting with a colon,
adocNode.parseListDescription on a fresh node sets the level to k - 2 and
the raw term to exactly the text before the colons. -/
theorem parseListDescription_level_term
    (d : NodeData) (term rest : GoStr) (k : Nat)
    (hk : 2 ≤ k) (hterm : ∀ ch ∈ term, ch ≠ ':')
    (hrest : rest.head? ≠ some ':')
    (hd : d.level = 0) (hdt : d.rawTerm = []) :
    (nodeParseListDescription d (term ++ List.replicate k ':' ++ rest)).level
        = (k : Int) - 2 ∧
    (nodeParseListDescription d (term ++ List.replicate k ':' ++ rest)).rawTerm
        = term := by
  have hkpos : 0 < k := by omega
  have hmem : ':' ∈ term ++ List.replicate k ':' ++ rest := by
    refine List.mem_append.mpr (Or.inl (List.mem_append.mpr (Or.inr ?_)))
    exact List.mem_replicate.mpr ⟨by omega, rfl⟩
  have hC : (term ++ List.replicate k ':' ++ rest).contains ':' = true := by
    simpa [List.contains] using hmem
  have hTW : (term ++ List.replicate k ':' ++ rest).takeWhile (· ≠ ':') = term := by
    rw [List.append_assoc, takeWhile_append_all _ _ _
      (by intro x hx; simpa using hterm x hx)]
    obtain ⟨k', rfl⟩ : ∃ k', k = k' + 1 := ⟨k - 1, by omega⟩
    simp [List.replicate_succ]
  have hDW : (term ++ List.replicate k ':' ++ rest).dropWhile (· ≠ ':')
      = List.replicate k ':' ++ rest := by
    rw [List.append_assoc, dropWhile_append_all _ _ _
      (by intro x hx; simpa using hterm x hx)]
    obtain ⟨k', rfl⟩ : ∃ k', k = k' + 1 := ⟨k - 1, by omega⟩
    simp [List.replicate_succ]
  have hTW2 : (List.replicate k ':' ++ rest).takeWhile (· = ':')
      = List.replicate k ':' := by
    rw [takeWhile_append_all _ _ _ (by intro x hx; simpa using List.eq_of_mem_replicate hx)]
    cases rest with
    | nil => simp
    | cons r rs =>
      have : r ≠ ':' := by intro h; exact hrest (by simp [h])
      simp [List.takeWhile_cons, this]
  unfold nodeParseListDescription
  rw [if_pos hC]
  simp only [hTW, hDW, hTW2]
  constructor
  · simp [hd, List.length_replicate]
  · simp [hdt]

/-- Witness for C6 at the line of the repository's own unit test: CPU
followed by two colons gives level 0 and term CPU. -/
theorem parseListDescription_level_term_witness :
    (nodeParseListDescription {} (gs "CPU::")).level = 0 ∧
    (nodeParseListDescription {} (gs "CPU::")).rawTerm = gs "CPU" := by
  have h := parseListDescription_level_term {} (gs "CPU") [] 2
    (by decide) (by decide) (by decide) rfl rfl
  have he : gs "CPU" ++ List.replicate 2 ':' ++ ([] : GoStr) = gs "CPU::" := by decide
  rw [he] at h
  simpa using h

/-! ## C8: GenerateID against the specification algorithm

The reference algorithm, written from the specification text: prepend an
underscore, lowercase, replace each maximal run of non-letter/non-digit
codepoints with a single underscore, trim trailing underscores. -/

/-- Replace each maximal run of non-kept characters by one underscore. -/
def collapseRuns (um : UnicodeModel) : GoStr → GoStr
  | [] => []
  | c :: rest =>
    if um.keep c then c :: collapseRuns um rest
    else '_' :: collapseRuns um (rest.dropWhile (fun x => ¬ um.keep x))
termination_by l => l.length
decreasing_by
  · simp
  · have := (List.dropWhile_sublist (l := rest) (fun x => ¬ um.keep x = true)).length_le
    simp only [List.length_cons]
    omega

/-- The specification's ID algorithm, word for word: prepend an underscore,
lowercase, collapse each run of non-letter/non-digit codepoints into one
underscore, trim the trailing underscores. -/
def specGenerateID (um : UnicodeModel) (s : GoStr) : GoStr :=
  trimRightIn (collapseRuns um (('_' :: s).map um.lower)) (gs "_")

/-- The character loop agrees with run collapsing: in the underscore state
it first skips the leading non-kept run; in a kept state it is the
collapsing itself. -/
theorem gidAux_collapse (um : UnicodeModel) (hu : um.keep '_' = false) :
    ∀ l : GoStr,
      gidAux um l '_' = collapseRuns um (l.dropWhile (fun x => ¬ um.keep x)) ∧
      (∀ ch, um.keep ch = true → gidAux um l ch = collapseRuns um l) := by
  intro l
  induction l with
  | nil => simp [gidAux, collapseRuns]
  | cons x r ih =>
    constructor
    · by_cases hx : um.keep x = true
      · simp only [gidAux]
        rw [if_pos hx, ih.2 x hx, List.dropWhile_cons]
        simp [hx, collapseRuns]
      · simp only [gidAux]
        rw [if_neg (by simp [hx]), if_neg (by simp), ih.1, List.dropWhile_cons]
        simp [hx]
    · intro ch hch
      by_cases hx : um.keep x = true
      · simp only [gidAux]
        rw [if_pos hx, ih.2 x hx]
        simp [collapseRuns, hx]
      · have hcu : ch ≠ '_' := by
          intro h; rw [h] at hch; rw [hu] at hch; exact Bool.noConfusion hch
        simp only [gidAux]
        rw [if_neg (by simp [hx]), if_pos hcu, ih.1]
        simp [collapseRuns, hx]

/-- C8: GenerateID computes exactly the specification's reference
algorithm.  The hypotheses are facts of the Go unicode package: the
underscore is neither letter nor digit, and lowering fixes it. -/
theorem generateID_matches_spec (um : UnicodeModel)
    (hu : um.keep '_' = false) (hlow : um.lower '_' = '_') (s : GoStr) :
    generateID um s = specGenerateID um s := by
  unfold generateID specGenerateID
  have h1 : ('_' :: s).map um.lower = '_' :: s.map um.lower := by simp [hlow]
  rw [h1]
  have h2 : collapseRuns um ('_' :: s.map um.lower)
      = '_' :: collapseRuns um ((s.map um.lower).dropWhile (fun x => ¬ um.keep x)) := by
    simp [collapseRuns, hu]
  rw [h2, (gidAux_collapse um hu (s.map um.lower)).1]

/-- Witness for C8: at a concrete unicode model (identity lowering, ASCII
classification) and a concrete string the two sides agree. -/
theorem generateID_matches_spec_witness :
    generateID ⟨Char.isAlpha, Char.isDigit, id⟩ (gs "A b!c") =
      specGenerateID ⟨Char.isAlpha, Char.isDigit, id⟩ (gs "A b!c") :=
  generateID_matches_spec ⟨Char.isAlpha, Char.isDigit, id⟩
    (by decide) rfl (gs "A b!c")

/-! ## C7: GenerateID is idempotent -/

/-- Alternation structure of generated IDs: in state false the next
character must be kept; after a kept character a kept character or a
single underscore may follow. -/
def altF (um : UnicodeModel) : Bool → GoStr → Prop
  | _, [] => True
  | false, c :: r => um.keep c = true ∧ altF um true r
  | true, c :: r => (um.keep c = true ∧ altF um true r) ∨ (c = '_' ∧ altF um false r)

theorem altF_weaken (um : UnicodeModel) (w : GoStr) (h : altF um false w) :
    altF um true w := by
  cases w with
  | nil => trivial
  | cons c r => exact Or.inl h

/-- The output of the GenerateID character loop alternates kept characters
with single underscores (never emitting an underscore first from the
underscore state). -/
theorem altF_gidAux (um : UnicodeModel) : ∀ l : GoStr,
    altF um false (gidAux um l '_') ∧
    (∀ ch, altF um true (gidAux um l ch)) := by
  intro l
  induction l with
  | nil => simp [gidAux, altF]
  | cons x r ih =>
    constructor
    · by_cases hx : um.keep x = true
      · simp only [gidAux]
        rw [if_pos hx]
        exact ⟨hx, ih.2 x⟩
      · simp only [gidAux]
        rw [if_neg (by simp [hx]), if_neg (by simp)]
        exact ih.1
    · intro ch
      by_cases hx : um.keep x = true
      · simp only [gidAux]
        rw [if_pos hx]
        exact Or.inl ⟨hx, ih.2 x⟩
      · by_cases hcu : ch = '_'
        · subst hcu
          simp only [gidAux]
          rw [if_neg (by simp [hx]), if_neg (by simp)]
          exact altF_weaken um _ ih.1
        · simp only [gidAux]
          rw [if_neg (by simp [hx]), if_pos hcu]
          exact Or.inr ⟨rfl, ih.1⟩

/-- Characters the loop emits are underscores or input characters. -/
theorem mem_gidAux (um : UnicodeModel) : ∀ (l : GoStr) (last : Char),
    ∀ c ∈ gidAux um l last, c = '_' ∨ c ∈ l := by
  intro l
  induction l with
  | nil => intro last c hc; simp [gidAux] at hc
  | cons x r ih =>
    intro last c hc
    by_cases hx : um.keep x = true
    · simp only [gidAux] at hc
      rw [if_pos hx] at hc
      rcases List.mem_cons.mp hc with h | h
      · exact Or.inr (by simp [h])
      · rcases ih x c h with h2 | h2
        · exact Or.inl h2
        · exact Or.inr (by simp [h2])
    · simp only [gidAux] at hc
      rw [if_neg (by simp [hx])] at hc
      by_cases hl : last ≠ '_'
      · rw [if_pos hl] at hc
        rcases List.mem_cons.mp hc with h | h
        · exact Or.inl h
        · rcases ih '_' c h with h2 | h2
          · exact Or.inl h2
          · exact Or.inr (by simp [h2])
      · rw [if_neg hl] at hc
        rcases ih last c hc with h2 | h2
        · exact Or.inl h2
        · exact Or.inr (by simp [h2])

/-- Running the loop over an already-alternating string reproduces it. -/
theorem gidAux_replay (um : UnicodeModel) (hu : um.keep '_' = false) :
    ∀ w : GoStr,
      (altF um false w → gidAux um w '_' = w) ∧
      (∀ ch, um.keep ch = true → altF um true w → gidAux um w ch = w) := by
  intro w
  induction w with
  | nil => simp [gidAux]
  | cons x r ih =>
    constructor
    · intro h
      obtain ⟨hx, hr⟩ := h
      simp only [gidAux]
      rw [if_pos hx, ih.2 x hx hr]
    · intro ch hch h
      rcases h with ⟨hx, hr⟩ | ⟨hx, hr⟩
      · simp only [gidAux]
        rw [if_pos hx, ih.2 x hx hr]
      · have hcu : ch ≠ '_' := fun he => by rw [he, hu] at hch; exact Bool.noConfusion hch
        subst hx
        simp only [gidAux]
        rw [if_neg (by simp [hu]), if_pos hcu, ih.1 hr]

theorem altF_prefixClosed (um : UnicodeModel) : ∀ (w1 w2 : GoStr) (b : Bool),
    altF um b (w1 ++ w2) → altF um b w1 := by
  intro w1
  induction w1 with
  | nil => intro w2 b _; cases b <;> trivial
  | cons x r ih =>
    intro w2 b h
    cases b with
    | false =>
      obtain ⟨hx, hr⟩ := h
      exact ⟨hx, ih w2 true hr⟩
    | true =>
      rcases h with ⟨hx, hr⟩ | ⟨hx, hr⟩
      · exact Or.inl ⟨hx, ih w2 true hr⟩
      · exact Or.inr ⟨hx, ih w2 false hr⟩

theorem head?_dropWhile {α : Type} (p : α → Bool) : ∀ (l : List α) (a : α),
    (l.dropWhile p).head? = some a → p a = false := by
  intro l
  induction l with
  | nil => intro a h; simp [List.dropWhile] at h
  | cons x r ih =>
    intro a h
    by_cases hx : p x = true
    · rw [List.dropWhile_cons, if_pos hx] at h
      exact ih a h
    · rw [List.dropWhile_cons, if_neg hx] at h
      simp at h
      rw [← h]
      simpa using hx

theorem trimRightIn_isPre (w cut : GoStr) : trimRightIn w cut <+: w := by
  unfold trimRightIn
  obtain ⟨t, ht⟩ := List.dropWhile_suffix (l := w.reverse) (fun c => cut.contains c)
  exact ⟨t.reverse, by rw [← List.reverse_append, ht, List.reverse_reverse]⟩

theorem trimRightIn_getLast (w cut : GoStr) (d : Char)
    (h : (trimRightIn w cut).getLast? = some d) : cut.contains d = false := by
  unfold trimRightIn at h
  rw [List.getLast?_reverse] at h
  exact head?_dropWhile _ _ _ h

theorem trimRightIn_of_getLast (w cut : GoStr) (d : Char)
    (h : w.getLast? = some d) (hd : cut.contains d = false) :
    trimRightIn w cut = w := by
  unfold trimRightIn
  have h2 : w.reverse.head? = some d := by rw [List.head?_reverse]; exact h
  cases hw : w.reverse with
  | nil => simp [hw] at h2
  | cons x r =>
    rw [hw] at h2
    simp at h2
    have hx : cut.contains x = false := by rw [h2]; exact hd
    rw [List.dropWhile_cons]
    simp only [hx, Bool.false_eq_true, if_false]
    rw [← hw, List.reverse_reverse]

/-- C7: GenerateID is idempotent.  The hypotheses are facts of the Go
unicode package: the underscore is neither letter nor digit, simple
lowering fixes the underscore and is idempotent. -/
theorem generateID_idem (um : UnicodeModel) (hu : um.keep '_' = false)
    (hfix : um.lower '_' = '_')
    (hid : ∀ ch, um.lower (um.lower ch) = um.lower ch) (s : GoStr) :
    generateID um (generateID um s) = generateID um s := by
  have hmapt : (generateID um s).map um.lower = generateID um s := by
    have hmem : ∀ c ∈ generateID um s, um.lower c = c := by
      intro c hc
      have hpre := trimRightIn_isPre ('_' :: gidAux um (s.map um.lower) '_') (gs "_")
      have hc2 : c ∈ '_' :: gidAux um (s.map um.lower) '_' := hpre.subset hc
      rcases List.mem_cons.mp hc2 with h | h
      · rw [h]; exact hfix
      · rcases mem_gidAux um _ _ c h with h2 | h2
        · rw [h2]; exact hfix
        · obtain ⟨c0, _, hc0⟩ := List.mem_map.mp h2
          rw [← hc0]; exact hid c0
    calc (generateID um s).map um.lower = (generateID um s).map id :=
          List.map_congr_left hmem
      _ = generateID um s := List.map_id _
  by_cases hT : generateID um s = []
  · rw [hT]
    show generateID um [] = []
    rfl
  · set t := generateID um s with htdef
    have hpre : t <+: '_' :: gidAux um (s.map um.lower) '_' :=
      trimRightIn_isPre _ _
    obtain ⟨u', hu'⟩ : ∃ u', t = '_' :: u' := by
      cases htc : t with
      | nil => exact absurd htc hT
      | cons x r =>
        obtain ⟨rest, hrest⟩ := hpre
        rw [htc] at hrest
        simp at hrest
        exact ⟨r, by rw [hrest.1]⟩
    have hlast : ∀ d, t.getLast? = some d → d ≠ '_' := by
      intro d hd he
      have := trimRightIn_getLast ('_' :: gidAux um (s.map um.lower) '_') (gs "_") d hd
      rw [he] at this
      simp [gs] at this
    have hu'pre : u' <+: gidAux um (s.map um.lower) '_' := by
      obtain ⟨rest, hrest⟩ := hpre
      rw [hu'] at hrest
      simp at hrest
      exact ⟨rest, hrest⟩
    have haltu' : altF um false u' := by
      obtain ⟨rest, hrest⟩ := hu'pre
      have halt := (altF_gidAux um (s.map um.lower)).1
      rw [← hrest] at halt
      exact altF_prefixClosed um u' rest false halt
    show generateID um t = t
    unfold generateID
    rw [hmapt, hu']
    have hstep : gidAux um ('_' :: u') '_' = u' := by
      simp only [gidAux]
      rw [if_neg (by simp [hu]), if_neg (by simp)]
      exact (gidAux_replay um hu u').1 haltu'
    rw [hstep, ← hu']
    obtain ⟨d, hd⟩ : ∃ d, t.getLast? = some d := by
      cases htc : t with
      | nil => exact absurd htc hT
      | cons x r => exact ⟨(x :: r).getLast (by simp), List.getLast?_eq_getLast _ (by simp)⟩
    exact trimRightIn_of_getLast t (gs "_") d hd (by simp [gs, hlast d hd])

/-- Witness for C7: the idempotence theorem applied at a concrete unicode
model and a concrete string. -/
theorem generateID_idem_witness :
    generateID ⟨Char.isAlpha, Char.isDigit, id⟩
        (generateID ⟨Char.isAlpha, Char.isDigit, id⟩ (gs "Hello, World!")) =
      generateID ⟨Char.isAlpha, Char.isDigit, id⟩ (gs "Hello, World!") :=
  generateID_idem ⟨Char.isAlpha, Char.isDigit, id⟩ (by decide) rfl
    (fun _ => rfl) (gs "Hello, World!")

/-! ## C2: the revision-line acceptance condition

The grammar below is written from the specification's words (and the date
shape from the function's own ABNF comment), for comparison against the
implementation: REVISION = "v" DIGIT+ "." DIGIT+ "." DIGIT+ [ "," WSP DATE ],
DATE = 1*2DIGIT WSP 3*ALPHA WSP 4*DIGIT. -/

/-- A nonempty all-digit string (DIGIT+). -/
def isDigits (s : GoStr) : Bool := s ≠ [] && s.all Char.isDigit

/-- DIGIT+ "." DIGIT+ "." DIGIT+ (written from the spec). -/
def revVersionGrammar (s : GoStr) : Bool :=
  match splitChar '.' s with
  | [a, b, c] => isDigits a && isDigits b && isDigits c
  | _ => false

/-- 1*2DIGIT WSP 3*ALPHA WSP 4*DIGIT (written from the spec/ABNF comment). -/
def dateGrammar (s : GoStr) : Bool :=
  let d1 := s.takeWhile Char.isDigit
  let r1 := s.dropWhile Char.isDigit
  (1 ≤ d1.length && d1.length ≤ 2) &&
  match r1 with
  | w :: r2 =>
    isSpaceTab w &&
    (let a := r2.takeWhile Char.isAlpha
     let r3 := r2.dropWhile Char.isAlpha
     (3 ≤ a.length) &&
     match r3 with
     | w2 :: r4 => isSpaceTab w2 && 4 ≤ r4.length && r4.all Char.isDigit
     | [] => false)
  | [] => false

/-- REVISION = "v" DIGIT+ "." DIGIT+ "." DIGIT+ [ "," WSP DATE ]
(written from the spec; the version core cannot contain a comma, so the
optional part begins at the first comma). -/
def revisionGrammar (s : GoStr) : Bool :=
  match s with
  | 'v' :: rest =>
    if rest.contains ',' then
      let ver := rest.takeWhile (· ≠ ',')
      let after := (rest.dropWhile (· ≠ ',')).drop 1
      revVersionGrammar ver &&
      (match after with
       | w :: d => isSpaceTab w && dateGrammar d
       | [] => false)
    else revVersionGrammar rest
  | _ => false

/-- Counterexample for C2: the line vx is accepted by parseHeaderRevision
(storing RevNumber x) although it does not match the revision grammar, so
acceptance is not equivalent to matching the grammar. -/
theorem parseHeaderRevision_not_grammar :
    parseHeaderRevision (gs "vx") = .ok (some (gs "x", [], [])) ∧
    revisionGrammar (gs "vx") = false := by
  constructor
  · rfl
  · rfl

/-- C2 (amended): parseHeaderRevision accepts a line exactly when it begins
with a vee; with a comma present it stores the text between the vee and
the first comma as RevNumber and the trimmed remainder as RevDate with
separator a comma, otherwise everything after the vee as RevNumber; any
other line is rejected (returned to the caller unconsumed). -/
theorem parseHeaderRevision_amended (line : GoStr) (hne : line ≠ []) :
    (line.head? ≠ some 'v' → parseHeaderRevision line = .ok none) ∧
    (∀ idx, line.head? = some 'v' → indexOfChar ',' line = some idx →
      parseHeaderRevision line =
        .ok (some ((line.take idx).drop 1, gs ",", trimSpace (line.drop (idx + 1))))) ∧
    (line.head? = some 'v' → indexOfChar ',' line = none →
      parseHeaderRevision line = .ok (some (line.drop 1, [], []))) := by
  cases line with
  | nil => exact absurd rfl hne
  | cons c rest =>
    refine ⟨?_, ?_, ?_⟩
    · intro h
      have hcv : c ≠ 'v' := by intro he; exact h (by subst he; rfl)
      simp [parseHeaderRevision, hcv]
    · intro idx hh hidx
      have hcv : c = 'v' := by simpa using hh
      subst hcv
      have hpos : 0 < idx := by
        unfold indexOfChar at hidx
        rw [if_neg (by decide)] at hidx
        cases hmap : indexOfChar ',' rest with
        | none => rw [hmap] at hidx; simp at hidx
        | some j => rw [hmap] at hidx; simp at hidx; omega
      simp only [parseHeaderRevision]
      rw [if_neg (by decide), hidx]
      simp [hpos]
    · intro hh hidx
      have hcv : c = 'v' := by simpa using hh
      subst hcv
      simp only [parseHeaderRevision]
      rw [if_neg (by decide), hidx]
      simp

/-- Witness for C2's amended theorem at the revision line of the S2
scenario. -/
theorem parseHeaderRevision_amended_witness :
    parseHeaderRevision (gs "v1.0.0, 2020-01-01") =
      .ok (some (gs "1.0.0", gs ",", gs "2020-01-01")) := by
  have h := (parseHeaderRevision_amended (gs "v1.0.0, 2020-01-01")
    (by decide)).2.1 6 (by decide) (by decide)
  rw [h]
  rfl

/-! ## Decidable equality for trees and documents -/

mutual

def Node.decEqF : (a b : Node) → Decidable (a = b)
  | .mk d1 k1, .mk d2 k2 =>
    match instDecidableEqNodeData d1 d2 with
    | isFalse h => isFalse (by intro he; cases he; exact h rfl)
    | isTrue h1 =>
      match Node.decEqListF k1 k2 with
      | isFalse h => isFalse (by intro he; cases he; exact h rfl)
      | isTrue h2 => isTrue (by rw [h1, h2])

def Node.decEqListF : (a b : List Node) → Decidable (a = b)
  | [], [] => isTrue rfl
  | [], _ :: _ => isFalse (by intro h; cases h)
  | _ :: _, [] => isFalse (by intro h; cases h)
  | x :: xs, y :: ys =>
    match Node.decEqF x y with
    | isFalse h => isFalse (by intro he; injection he; contradiction)
    | isTrue h1 =>
      match Node.decEqListF xs ys with
      | isFalse h => isFalse (by intro he; injection he; contradiction)
      | isTrue h2 => isTrue (by rw [h1, h2])

end

instance : DecidableEq Node := Node.decEqF

deriving instance DecidableEq for Doc

instance {α : Type} [DecidableEq α] : DecidableEq (GoRes α) := fun a b =>
  match a, b with
  | .error e1, .error e2 =>
    match decEq e1 e2 with
    | isTrue h => isTrue (by rw [h])
    | isFalse h => isFalse (by intro he; cases he; exact h rfl)
  | .ok d1, .ok d2 =>
    match decEq d1 d2 with
    | isTrue h => isTrue (by rw [h])
    | isFalse h => isFalse (by intro he; cases he; exact h rfl)
  | .error _, .ok _ => isFalse (by intro h; cases h)
  | .ok _, .error _ => isFalse (by intro h; cases h)

/-! ## C1: totality of Document.Parse fails on a lone colon

The body classifier marks any line starting with a colon as an attribute
line, and parseAttribute reads line[1] without a length check: on the
one-byte line ":" the Go code panics with an index-out-of-range error
instead of producing a document.  The spec's totality claim is therefore
the intent and the unchecked index a slip in the code. -/

/-- C1: Document.Parse on the input ":" hits the out-of-range read of
line[1] inside parseAttribute and panics; it does not return a document. -/
theorem parse_colon_line_panics : parseDoc (gs ":") 32 = .error .oob := rfl

/-! ## C3: the header-plus-section scenario -/

/-- The state of the document after the header of the S2 scenario. -/
def s2HeaderState : PState :=
  { title := gs "Title", author := gs "Author Name", revNumber := gs "1.0.0",
    revSeparator := gs ",", revDate := gs "2020-01-01",
    headerRaw := some (gs "Title"),
    prevKind := .lineText, kind := .lineEmpty,
    src := [gs "== Intro", gs "Body.", []] }

/-- C3: parsing the S2 scenario input yields title Title, author
Author Name, revision number 1.0.0, revision date 2020-01-01, and a
content tree whose children are the preamble and one level-1 section
titled Intro containing a single paragraph with text Body. -/
theorem parse_s2_scenario :
    parseDoc (gs "= Title\nAuthor Name\nv1.0.0, 2020-01-01\n\n== Intro\nBody.\n") 64 =
      .ok { title := gs "Title", author := gs "Author Name",
            revNumber := gs "1.0.0", revSeparator := gs ",",
            revDate := gs "2020-01-01", attributes := [],
            headerRaw := some (gs "Title"),
            content := .mk { kind := .docContent }
              [.mk { kind := .preamble } [],
               .mk { kind := .sectionL1, raw := gs "Intro" }
                 [.mk { kind := .paragraph, raw := gs "Body.\n" } []]] } := by
  have h1 : splitChar '\n'
      (gs "= Title\nAuthor Name\nv1.0.0, 2020-01-01\n\n== Intro\nBody.\n") =
      [gs "= Title", gs "Author Name", gs "v1.0.0, 2020-01-01", [],
       gs "== Intro", gs "Body.", []] := by decide
  have h2 : parseHeader 64
      { src := [gs "= Title", gs "Author Name", gs "v1.0.0, 2020-01-01", [],
                gs "== Intro", gs "Body.", []] } .title =
      .ok ([], [], true, s2HeaderState) := by decide
  simp only [parseDoc, h1, h2]
  decide

/-! ## C9: the body parser's attribute-line case

The promise holds for attribute lines of at least two bytes; the one-byte
line ":" instead panics inside parseAttribute (the C1 slip), so the claim
as stated over all attribute lines fails. -/

theorem dropWhile_self {α : Type} (p : α → Bool) (l : List α) :
    (l.dropWhile p).dropWhile p = l.dropWhile p := by
  induction l with
  | nil => rfl
  | cons a l ih =>
    by_cases h : p a = true
    · rw [List.dropWhile_cons, if_pos h]; exact ih
    · rw [List.dropWhile_cons, if_neg h, List.dropWhile_cons, if_neg h]

theorem revDrop_isPre {α : Type} (p : α → Bool) (w : List α) :
    (w.reverse.dropWhile p).reverse <+: w := by
  obtain ⟨t, ht⟩ := List.dropWhile_suffix (l := w.reverse) p
  exact ⟨t.reverse, by rw [← List.reverse_append, ht, List.reverse_reverse]⟩

theorem trimSpace_idem (s : GoStr) : trimSpace (trimSpace s) = trimSpace s := by
  unfold trimSpace
  set a := s.dropWhile isGoSpace with ha
  set b := a.reverse.dropWhile isGoSpace with hb
  have h1 : b.reverse.dropWhile isGoSpace = b.reverse := by
    cases hc : b.reverse with
    | nil => rfl
    | cons x r =>
      have hpre : b.reverse <+: a := by rw [hb]; exact revDrop_isPre _ _
      have hx : isGoSpace x = false := by
        obtain ⟨u, hu⟩ := hpre
        rw [hc] at hu
        have : a.head? = some x := by rw [← hu]; rfl
        exact head?_dropWhile isGoSpace s x (by rw [← ha]; exact this)
      rw [List.dropWhile_cons, hx]
      simp
  rw [h1, List.reverse_reverse, hb, dropWhile_self]

theorem walk_val_trimmed (strict : Bool) : ∀ (r key k v : GoStr),
    parseAttribute.walk strict r key = some (k, v) → trimSpace v = v := by
  intro r
  induction r with
  | nil =>
    intro key k v h
    simp [parseAttribute.walk] at h
  | cons c cs ih =>
    intro key k v h
    rw [parseAttribute.walk] at h
    split at h
    · injection h with h2
      injection h2 with h3 h4
      rw [← h4]
      exact trimSpace_idem cs
    · split at h
      · exact ih (key ++ [c]) k v h
      · split at h
        · exact absurd h (by simp)
        · exact ih key k v h

theorem parseAttribute_val_trimmed (line key v : GoStr)
    (h : parseAttribute line true = .ok (some (key, v))) : trimSpace v = v := by
  match line with
  | [] => simp [parseAttribute] at h
  | [c] => simp [parseAttribute] at h
  | c0 :: c1 :: rest =>
    rw [parseAttribute] at h
    split at h
    · simp at h
    · injection h with h2
      exact walk_val_trimmed true rest [c1] key v h2

/-- C9 (amended): at an attribute line of at least two bytes, if
parseAttribute accepts the line then the key/value pair (value
whitespace-trimmed, witnessed by trimSpace v = v) is written into the
document attributes and the current node is terminated before parsing
continues; if parseAttribute rejects the line and a node is open, the
line's raw bytes are appended to that node's payload and the state —
attributes included — is unchanged.  (On the one-byte line ":" the code
panics instead; see the counterexample.) -/
theorem bodyStep_attribute (fuel : Nat) (st : PState) (sp : Spine) (cur : Node)
    (line spaces : GoStr) (c : Bool)
    (hk : st.kind = .lineAttribute) (hlen : 2 ≤ line.length) :
    (∀ key v, parseAttribute line true = .ok (some (key, v)) →
      trimSpace v = v ∧
      bodyStep (fuel + 1) st sp cur line spaces c =
        parseBody fuel { st with attributes := mapSet st.attributes key v }
          (termCur sp cur).1 (termCur sp cur).2 [] spaces c) ∧
    (parseAttribute line true = .ok none → cur.data.kind ≠ .unknown →
      bodyStep (fuel + 1) st sp cur line spaces c =
        parseBody fuel st sp
          (.mk { cur.data with raw := cur.data.raw ++ line } cur.kids) [] spaces c) := by
  constructor
  · intro key v hpa
    refine ⟨parseAttribute_val_trimmed line key v hpa, ?_⟩
    rw [bodyStep]
    simp only [hk, hpa]
    rfl
  · intro hpa hopen
    rw [bodyStep]
    simp only [hk, hpa]
    rw [if_neg (by decide : ¬(Kind.lineAttribute = Kind.lineEmpty)),
      if_neg (by decide : ¬(Kind.lineAttribute = Kind.lineBlockComment)),
      if_neg (by decide : ¬(Kind.lineAttribute = Kind.lineComment)),
      if_neg (by decide : ¬(Kind.lineAttribute = Kind.lineHorizontalRule ∨
        Kind.lineAttribute = Kind.linePageBreak)),
      if_pos hopen]
    rw [if_pos trivial]

/-- A body-parser state whose classified line kind is lineAttribute. -/
def c9st : PState := { kind := .lineAttribute }

/-- An empty spine: no open blocks, no children of the content root yet. -/
def c9sp : Spine := { frames := [], rootKids := [] }

/-- C9 counterexample: on the one-byte attribute line ":" with an open
paragraph node the claimed append-to-payload does not happen: the body
parser panics with the out-of-range read of line[1]. -/
theorem attribute_case_colon_panics :
    bodyStep 2 c9st c9sp
      (Node.mk { kind := Kind.paragraph, raw := gs "x" } []) (gs ":") [] true =
      .error .oob := rfl

/-- C9 witness: the valid attribute line ":icons: font " stores the pair
icons/font (trimmed) and terminates the cursor. -/
theorem bodyStep_attribute_witness :
    trimSpace (gs "font") = gs "font" ∧
    bodyStep 1 c9st c9sp freshNode (gs ":icons: font ") [] true =
      parseBody 0 { c9st with attributes := mapSet c9st.attributes (gs "icons") (gs "font") }
        (termCur c9sp freshNode).1 (termCur c9sp freshNode).2 [] [] true :=
  (bodyStep_attribute 0 c9st c9sp freshNode (gs ":icons: font ") [] true rfl
    (by decide)).1 (gs "icons") (gs "font") (by decide)

/-! ## C10: GetVideoSource on a youtube node -/


theorem ytStep_mono (src : GoStr) (acc : List GoStr × NodeData)
    (opt0 : GoStr) : ∃ add, (ytStep src acc opt0).1 = acc.1 ++ add := by
  unfold ytStep
  by_cases h1 : trimSpace opt0 = gs "autoplay" ∨ trimSpace opt0 = gs "loop"
  · exact ⟨_, by rw [if_pos h1]⟩
  · rw [if_neg h1]
    by_cases h2 : trimSpace opt0 = gs "modest"
    · exact ⟨_, by rw [if_pos h2]⟩
    · rw [if_neg h2]
      by_cases h3 : trimSpace opt0 = gs "nocontrols"
      · exact ⟨_, by rw [if_pos h3]⟩
      · rw [if_neg h3]
        by_cases h4 : trimSpace opt0 = gs "nofullscreen"
        · exact ⟨_, by rw [if_pos h4]⟩
        · rw [if_neg h4]
          exact ⟨[], (List.append_nil acc.1).symm⟩

theorem ytFold_mono (src : GoStr) : ∀ (l : List GoStr)
    (acc : List GoStr × NodeData),
    ∃ add, (l.foldl (ytStep src) acc).1 = acc.1 ++ add := by
  intro l
  induction l with
  | nil => intro acc; exact ⟨[], (List.append_nil acc.1).symm⟩
  | cons o rest ih =>
    intro acc
    obtain ⟨a1, h1⟩ := ytStep_mono src acc o
    obtain ⟨a2, h2⟩ := ih (ytStep src acc o)
    exact ⟨a1 ++ a2, by rw [List.foldl_cons, h2, h1, List.append_assoc]⟩

theorem ytFold_mem (src : GoStr) : ∀ (l : List GoStr)
    (acc : List GoStr × NodeData) (x : GoStr),
    x ∈ acc.1 → x ∈ (l.foldl (ytStep src) acc).1 := by
  intro l
  induction l with
  | nil => intro acc x hx; exact hx
  | cons o rest ih =>
    intro acc x hx
    rw [List.foldl_cons]
    refine ih _ x ?_
    obtain ⟨a1, h1⟩ := ytStep_mono src acc o
    rw [h1]
    exact List.mem_append_left _ hx

theorem ytFold_opt_mem (src : GoStr) : ∀ (l : List GoStr)
    (acc : List GoStr × NodeData) (opt : GoStr), opt ∈ l →
    ((trimSpace opt = gs "autoplay" ∨ trimSpace opt = gs "loop") →
      trimSpace opt ++ gs "=1" ∈ (l.foldl (ytStep src) acc).1) ∧
    (trimSpace opt = gs "nocontrols" →
      gs "controls=0" ∈ (l.foldl (ytStep src) acc).1 ∧
      gs "playlist=" ++ src ∈ (l.foldl (ytStep src) acc).1) := by
  intro l
  induction l with
  | nil => intro acc opt h; exact absurd h (List.not_mem_nil opt)
  | cons o rest ih =>
    intro acc opt h
    rcases List.mem_cons.mp h with he | hm
    · subst he
      constructor
      · intro hal
        rw [List.foldl_cons]
        refine ytFold_mem src rest _ _ ?_
        show _ ∈ (ytStep src acc opt).1
        unfold ytStep
        rw [if_pos hal]
        exact List.mem_append_right _ (List.mem_singleton.mpr rfl)
      · intro hnc
        have hno : ¬(trimSpace opt = gs "autoplay" ∨ trimSpace opt = gs "loop") := by
          rw [hnc]; decide
        have hnm : ¬(trimSpace opt = gs "modest") := by rw [hnc]; decide
        constructor
        · rw [List.foldl_cons]
          refine ytFold_mem src rest _ _ ?_
          show _ ∈ (ytStep src acc opt).1
          unfold ytStep
          rw [if_neg hno, if_neg hnm, if_pos hnc]
          exact List.mem_append_right _ (by simp)
        · rw [List.foldl_cons]
          refine ytFold_mem src rest _ _ ?_
          show _ ∈ (ytStep src acc opt).1
          unfold ytStep
          rw [if_neg hno, if_neg hnm, if_pos hnc]
          exact List.mem_append_right _ (by simp)
    · exact ih _ opt hm

theorem ytQD_head (d : NodeData) : (ytQD d).1.head? = some (gs "rel=0") := by
  unfold ytQD
  simp only [ytQD]
  obtain ⟨add, hadd⟩ := ytFold_mono
    ((mapGet d.attrs (gs "src")).getD [])
    (splitChar ',' ((mapGet d.attrs (gs "options")).getD []))
    (([gs "rel=0"] ++ (match mapGet d.attrs (gs "start") with
      | some v => [gs "start=" ++ v]
      | none => [])) ++ (match mapGet d.attrs (gs "end") with
      | some v => [gs "end=" ++ v]
      | none => []), d)
  rw [hadd]
  simp

theorem ytQD_opt_mem (d : NodeData) (opt : GoStr)
    (h : opt ∈ splitChar ',' ((mapGet d.attrs (gs "options")).getD [])) :
    ((trimSpace opt = gs "autoplay" ∨ trimSpace opt = gs "loop") →
      trimSpace opt ++ gs "=1" ∈ (ytQD d).1) ∧
    (trimSpace opt = gs "nocontrols" →
      gs "controls=0" ∈ (ytQD d).1 ∧
      gs "playlist=" ++ (mapGet d.attrs (gs "src")).getD [] ∈ (ytQD d).1) := by
  have base := ytFold_opt_mem ((mapGet d.attrs (gs "src")).getD [])
    (splitChar ',' ((mapGet d.attrs (gs "options")).getD []))
    (([gs "rel=0"] ++ (match mapGet d.attrs (gs "start") with
      | some v => [gs "start=" ++ v]
      | none => [])) ++ (match mapGet d.attrs (gs "end") with
      | some v => [gs "end=" ++ v]
      | none => []), d) opt h
  simp only [ytQD]
  constructor
  · intro hal
    have := base.1 hal
    exact List.mem_append_left _ (List.mem_append_left _ this)
  · intro hnc
    have := base.2 hnc
    exact ⟨List.mem_append_left _ (List.mem_append_left _ this.1),
           List.mem_append_left _ (List.mem_append_left _ this.2)⟩

/-- C10: for every node whose Attrs contain the key youtube,
GetVideoSource assembles a URL with scheme https, host www.youtube.com,
path /embed/ followed by Attrs src, and a parameter list that starts with
rel=0; each autoplay or loop option contributes opt=1, and nocontrols
contributes both controls=0 and playlist=src. -/
theorem getVideoSource_youtube (d : NodeData)
    (hyt : (mapGet d.attrs (gs "youtube")).isSome = true) :
    ∃ (u : VideoURL) (d2 : NodeData),
      getVideoSource d = (.url u, d2) ∧
      u.scheme = gs "https" ∧
      u.host = gs "www.youtube.com" ∧
      u.path = gs "/embed/" ++ (mapGet d.attrs (gs "src")).getD [] ∧
      u.query.head? = some (gs "rel=0") ∧
      (∀ opt ∈ splitChar ',' ((mapGet d.attrs (gs "options")).getD []),
        ((trimSpace opt = gs "autoplay" ∨ trimSpace opt = gs "loop") →
          trimSpace opt ++ gs "=1" ∈ u.query) ∧
        (trimSpace opt = gs "nocontrols" →
          gs "controls=0" ∈ u.query ∧
          gs "playlist=" ++ (mapGet d.attrs (gs "src")).getD [] ∈ u.query)) := by
  refine ⟨{ scheme := gs "https", host := gs "www.youtube.com",
            path := gs "/embed/" ++ (mapGet d.attrs (gs "src")).getD [],
            query := (ytQD d).1, fragment := [] }, (ytQD d).2, ?_,
          rfl, rfl, rfl, ytQD_head d, ?_⟩
  · rw [getVideoSource]
    rw [if_pos hyt]
  · intro opt hopt
    exact ytQD_opt_mem d opt hopt

/-- A youtube video node with source abc and the autoplay and nocontrols
options. -/
def c10d : NodeData :=
  { attrs := [(gs "youtube", []), (gs "src", gs "abc"),
              (gs "options", gs "autoplay, nocontrols")] }

/-- C10 witness: the youtube theorem applied to a concrete node. -/
theorem getVideoSource_youtube_witness :
    ∃ (u : VideoURL) (d2 : NodeData),
      getVideoSource c10d = (.url u, d2) ∧
      u.scheme = gs "https" ∧
      u.host = gs "www.youtube.com" ∧
      u.path = gs "/embed/" ++ (mapGet c10d.attrs (gs "src")).getD [] ∧
      u.query.head? = some (gs "rel=0") ∧
      (∀ opt ∈ splitChar ',' ((mapGet c10d.attrs (gs "options")).getD []),
        ((trimSpace opt = gs "autoplay" ∨ trimSpace opt = gs "loop") →
          trimSpace opt ++ gs "=1" ∈ u.query) ∧
        (trimSpace opt = gs "nocontrols" →
          gs "controls=0" ∈ u.query ∧
          gs "playlist=" ++ (mapGet c10d.attrs (gs "src")).getD [] ∈ u.query)) :=
  getVideoSource_youtube c10d (by decide)

/-! ## C4 and C5: tree invariants of Document.Parse

The section-parent rule (C4) and the list-homogeneity rule (C5) are
proven for every input by one induction over the fuel of the whole
parser: a master well-formedness predicate wfF (childOK at every edge)
is maintained by the list sub-parsers, the block sub-parser, the spine
operations and the body loop, and each claim's tree predicate is a
projection of it.  secFree certifies that sub-parser output contains no
section nodes; the spine invariant SPinv carries the frame-adjacency
discipline of the nodeParent walk. -/

def secEdge (pk : Kind) (ck : Kind) : Bool :=
  !isSectionKind ck || (pk == sectionPred ck || pk == Kind.docContent)

def listEdge (pk : Kind) (pl : Int) (c : NodeData) : Bool :=
  match containerItemKind pk with
  | some ik => !isListItemKind c.kind || (c.kind == ik && pl == c.level)
  | none => true

def childOK (pk : Kind) (pl : Int) (c : NodeData) : Bool :=
  secEdge pk c.kind && listEdge pk pl c

mutual

def wfF : Node → Bool
  | .mk d kids => wfL d.kind d.level kids

def wfL : Kind → Int → List Node → Bool
  | _, _, [] => true
  | pk, pl, c :: rest => childOK pk pl c.data && wfF c && wfL pk pl rest

end

mutual

def secFreeF : Node → Bool
  | .mk d kids => !isSectionKind d.kind && secFreeL kids

def secFreeL : List Node → Bool
  | [] => true
  | c :: rest => secFreeF c && secFreeL rest

end

mutual

def secOKF : Node → Bool
  | .mk d kids => secOKL d.kind kids

def secOKL : Kind → List Node → Bool
  | _, [] => true
  | pk, c :: rest => secEdge pk c.data.kind && secOKF c && secOKL pk rest

end

mutual

def listOKF : Node → Bool
  | .mk d kids => listOKL d.kind d.level kids

def listOKL : Kind → Int → List Node → Bool
  | _, _, [] => true
  | pk, pl, c :: rest => listEdge pk pl c.data && listOKF c && listOKL pk pl rest

end

def plainKind (k : Kind) : Prop :=
  isSectionKind k = false ∧ containerItemKind k = none

def goodN (n : Node) : Prop := wfF n = true ∧ secFreeF n = true

def goodItem (ik : Kind) (lvl : Int) (n : Node) : Prop :=
  n.data.kind = ik ∧ n.data.level = lvl ∧ goodN n

def curOK (cur : Node) : Prop :=
  plainKind cur.data.kind ∧ ∀ n ∈ cur.kids, goodN n

def frameOKd (f : Frame) : Prop :=
  (f.data.kind = .preamble ∨ isSectionKind f.data.kind = true) ∧
  ∀ n ∈ f.kids, wfF n = true ∧ childOK f.data.kind f.data.level n.data = true

def adjOK : List Frame → Prop
  | [] => True
  | [_] => True
  | f :: g :: rest =>
    (isSectionKind f.data.kind = true ∧ g.data.kind = sectionPred f.data.kind) ∧
    adjOK (g :: rest)

def SPinv (sp : Spine) : Prop :=
  (∀ f ∈ sp.frames, frameOKd f) ∧ adjOK sp.frames ∧
  ∀ n ∈ sp.rootKids, wfF n = true

/-! Basic lemmas -/

theorem wfL_iff : ∀ (pk : Kind) (pl : Int) (l : List Node),
    wfL pk pl l = true ↔ ∀ n ∈ l, childOK pk pl n.data = true ∧ wfF n = true := by
  intro pk pl l
  induction l with
  | nil => simp [wfL]
  | cons c rest ih =>
    rw [wfL, Bool.and_eq_true, Bool.and_eq_true]
    constructor
    · rintro ⟨⟨h1, h2⟩, h3⟩ n hn
      rcases List.mem_cons.mp hn with he | hm
      · subst he; exact ⟨h1, h2⟩
      · exact (ih.mp h3) n hm
    · intro h
      exact ⟨⟨(h c (by simp)).1, (h c (by simp)).2⟩,
             ih.mpr (fun n hn => h n (by simp [hn]))⟩

theorem secFreeL_iff : ∀ (l : List Node),
    secFreeL l = true ↔ ∀ n ∈ l, secFreeF n = true := by
  intro l
  induction l with
  | nil => simp [secFreeL]
  | cons c rest ih =>
    rw [secFreeL, Bool.and_eq_true]
    constructor
    · rintro ⟨h1, h2⟩ n hn
      rcases List.mem_cons.mp hn with he | hm
      · subst he; exact h1
      · exact (ih.mp h2) n hm
    · intro h
      exact ⟨h c (by simp), ih.mpr (fun n hn => h n (by simp [hn]))⟩

theorem wfF_mk (d : NodeData) (kids : List Node) :
    wfF (.mk d kids) = wfL d.kind d.level kids := rfl

theorem secFreeF_mk (d : NodeData) (kids : List Node) :
    secFreeF (.mk d kids) = (!isSectionKind d.kind && secFreeL kids) := rfl

theorem secFree_kind (n : Node) (h : secFreeF n = true) :
    isSectionKind n.data.kind = false := by
  cases n with
  | mk d kids =>
    rw [secFreeF_mk, Bool.and_eq_true] at h
    simpa using h.1

theorem childOK_of_plain (pk : Kind) (pl : Int) (c : NodeData)
    (hc : isSectionKind c.kind = false) (hpk : containerItemKind pk = none) :
    childOK pk pl c = true := by
  unfold childOK secEdge listEdge
  rw [hc, hpk]
  simp

theorem childOK_nonitem (pk : Kind) (pl : Int) (c : NodeData)
    (hc : isSectionKind c.kind = false) (hi : isListItemKind c.kind = false) :
    childOK pk pl c = true := by
  unfold childOK secEdge listEdge
  rw [hc, hi]
  cases containerItemKind pk <;> simp

theorem childOK_docContent (pl : Int) (c : NodeData) :
    childOK .docContent pl c = true := by
  unfold childOK secEdge listEdge
  rw [show containerItemKind Kind.docContent = none from rfl]
  simp

theorem goodN_childOK (pk : Kind) (pl : Int) (n : Node)
    (hg : goodN n) (hpk : containerItemKind pk = none) :
    childOK pk pl n.data = true :=
  childOK_of_plain pk pl n.data (secFree_kind n hg.2) hpk

theorem frame_kind_nocontainer (k : Kind)
    (h : k = .preamble ∨ isSectionKind k = true) : containerItemKind k = none := by
  rcases h with h | h
  · subst h; rfl
  · cases k <;> first | rfl | simp [isSectionKind] at h

theorem plainKind_nocontainer (k : Kind) (h : plainKind k) :
    containerItemKind k = none := h.2

/-! wf implies the two claim predicates -/

mutual

theorem wf_sec : ∀ (n : Node), wfF n = true → secOKF n = true
  | .mk d kids, h => wfL_secL d.kind d.level kids h

theorem wfL_secL : ∀ (pk : Kind) (pl : Int) (l : List Node),
    wfL pk pl l = true → secOKL pk l = true
  | _, _, [], _ => rfl
  | pk, pl, c :: rest, h => by
    rw [wfL, Bool.and_eq_true, Bool.and_eq_true] at h
    rw [secOKL, Bool.and_eq_true, Bool.and_eq_true]
    refine ⟨⟨?_, wf_sec c h.1.2⟩, wfL_secL pk pl rest h.2⟩
    have hc := h.1.1
    rw [childOK, Bool.and_eq_true] at hc
    exact hc.1

end

mutual

theorem wf_list : ∀ (n : Node), wfF n = true → listOKF n = true
  | .mk d kids, h => wfL_listL d.kind d.level kids h

theorem wfL_listL : ∀ (pk : Kind) (pl : Int) (l : List Node),
    wfL pk pl l = true → listOKL pk pl l = true
  | _, _, [], _ => rfl
  | pk, pl, c :: rest, h => by
    rw [wfL, Bool.and_eq_true, Bool.and_eq_true] at h
    rw [listOKL, Bool.and_eq_true, Bool.and_eq_true]
    refine ⟨⟨?_, wf_list c h.1.2⟩, wfL_listL pk pl rest h.2⟩
    have hc := h.1.1
    rw [childOK, Bool.and_eq_true] at hc
    exact hc.2

end
theorem parseLineAdmonition_kind (d : NodeData) (line : GoStr) :
    (parseLineAdmonition d line).kind = d.kind := by
  unfold parseLineAdmonition
  cases indexOfChar ':' line <;> rfl

theorem goodN_leaf (d : NodeData) (h : isSectionKind d.kind = false) :
    goodN (.mk d []) := by
  refine ⟨rfl, ?_⟩
  rw [secFreeF_mk, h]
  rfl

set_option maxHeartbeats 2000000 in
theorem parseListBlock_good : ∀ (fuel : Nat) (st : PState) (n : Node),
    (parseListBlockF fuel st).1 = some n → goodN n := by
  intro fuel
  induction fuel with
  | zero => intro st n h; simp [parseListBlockF] at h
  | succ fuel ih =>
    intro st n h
    rw [parseListBlockF] at h
    rcases hdl : docLine st with ⟨sp1, line1, c1, st1⟩
    rw [hdl] at h
    dsimp only [] at h
    split at h
    · exact Option.noConfusion h
    · split at h
      · -- admonition
        injection h with h
        subst h
        refine goodN_leaf _ ?_
        rw [show (⟨(parseLineAdmonition { kind := Kind.lineAdmonition } _).kind, _, _, _, _, _, _, _, _, _, _, _⟩ : NodeData).kind = (parseLineAdmonition { kind := Kind.lineAdmonition } _).kind from rfl]
        rw [parseLineAdmonition_kind]
        rfl
      · split at h
        · exact ih _ n h
        · split at h
          · exact ih _ n h
          · split at h
            · exact Option.noConfusion h
            · split at h
              · exact ih _ n h
              · split at h
                · -- literalParagraph
                  injection h with h
                  subst h
                  exact goodN_leaf _ rfl
                · split at h
                  · -- lineText paragraph
                    injection h with h
                    subst h
                    exact goodN_leaf _ rfl
                  · split at h
                    · -- listing
                      injection h with h
                      subst h
                      exact goodN_leaf _ rfl
                    · split at h
                      · exact Option.noConfusion h
                      · exact ih _ n h
theorem nodeParseListOrdered_kind (d : NodeData) (line : GoStr) :
    (nodeParseListOrdered d line).kind = d.kind := rfl

theorem nodeParseListUnordered_kind (d : NodeData) (line : GoStr) :
    (nodeParseListUnordered d line).kind = d.kind := rfl

theorem nodeParseListDescription_kind (d : NodeData) (line : GoStr) :
    (nodeParseListDescription d line).kind = d.kind := by
  unfold nodeParseListDescription
  split
  · rfl
  · split <;> rfl

theorem goodN_fresh : goodN freshNode := ⟨rfl, rfl⟩

theorem item_goodN (ik : Kind) (curD : NodeData) (curKids : List Node)
    (hk : curD.kind = ik) (hsec : isSectionKind ik = false)
    (hcont : containerItemKind ik = none)
    (hkids : ∀ n ∈ curKids, goodN n) : goodN (.mk curD curKids) := by
  constructor
  · rw [wfF_mk, wfL_iff]
    intro n hn
    refine ⟨childOK_of_plain _ _ _ (secFree_kind n (hkids n hn).2) ?_, (hkids n hn).1⟩
    rw [hk]
    exact hcont
  · rw [secFreeF_mk, Bool.and_eq_true]
    refine ⟨by rw [hk, hsec]; rfl, (secFreeL_iff _).mpr (fun n hn => (hkids n hn).2)⟩

theorem container_fin (listD curD : NodeData) (ik : Kind) (done curKids : List Node)
    (hik : containerItemKind listD.kind = some ik)
    (hsecL : isSectionKind listD.kind = false)
    (hsecI : isSectionKind ik = false) (hcontI : containerItemKind ik = none)
    (hdone : ∀ n ∈ done, goodItem ik listD.level n)
    (hck : curD.kind = ik) (hcl : curD.level = listD.level)
    (hkids : ∀ n ∈ curKids, goodN n) :
    goodN (.mk listD (done ++ [.mk curD curKids])) := by
  have hitem : goodN (.mk curD curKids) := item_goodN ik curD curKids hck hsecI hcontI hkids
  constructor
  · rw [wfF_mk, wfL_iff]
    intro n hn
    rcases List.mem_append.mp hn with hm | hm
    · obtain ⟨h1, h2, h3⟩ := hdone n hm
      refine ⟨?_, h3.1⟩
      unfold childOK secEdge listEdge
      rw [h1, hsecI, hik, h2]
      simp
    · rw [List.mem_singleton.mp hm]
      refine ⟨?_, hitem.1⟩
      unfold childOK secEdge listEdge
      rw [show (Node.mk curD curKids).data = curD from rfl, hck, hcl, hsecI, hik]
      simp
  · rw [secFreeF_mk, Bool.and_eq_true]
    refine ⟨by rw [hsecL]; rfl, (secFreeL_iff _).mpr ?_⟩
    intro n hn
    rcases List.mem_append.mp hn with hm | hm
    · exact (hdone n hm).2.2.2
    · rw [List.mem_singleton.mp hm]
      exact hitem.2

theorem ord_fin (listD curD : NodeData) (done curKids : List Node)
    (hLk : listD.kind = Kind.listOrdered) (hck : curD.kind = Kind.listOrderedItem)
    (hcl : curD.level = listD.level)
    (hdone : ∀ n ∈ done, goodItem Kind.listOrderedItem listD.level n)
    (hkids : ∀ n ∈ curKids, goodN n) :
    goodN (.mk listD (done ++ [.mk curD curKids])) :=
  container_fin listD curD Kind.listOrderedItem done curKids (by rw [hLk]; rfl)
    (by rw [hLk]; rfl) rfl rfl hdone hck hcl hkids

theorem unord_fin (listD curD : NodeData) (done curKids : List Node)
    (hLk : listD.kind = Kind.listUnordered) (hck : curD.kind = Kind.listUnorderedItem)
    (hcl : curD.level = listD.level)
    (hdone : ∀ n ∈ done, goodItem Kind.listUnorderedItem listD.level n)
    (hkids : ∀ n ∈ curKids, goodN n) :
    goodN (.mk listD (done ++ [.mk curD curKids])) :=
  container_fin listD curD Kind.listUnorderedItem done curKids (by rw [hLk]; rfl)
    (by rw [hLk]; rfl) rfl rfl hdone hck hcl hkids

theorem desc_fin (listD curD : NodeData) (done curKids : List Node)
    (hLk : listD.kind = Kind.listDescription) (hck : curD.kind = Kind.listDescriptionItem)
    (hcl : curD.level = listD.level)
    (hdone : ∀ n ∈ done, goodItem Kind.listDescriptionItem listD.level n)
    (hkids : ∀ n ∈ curKids, goodN n) :
    goodN (.mk listD (done ++ [.mk curD curKids])) :=
  container_fin listD curD Kind.listDescriptionItem done curKids (by rw [hLk]; rfl)
    (by rw [hLk]; rfl) rfl rfl hdone hck hcl hkids

theorem push_done (ik : Kind) (lvl : Int) (done : List Node) (curD : NodeData)
    (curKids : List Node) (hck : curD.kind = ik) (hcl : curD.level = lvl)
    (hsecI : isSectionKind ik = false) (hcontI : containerItemKind ik = none)
    (hdone : ∀ n ∈ done, goodItem ik lvl n) (hkids : ∀ n ∈ curKids, goodN n) :
    ∀ n ∈ done ++ [.mk curD curKids], goodItem ik lvl n := by
  intro n hn
  rcases List.mem_append.mp hn with hm | hm
  · exact hdone n hm
  · rw [List.mem_singleton.mp hm]
    exact ⟨hck, hcl, item_goodN ik curD curKids hck hsecI hcontI hkids⟩

theorem push_kid (curKids : List Node) (m : Node) (hkids : ∀ n ∈ curKids, goodN n)
    (hm : goodN m) : ∀ n ∈ curKids ++ [m], goodN n := by
  intro n hn
  rcases List.mem_append.mp hn with h | h
  · exact hkids n h
  · rw [List.mem_singleton.mp h]
    exact hm

theorem nil_kids : ∀ n ∈ ([] : List Node), goodN n :=
  fun n hn => absurd hn (List.not_mem_nil n)

theorem nil_items (ik : Kind) (lvl : Int) : ∀ n ∈ ([] : List Node), goodItem ik lvl n :=
  fun n hn => absurd hn (List.not_mem_nil n)
set_option maxHeartbeats 4000000 in
theorem listParsers_good : ∀ fuel : Nat,
    (∀ st t sty anc title line,
      goodN (parseListOrderedF fuel st t sty anc title line).2.2.2) ∧
    (∀ st t sty anc listD done curD curKids line c,
      listD.kind = Kind.listOrdered → curD.kind = Kind.listOrderedItem →
      curD.level = listD.level →
      (∀ n ∈ done, goodItem Kind.listOrderedItem listD.level n) →
      (∀ n ∈ curKids, goodN n) →
      goodN (ordLoop fuel st t sty anc listD done curD curKids line c).2.2.2) ∧
    (∀ st t sty anc line,
      goodN (parseListUnorderedF fuel st t sty anc line).2.2.2) ∧
    (∀ st t sty anc listD done curD curKids line c,
      listD.kind = Kind.listUnordered → curD.kind = Kind.listUnorderedItem →
      curD.level = listD.level →
      (∀ n ∈ done, goodItem Kind.listUnorderedItem listD.level n) →
      (∀ n ∈ curKids, goodN n) →
      goodN (unordLoop fuel st t sty anc listD done curD curKids line c).2.2.2) ∧
    (∀ st t sty anc line,
      goodN (parseListDescriptionF fuel st t sty anc line).2.2.2) ∧
    (∀ st t sty anc listD done curD curKids line c,
      listD.kind = Kind.listDescription → curD.kind = Kind.listDescriptionItem →
      curD.level = listD.level →
      (∀ n ∈ done, goodItem Kind.listDescriptionItem listD.level n) →
      (∀ n ∈ curKids, goodN n) →
      goodN (descLoop fuel st t sty anc listD done curD curKids line c).2.2.2) := by
  intro fuel
  induction fuel with
  | zero =>
    refine ⟨?_, ?_, ?_, ?_, ?_, ?_⟩
    · intro st t sty anc title line
      rw [parseListOrderedF]
      exact goodN_fresh
    · intro st t sty anc listD done curD curKids line c hLk hck hcl hdone hkids
      rw [ordLoop]
      exact ord_fin _ _ _ _ hLk hck hcl hdone hkids
    · intro st t sty anc line
      rw [parseListUnorderedF]
      exact goodN_fresh
    · intro st t sty anc listD done curD curKids line c hLk hck hcl hdone hkids
      rw [unordLoop]
      exact unord_fin _ _ _ _ hLk hck hcl hdone hkids
    · intro st t sty anc line
      rw [parseListDescriptionF]
      exact goodN_fresh
    · intro st t sty anc listD done curD curKids line c hLk hck hcl hdone hkids
      rw [descLoop]
      exact desc_fin _ _ _ _ hLk hck hcl hdone hkids
  | succ fuel ih =>
    obtain ⟨ihO, ihOL, ihU, ihUL, ihD, ihDL⟩ := ih
    refine ⟨?_, ?_, ?_, ?_, ?_, ?_⟩
    · intro st t sty anc title line
      rw [parseListOrderedF]
      exact ihOL _ _ _ _ _ _ _ _ _ _ rfl (by rw [nodeParseListOrdered_kind]) rfl
        (nil_items _ _) nil_kids
    · intro st t sty anc listD done curD curKids line c hLk hck hcl hdone hkids
      rw [ordLoop]
      by_cases h0 : line = []
      · rw [if_pos h0]
        rcases hdl : docLine st with ⟨s1, l1, ac, st1⟩
        dsimp only
        by_cases he : l1 = [] ∧ ac = false
        · rw [if_pos he]
          exact ord_fin _ _ _ _ hLk hck hcl hdone hkids
        · rw [if_neg he]
          exact ihOL _ _ _ _ _ _ _ _ _ _ hLk hck hcl hdone hkids
      · rw [if_neg h0]
        by_cases h1 : st.kind = Kind.lineBlockComment
        · rw [if_pos h1]
          exact ihOL _ _ _ _ _ _ _ _ _ _ hLk hck hcl hdone hkids
        · rw [if_neg h1]
          by_cases h2 : st.kind = Kind.lineComment
          · rw [if_pos h2]
            exact ihOL _ _ _ _ _ _ _ _ _ _ hLk hck hcl hdone hkids
          · rw [if_neg h2]
            by_cases h3 : st.kind = Kind.lineListContinue
            · rw [if_pos h3]
              rcases hpe : parseListBlockF fuel st with ⟨n2, l2, c2, st2⟩
              dsimp only
              rcases n2 with _ | m
              · exact ihOL _ _ _ _ _ _ _ _ _ _ hLk hck hcl hdone hkids
              · refine ihOL _ _ _ _ _ _ _ _ _ _ hLk hck hcl hdone (push_kid _ _ hkids ?_)
                exact parseListBlock_good fuel st m (by rw [hpe])
            · rw [if_neg h3]
              by_cases h4 : st.kind = Kind.lineEmpty
              · rw [if_pos h4]
                exact ihOL _ _ _ _ _ _ _ _ _ _ hLk hck hcl hdone hkids
              · rw [if_neg h4]
                by_cases h5 : st.kind = Kind.lineStyle ∧ st.prevKind = Kind.lineEmpty
                · rw [if_pos h5]
                  exact ord_fin _ _ _ _ hLk hck hcl hdone hkids
                · rw [if_neg h5]
                  by_cases h6 : st.kind = Kind.listOrderedItem
                  · rw [if_pos h6]
                    by_cases hg : curD.level = (nodeParseListOrdered { kind := Kind.listOrderedItem } line).level
                    · rw [if_pos hg]
                      exact ihOL _ _ _ _ _ _ _ _ _ _ hLk (by rw [nodeParseListOrdered_kind]) (hg.symm.trans hcl) (push_done _ _ _ _ _ hck hcl rfl rfl hdone hkids) nil_kids
                    · rw [if_neg hg]
                      by_cases hb : ancestorHas anc Kind.listOrderedItem (nodeParseListOrdered { kind := Kind.listOrderedItem } line).level = true
                      · rw [if_pos hb]
                        exact ord_fin _ _ _ _ hLk hck hcl hdone hkids
                      · rw [if_neg hb]
                        refine ihOL _ _ _ _ _ _ _ _ _ _ hLk hck hcl hdone (push_kid _ _ hkids ?_)
                        exact ihO _ _ _ _ _ _
                  · rw [if_neg h6]
                    by_cases h7 : st.kind = Kind.listUnorderedItem
                    · rw [if_pos h7]
                      by_cases hb2 : ancestorHas anc Kind.listUnorderedItem (nodeParseListUnordered { kind := Kind.listUnorderedItem } line).level = true
                      · rw [if_pos hb2]
                        exact ord_fin _ _ _ _ hLk hck hcl hdone hkids
                      · rw [if_neg hb2]
                        refine ihOL _ _ _ _ _ _ _ _ _ _ hLk hck hcl hdone (push_kid _ _ hkids ?_)
                        exact ihU _ _ _ _ _
                    · rw [if_neg h7]
                      by_cases h8 : st.kind = Kind.listDescriptionItem
                      · rw [if_pos h8]
                        by_cases hb3 : ancestorHas anc Kind.listDescriptionItem (nodeParseListDescription { kind := Kind.listDescriptionItem } line).level = true
                        · rw [if_pos hb3]
                          exact ord_fin _ _ _ _ hLk hck hcl hdone hkids
                        · rw [if_neg hb3]
                          refine ihOL _ _ _ _ _ _ _ _ _ _ hLk hck hcl hdone (push_kid _ _ hkids ?_)
                          exact ihD _ _ _ _ _
                      · rw [if_neg h8]
                        by_cases h9 : st.kind = Kind.lineAdmonition ∧ st.prevKind = Kind.lineEmpty
                        · rw [if_pos h9]
                          exact ord_fin _ _ _ _ hLk hck hcl hdone hkids
                        · rw [if_neg h9]
                          by_cases h10 : st.kind = Kind.lineText ∧ st.prevKind = Kind.lineEmpty
                          · rw [if_pos h10]
                            exact ord_fin _ _ _ _ hLk hck hcl hdone hkids
                          · rw [if_neg h10]
                            by_cases h11 : st.kind = Kind.blockLiteralNamed
                            · rw [if_pos h11]
                              by_cases h11a : st.prevKind = Kind.lineEmpty
                              · rw [if_pos h11a]
                                exact ord_fin _ _ _ _ hLk hck hcl hdone hkids
                              · rw [if_neg h11a]
                                refine ihOL _ _ _ _ _ _ _ _ _ _ hLk hck hcl hdone (push_kid _ _ hkids ?_)
                                exact goodN_leaf _ rfl
                            · rw [if_neg h11]
                              by_cases h12 : st.kind = Kind.blockListingDelimiter ∨ st.kind = Kind.blockExample
                              · rw [if_pos h12]
                                exact ord_fin _ _ _ _ hLk hck hcl hdone hkids
                              · rw [if_neg h12]
                                by_cases h13 : isSectionKind st.kind = true ∧ st.prevKind = Kind.lineEmpty
                                · rw [if_pos h13]
                                  exact ord_fin _ _ _ _ hLk hck hcl hdone hkids
                                · rw [if_neg h13]
                                  exact ihOL _ _ _ _ _ _ _ _ _ _ hLk hck hcl hdone hkids
    · intro st t sty anc line
      rw [parseListUnorderedF]
      exact ihUL _ _ _ _ _ _ _ _ _ _ rfl (by rw [nodeParseListUnordered_kind]) rfl
        (nil_items _ _) nil_kids
    · intro st t sty anc listD done curD curKids line c hLk hck hcl hdone hkids
      rw [unordLoop]
      by_cases h0 : line = []
      · rw [if_pos h0]
        rcases hdl : docLine st with ⟨s1, l1, ac, st1⟩
        dsimp only
        by_cases he : l1 = [] ∧ ac = false
        · rw [if_pos he]
          exact unord_fin _ _ _ _ hLk hck hcl hdone hkids
        · rw [if_neg he]
          exact ihUL _ _ _ _ _ _ _ _ _ _ hLk hck hcl hdone hkids
      · rw [if_neg h0]
        by_cases h1 : st.kind = Kind.lineBlockComment
        · rw [if_pos h1]
          exact ihUL _ _ _ _ _ _ _ _ _ _ hLk hck hcl hdone hkids
        · rw [if_neg h1]
          by_cases h2 : st.kind = Kind.lineComment
          · rw [if_pos h2]
            exact ihUL _ _ _ _ _ _ _ _ _ _ hLk hck hcl hdone hkids
          · rw [if_neg h2]
            by_cases h3 : st.kind = Kind.lineListContinue
            · rw [if_pos h3]
              rcases hpe : parseListBlockF fuel st with ⟨n2, l2, c2, st2⟩
              dsimp only
              rcases n2 with _ | m
              · exact ihUL _ _ _ _ _ _ _ _ _ _ hLk hck hcl hdone hkids
              · refine ihUL _ _ _ _ _ _ _ _ _ _ hLk hck hcl hdone (push_kid _ _ hkids ?_)
                exact parseListBlock_good fuel st m (by rw [hpe])
            · rw [if_neg h3]
              by_cases h4 : st.kind = Kind.lineEmpty
              · rw [if_pos h4]
                exact ihUL _ _ _ _ _ _ _ _ _ _ hLk hck hcl hdone hkids
              · rw [if_neg h4]
                by_cases h5 : st.kind = Kind.lineStyle ∧ st.prevKind = Kind.lineEmpty
                · rw [if_pos h5]
                  exact unord_fin _ _ _ _ hLk hck hcl hdone hkids
                · rw [if_neg h5]
                  by_cases h6 : st.kind = Kind.listOrderedItem
                  · rw [if_pos h6]
                    by_cases hb1 : ancestorHas anc Kind.listOrderedItem (nodeParseListOrdered { kind := Kind.listOrderedItem } line).level = true
                    · rw [if_pos hb1]
                      exact unord_fin _ _ _ _ hLk hck hcl hdone hkids
                    · rw [if_neg hb1]
                      refine ihUL _ _ _ _ _ _ _ _ _ _ hLk hck hcl hdone (push_kid _ _ hkids ?_)
                      exact ihO _ _ _ _ _ _
                  · rw [if_neg h6]
                    by_cases h7 : st.kind = Kind.listUnorderedItem
                    · rw [if_pos h7]
                      by_cases hg : curD.level = (nodeParseListUnordered { kind := Kind.listUnorderedItem } line).level
                      · rw [if_pos hg]
                        exact ihUL _ _ _ _ _ _ _ _ _ _ hLk (by rw [nodeParseListUnordered_kind]) (hg.symm.trans hcl) (push_done _ _ _ _ _ hck hcl rfl rfl hdone hkids) nil_kids
                      · rw [if_neg hg]
                        by_cases hb : ancestorHas anc Kind.listUnorderedItem (nodeParseListUnordered { kind := Kind.listUnorderedItem } line).level = true
                        · rw [if_pos hb]
                          exact unord_fin _ _ _ _ hLk hck hcl hdone hkids
                        · rw [if_neg hb]
                          refine ihUL _ _ _ _ _ _ _ _ _ _ hLk hck hcl hdone (push_kid _ _ hkids ?_)
                          exact ihU _ _ _ _ _
                    · rw [if_neg h7]
                      by_cases h8 : st.kind = Kind.listDescriptionItem
                      · rw [if_pos h8]
                        by_cases hb3 : ancestorHas anc Kind.listDescriptionItem (nodeParseListDescription { kind := Kind.listDescriptionItem } line).level = true
                        · rw [if_pos hb3]
                          exact unord_fin _ _ _ _ hLk hck hcl hdone hkids
                        · rw [if_neg hb3]
                          refine ihUL _ _ _ _ _ _ _ _ _ _ hLk hck hcl hdone (push_kid _ _ hkids ?_)
                          exact ihD _ _ _ _ _
                      · rw [if_neg h8]
                        by_cases h9 : st.kind = Kind.lineAdmonition ∧ st.prevKind = Kind.lineEmpty
                        · rw [if_pos h9]
                          exact unord_fin _ _ _ _ hLk hck hcl hdone hkids
                        · rw [if_neg h9]
                          by_cases h10 : st.kind = Kind.lineText ∧ st.prevKind = Kind.lineEmpty
                          · rw [if_pos h10]
                            exact unord_fin _ _ _ _ hLk hck hcl hdone hkids
                          · rw [if_neg h10]
                            by_cases h11 : st.kind = Kind.blockLiteralNamed
                            · rw [if_pos h11]
                              by_cases h11a : st.prevKind = Kind.lineEmpty
                              · rw [if_pos h11a]
                                exact unord_fin _ _ _ _ hLk hck hcl hdone hkids
                              · rw [if_neg h11a]
                                refine ihUL _ _ _ _ _ _ _ _ _ _ hLk hck hcl hdone (push_kid _ _ hkids ?_)
                                exact goodN_leaf _ rfl
                            · rw [if_neg h11]
                              by_cases h12 : st.kind = Kind.blockListingDelimiter ∨ st.kind = Kind.blockExample
                              · rw [if_pos h12]
                                exact unord_fin _ _ _ _ hLk hck hcl hdone hkids
                              · rw [if_neg h12]
                                by_cases h13 : isSectionKind st.kind = true ∧ st.prevKind = Kind.lineEmpty
                                · rw [if_pos h13]
                                  exact unord_fin _ _ _ _ hLk hck hcl hdone hkids
                                · rw [if_neg h13]
                                  exact ihUL _ _ _ _ _ _ _ _ _ _ hLk hck hcl hdone hkids
    · intro st t sty anc line
      rw [parseListDescriptionF]
      exact ihDL _ _ _ _ _ _ _ _ _ _ rfl (by rw [nodeParseListDescription_kind]) rfl
        (nil_items _ _) nil_kids
    · intro st t sty anc listD done curD curKids line c hLk hck hcl hdone hkids
      rw [descLoop]
      by_cases h0 : line = []
      · rw [if_pos h0]
        rcases hdl : docLine st with ⟨s1, l1, ac, st1⟩
        dsimp only
        by_cases he : l1 = [] ∧ ac = false
        · rw [if_pos he]
          exact desc_fin _ _ _ _ hLk hck hcl hdone hkids
        · rw [if_neg he]
          exact ihDL _ _ _ _ _ _ _ _ _ _ hLk hck hcl hdone hkids
      · rw [if_neg h0]
        by_cases h1 : st.kind = Kind.lineBlockComment
        · rw [if_pos h1]
          exact ihDL _ _ _ _ _ _ _ _ _ _ hLk hck hcl hdone hkids
        · rw [if_neg h1]
          by_cases h2 : st.kind = Kind.lineComment
          · rw [if_pos h2]
            exact ihDL _ _ _ _ _ _ _ _ _ _ hLk hck hcl hdone hkids
          · rw [if_neg h2]
            by_cases h3 : st.kind = Kind.lineListContinue
            · rw [if_pos h3]
              rcases hpe : parseListBlockF fuel st with ⟨n2, l2, c2, st2⟩
              dsimp only
              rcases n2 with _ | m
              · exact ihDL _ _ _ _ _ _ _ _ _ _ hLk hck hcl hdone hkids
              · refine ihDL _ _ _ _ _ _ _ _ _ _ hLk hck hcl hdone (push_kid _ _ hkids ?_)
                exact parseListBlock_good fuel st m (by rw [hpe])
            · rw [if_neg h3]
              by_cases h4 : st.kind = Kind.lineEmpty
              · rw [if_pos h4]
                exact ihDL _ _ _ _ _ _ _ _ _ _ hLk hck hcl hdone hkids
              · rw [if_neg h4]
                by_cases h5 : st.kind = Kind.lineStyle ∧ st.prevKind = Kind.lineEmpty
                · rw [if_pos h5]
                  exact desc_fin _ _ _ _ hLk hck hcl hdone hkids
                · rw [if_neg h5]
                  by_cases h6 : st.kind = Kind.listOrderedItem
                  · rw [if_pos h6]
                    refine ihDL _ _ _ _ _ _ _ _ _ _ hLk hck hcl hdone (push_kid _ _ hkids ?_)
                    exact ihO _ _ _ _ _ _
                  · rw [if_neg h6]
                    by_cases h7 : st.kind = Kind.listUnorderedItem
                    · rw [if_pos h7]
                      refine ihDL _ _ _ _ _ _ _ _ _ _ hLk hck hcl hdone (push_kid _ _ hkids ?_)
                      exact ihU _ _ _ _ _
                    · rw [if_neg h7]
                      by_cases h8 : st.kind = Kind.listDescriptionItem
                      · rw [if_pos h8]
                        by_cases hg : curD.level = (nodeParseListDescription { kind := Kind.listDescriptionItem, style := listD.style } line).level
                        · rw [if_pos hg]
                          exact ihDL _ _ _ _ _ _ _ _ _ _ hLk (by rw [nodeParseListDescription_kind]) (hg.symm.trans hcl) (push_done _ _ _ _ _ hck hcl rfl rfl hdone hkids) nil_kids
                        · rw [if_neg hg]
                          by_cases hb : ancestorHas anc Kind.listDescriptionItem (nodeParseListDescription { kind := Kind.listDescriptionItem, style := listD.style } line).level = true
                          · rw [if_pos hb]
                            exact desc_fin _ _ _ _ hLk hck hcl hdone hkids
                          · rw [if_neg hb]
                            refine ihDL _ _ _ _ _ _ _ _ _ _ hLk hck hcl hdone (push_kid _ _ hkids ?_)
                            exact ihD _ _ _ _ _
                      · rw [if_neg h8]
                        by_cases h10 : st.kind = Kind.lineText ∧ st.prevKind = Kind.lineEmpty
                        · rw [if_pos h10]
                          exact desc_fin _ _ _ _ hLk hck hcl hdone hkids
                        · rw [if_neg h10]
                          by_cases h11 : st.kind = Kind.blockLiteralNamed
                          · rw [if_pos h11]
                            by_cases h11a : st.prevKind = Kind.lineEmpty
                            · rw [if_pos h11a]
                              exact desc_fin _ _ _ _ hLk hck hcl hdone hkids
                            · rw [if_neg h11a]
                              refine ihDL _ _ _ _ _ _ _ _ _ _ hLk hck hcl hdone (push_kid _ _ hkids ?_)
                              exact goodN_leaf _ rfl
                          · rw [if_neg h11]
                            by_cases h12 : st.kind = Kind.blockListingDelimiter ∨ st.kind = Kind.blockExample
                            · rw [if_pos h12]
                              exact desc_fin _ _ _ _ hLk hck hcl hdone hkids
                            · rw [if_neg h12]
                              by_cases h13 : isSectionKind st.kind = true ∧ st.prevKind = Kind.lineEmpty
                              · rw [if_pos h13]
                                exact desc_fin _ _ _ _ hLk hck hcl hdone hkids
                              · rw [if_neg h13]
                                exact ihDL _ _ _ _ _ _ _ _ _ _ hLk hck hcl hdone hkids
def BInv (b : BlockSt) : Prop :=
  (∀ n ∈ b.blockKids, goodN n) ∧ plainKind b.nodeD.kind ∧
  plainKind b.blockD.kind ∧ plainKind b.freshC.kind ∧
  (∀ n ∈ b.snaps, goodN n)

theorem push_kid2 (ks : List Node) (m1 m2 : Node) (hk : ∀ n ∈ ks, goodN n)
    (h1 : goodN m1) (h2 : goodN m2) : ∀ n ∈ ks ++ [m1, m2], goodN n := by
  intro n hn
  rcases List.mem_append.mp hn with h | h
  · exact hk n h
  · rcases List.mem_cons.mp h with he | he
    · rw [he]
      exact h1
    · rw [List.mem_singleton.mp he]
      exact h2

theorem setStyleAdmonition_kind (d : NodeData) (n : GoStr) :
    (setStyleAdmonition d n).kind = d.kind := rfl

theorem parseStyleClass_kind (d : NodeData) (line : GoStr) :
    (parseStyleClass d line).kind = d.kind := by
  unfold parseStyleClass
  dsimp only
  generalize splitChar '.' (trimIn line (gs "[]")) = parts
  induction parts generalizing d with
  | nil => rfl
  | cons p rest ih =>
    rw [List.foldl_cons, ih]
    split <;> rfl

theorem goodN_container_plain (d : NodeData) (kids : List Node)
    (hd : plainKind d.kind) (hk : ∀ n ∈ kids, goodN n) : goodN (.mk d kids) :=
  item_goodN d.kind d kids rfl hd.1 hd.2 hk

set_option maxHeartbeats 4000000 in
theorem blockParsers_inv : ∀ fuel : Nat,
    (∀ b term line spaces c b', BInv b →
      blockLoop fuel b term line spaces c = .ok b' → BInv b') ∧
    (∀ b term line spaces c b', BInv b →
      blockStep fuel b term line spaces c = .ok b' → BInv b') := by
  intro fuel
  induction fuel with
  | zero =>
    constructor
    · intro b term line spaces c b' hB h
      rw [blockLoop] at h
      injection h with h
      rw [← h]
      exact hB
    · intro b term line spaces c b' hB h
      rw [blockStep] at h
      injection h with h
      rw [← h]
      exact hB
  | succ fuel ih =>
    obtain ⟨ihL, ihS⟩ := ih
    constructor
    · intro b term line spaces c b' hB h
      rw [blockLoop] at h
      by_cases h0 : line = []
      · rw [if_pos h0] at h
        rcases hdl : docLine b.st with ⟨s1, l1, ac, st1⟩
        rw [hdl] at h
        dsimp only at h
        by_cases he : l1 = [] ∧ ac = false
        · rw [if_pos he] at h
          injection h with h
          rw [← h]
          exact hB
        · rw [if_neg he] at h
          exact ihS _ _ _ _ _ _ (by exact hB) h
      · rw [if_neg h0] at h
        exact ihS _ _ _ _ _ _ (by exact hB) h
    · intro b term line spaces c b' hB h
      obtain ⟨hK, hN, hD, hF, hS⟩ := hB
      rw [blockStep] at h
      dsimp only at h
      by_cases a1 : b.st.kind = Kind.lineEmpty
      · rw [if_pos a1] at h
        by_cases hni : b.nodeD.kind ≠ Kind.unknown
        · rw [if_pos hni] at h
          exact ihL _ _ _ _ _ _ (by exact
            ⟨push_kid _ _ hK (goodN_leaf _ hN.1), ⟨rfl, rfl⟩, hD, hF, hS⟩) h
        · rw [if_neg hni] at h
          exact ihL _ _ _ _ _ _ (by exact ⟨hK, hN, hD, hF, hS⟩) h
      · rw [if_neg a1] at h
        by_cases a2 : b.st.kind = Kind.lineBlockComment
        · rw [if_pos a2] at h
          exact ihL _ _ _ _ _ _ (by exact ⟨hK, hN, hD, hF, hS⟩) h
        · rw [if_neg a2] at h
          by_cases a3 : b.st.kind = Kind.lineComment
          · rw [if_pos a3] at h
            exact ihL _ _ _ _ _ _ (by exact ⟨hK, hN, hD, hF, hS⟩) h
          · rw [if_neg a3] at h
            by_cases a4 : b.st.kind = Kind.lineHorizontalRule
            · rw [if_pos a4] at h
              by_cases hni : b.nodeD.kind ≠ Kind.unknown
              · rw [if_pos hni] at h
                exact ihL _ _ _ _ _ _ (by exact
                  ⟨push_kid _ _ (push_kid _ _ hK (goodN_leaf _ hN.1))
                    (goodN_leaf _ rfl), ⟨rfl, rfl⟩, hD, hF, hS⟩) h
              · rw [if_neg hni] at h
                exact ihL _ _ _ _ _ _ (by exact
                  ⟨push_kid _ _ hK (goodN_leaf _ rfl), ⟨rfl, rfl⟩, hD, hF, hS⟩) h
            · rw [if_neg a4] at h
              by_cases a5 : b.st.kind = Kind.linePageBreak
              · rw [if_pos a5] at h
                by_cases hck : (if b.aliased = true then b.blockD.kind
                    else b.freshC.kind) ≠ Kind.unknown
                · rw [if_pos hck] at h
                  by_cases hal : b.aliased = true
                  · rw [if_pos hal] at h
                    exact ihL _ _ _ _ _ _ (by exact
                      ⟨push_kid _ _ (push_kid _ _ hK (goodN_leaf _ hN.1))
                        (goodN_leaf _ rfl), ⟨rfl, rfl⟩, ⟨rfl, rfl⟩, hF, hS⟩) h
                  · rw [if_neg hal] at h
                    exact ihL _ _ _ _ _ _ (by exact
                      ⟨push_kid _ _ (push_kid _ _ hK (goodN_leaf _ hN.1))
                        (goodN_leaf _ rfl), ⟨rfl, rfl⟩, hD, ⟨rfl, rfl⟩, hS⟩) h
                · rw [if_neg hck] at h
                  by_cases hal : b.aliased = true
                  · rw [if_pos hal] at h
                    exact ihL _ _ _ _ _ _ (by exact
                      ⟨push_kid _ _ hK (goodN_leaf _ hN.1), ⟨rfl, rfl⟩,
                        ⟨rfl, rfl⟩, hF, hS⟩) h
                  · rw [if_neg hal] at h
                    exact ihL _ _ _ _ _ _ (by exact
                      ⟨push_kid _ _ hK (goodN_leaf _ hN.1), ⟨rfl, rfl⟩,
                        hD, ⟨rfl, rfl⟩, hS⟩) h
              · rw [if_neg a5] at h
                by_cases a6 : b.st.kind = Kind.lineAttribute
                · rw [if_pos a6] at h
                  split at h
                  · exact Except.noConfusion h
                  · exact ihL _ _ _ _ _ _ (by exact ⟨hK, hN, hD, hF, hS⟩) h
                  · by_cases hnu : b.nodeD.kind = Kind.unknown
                    · rw [if_pos hnu] at h
                      exact ihL _ _ _ _ _ _ (by exact
                        ⟨push_kid _ _ hK (goodN_leaf _ rfl), ⟨rfl, rfl⟩, hD, hF, hS⟩) h
                    · rw [if_neg hnu] at h
                      exact ihL _ _ _ _ _ _ (by exact ⟨hK, hN, hD, hF, hS⟩) h
                · rw [if_neg a6] at h
                  by_cases a7 : b.st.kind = Kind.lineStyle
                  · rw [if_pos a7] at h
                    by_cases hsk : (parseStyle line).2 ≠ 0
                    · rw [if_pos hsk] at h
                      by_cases hadm : isStyleAdmonitionB (parseStyle line).2 = true
                      · rw [if_pos hadm] at h
                        refine ihL _ _ _ _ _ _ ?_ h
                        refine ⟨hK, ?_, hD, hF, hS⟩
                        show plainKind (setStyleAdmonition _ _).kind
                        rw [setStyleAdmonition_kind]
                        exact hN
                      · rw [if_neg hadm] at h
                        exact ihL _ _ _ _ _ _ (by exact ⟨hK, hN, hD, hF, hS⟩) h
                    · rw [if_neg hsk] at h
                      exact ihL _ _ _ _ _ _ (by exact ⟨hK, hN, hD, hF, hS⟩) h
                  · rw [if_neg a7] at h
                    by_cases a8 : b.st.kind = Kind.lineStyleClass
                    · rw [if_pos a8] at h
                      refine ihL _ _ _ _ _ _ ?_ h
                      refine ⟨hK, ?_, hD, hF, hS⟩
                      show plainKind (parseStyleClass _ _).kind
                      rw [parseStyleClass_kind]
                      exact hN
                    · rw [if_neg a8] at h
                      by_cases a9 : b.st.kind = Kind.lineText ∨
                          b.st.kind = Kind.lineListContinue ∨
                          isSectionKind b.st.kind = true
                      · rw [if_pos a9] at h
                        by_cases hnu : b.nodeD.kind = Kind.unknown
                        · rw [if_pos hnu] at h
                          exact ihL _ _ _ _ _ _ (by exact
                            ⟨push_kid _ _ hK (goodN_leaf _ rfl), ⟨rfl, rfl⟩,
                              hD, hF, hS⟩) h
                        · rw [if_neg hnu] at h
                          exact ihL _ _ _ _ _ _ (by exact ⟨hK, hN, hD, hF, hS⟩) h
                      · rw [if_neg a9] at h
                        by_cases a10 : b.st.kind = Kind.lineBlockTitle
                        · rw [if_pos a10] at h
                          exact ihL _ _ _ _ _ _ (by exact ⟨hK, hN, hD, hF, hS⟩) h
                        · rw [if_neg a10] at h
                          by_cases a11 : b.st.kind = Kind.literalParagraph
                          · rw [if_pos a11] at h
                            exact ihL _ _ _ _ _ _ (by exact
                              ⟨push_kid _ _ hK (goodN_leaf _ rfl), ⟨rfl, rfl⟩,
                                hD, hF, hS⟩) h
                          · rw [if_neg a11] at h
                            by_cases a12 : b.st.kind = Kind.blockLiteralDelimiter ∨
                                b.st.kind = Kind.blockListingDelimiter
                            · rw [if_pos a12] at h
                              refine ihL _ _ _ _ _ _ ?_ h
                              refine ⟨push_kid _ _ hK (goodN_leaf _ ?_), ⟨rfl, rfl⟩,
                                hD, hF, hS⟩
                              rcases a12 with h12 | h12 <;> rw [h12] <;> rfl
                            · rw [if_neg a12] at h
                              by_cases a13 : b.st.kind = Kind.blockLiteralNamed
                              · rw [if_pos a13] at h
                                refine ihL _ _ _ _ _ _ ?_ h
                                refine ⟨push_kid _ _ hK (goodN_leaf _ ?_), ⟨rfl, rfl⟩,
                                  hD, hF, hS⟩
                                rw [a13]
                                rfl
                              · rw [if_neg a13] at h
                                by_cases a14 : b.st.kind = Kind.listOrderedItem
                                · rw [if_pos a14] at h
                                  exact ihL _ _ _ _ _ _ (by exact
                                    ⟨push_kid2 _ _ _ hK
                                      ((listParsers_good fuel).1 _ _ _ _ _ _)
                                      (goodN_leaf _ hN.1), ⟨rfl, rfl⟩, hD, hF, hS⟩) h
                                · rw [if_neg a14] at h
                                  by_cases a15 : b.st.kind = Kind.listUnorderedItem
                                  · rw [if_pos a15] at h
                                    exact ihL _ _ _ _ _ _ (by exact
                                      ⟨push_kid2 _ _ _ hK
                                        ((listParsers_good fuel).2.2.1 _ _ _ _ _)
                                        (goodN_leaf _ hN.1), ⟨rfl, rfl⟩, hD, hF, hS⟩) h
                                  · rw [if_neg a15] at h
                                    by_cases a16 : b.st.kind = Kind.listDescriptionItem
                                    · rw [if_pos a16] at h
                                      exact ihL _ _ _ _ _ _ (by exact
                                        ⟨push_kid2 _ _ _ hK
                                          ((listParsers_good fuel).2.2.2.2.1 _ _ _ _ _)
                                          (goodN_leaf _ hN.1), ⟨rfl, rfl⟩, hD, hF, hS⟩) h
                                    · rw [if_neg a16] at h
                                      by_cases a17 : b.st.kind = Kind.blockImage
                                      · rw [if_pos a17] at h
                                        by_cases hni : b.nodeD.kind ≠ Kind.unknown
                                        · rw [if_pos hni] at h
                                          by_cases hal : b.aliased = true
                                          · rw [if_pos hal] at h
                                            dsimp only at h
                                            split at h
                                            · exact Except.noConfusion h
                                            · exact ihL _ _ _ _ _ _ (by exact
                                                ⟨push_kid _ _ (push_kid _ _ hK (goodN_leaf _ hN.1)) (goodN_leaf _ rfl),
                                                  ⟨rfl, rfl⟩, hD, ⟨rfl, rfl⟩, hS⟩) h
                                            · exact ihL _ _ _ _ _ _ (by exact
                                                ⟨push_kid _ _ (push_kid _ _ hK (goodN_leaf _ hN.1)) (goodN_leaf _ rfl),
                                                  ⟨rfl, rfl⟩, hD, ⟨rfl, rfl⟩, hS⟩) h
                                          · rw [if_neg hal] at h
                                            by_cases hfc : b.freshC.kind ≠ Kind.unknown
                                            · rw [if_pos hfc] at h
                                              dsimp only at h
                                              split at h
                                              · exact Except.noConfusion h
                                              · exact ihL _ _ _ _ _ _ (by exact
                                                  ⟨push_kid _ _ (push_kid _ _ hK (goodN_leaf _ hN.1)) (goodN_leaf _ rfl),
                                                    ⟨rfl, rfl⟩, hD, ⟨rfl, rfl⟩,
                                                    push_kid _ _ hS (goodN_leaf _ hF.1)⟩) h
                                              · exact ihL _ _ _ _ _ _ (by exact
                                                  ⟨push_kid _ _ (push_kid _ _ hK (goodN_leaf _ hN.1)) (goodN_leaf _ rfl),
                                                    ⟨rfl, rfl⟩, hD, ⟨rfl, rfl⟩,
                                                    push_kid _ _ hS (goodN_leaf _ hF.1)⟩) h
                                            · rw [if_neg hfc] at h
                                              dsimp only at h
                                              split at h
                                              · exact Except.noConfusion h
                                              · exact ihL _ _ _ _ _ _ (by exact
                                                  ⟨push_kid _ _ (push_kid _ _ hK (goodN_leaf _ hN.1)) (goodN_leaf _ rfl),
                                                    ⟨rfl, rfl⟩, hD, ⟨rfl, rfl⟩, hS⟩) h
                                              · exact ihL _ _ _ _ _ _ (by exact
                                                  ⟨push_kid _ _ (push_kid _ _ hK (goodN_leaf _ hN.1)) (goodN_leaf _ rfl),
                                                    ⟨rfl, rfl⟩, hD, ⟨rfl, rfl⟩, hS⟩) h
                                        · rw [if_neg hni] at h
                                          split at h
                                          · exact Except.noConfusion h
                                          · exact ihL _ _ _ _ _ _ (by exact
                                              ⟨push_kid _ _ hK (goodN_leaf _ rfl),
                                                ⟨rfl, rfl⟩, hD, hF, hS⟩) h
                                          · exact ihL _ _ _ _ _ _ (by exact
                                              ⟨push_kid _ _ hK (goodN_leaf _ rfl),
                                                ⟨rfl, rfl⟩, hD, hF, hS⟩) h
                                      · rw [if_neg a17] at h
                                        by_cases a18 : b.st.kind = term
                                        · rw [if_pos a18] at h
                                          injection h with h
                                          rw [← h]
                                          exact ⟨hK, hN, hD, hF, hS⟩
                                        · rw [if_neg a18] at h
                                          exact ihL _ _ _ _ _ _ (by exact ⟨hK, hN, hD, hF, hS⟩) h
theorem nil_good : ∀ n ∈ ([] : List Node), goodN n :=
  fun n hn => absurd hn (List.not_mem_nil n)

set_option maxHeartbeats 1000000 in
theorem parseBlockF_good (fuel : Nat) (st : PState) (blockD : NodeData)
    (blockKids0 : List Node) (term : Kind) (st2 : PState) (adds : List Node)
    (curAfter : Node)
    (hD : plainKind blockD.kind) (hK : ∀ n ∈ blockKids0, goodN n)
    (h : parseBlockF fuel st blockD blockKids0 term = .ok (st2, adds, curAfter)) :
    (∀ n ∈ adds, goodN n) ∧ plainKind curAfter.data.kind ∧
      (∀ n ∈ curAfter.kids, goodN n) := by
  unfold parseBlockF at h
  dsimp only at h
  split at h
  · exact Except.noConfusion h
  · rename_i b heq
    have hB : BInv b := (blockParsers_inv fuel).1 _ _ _ _ _ _
      (by exact ⟨hK, ⟨rfl, rfl⟩, hD, ⟨rfl, rfl⟩, nil_good⟩) heq
    by_cases he : b.early = true
    · rw [if_pos he] at h
      injection h with h
      injection h with h1 h
      injection h with h2 h3
      rw [← h2, ← h3]
      refine ⟨?_, hB.2.2.2.1, nil_good⟩
      intro n hn
      rcases List.mem_cons.mp hn with hm | hm
      · rw [hm]
        exact goodN_container_plain _ _ hB.2.2.1 hB.1
      · exact hB.2.2.2.2 n hm
    · rw [if_neg he] at h
      injection h with h
      injection h with h1 h
      injection h with h2 h3
      rw [← h2, ← h3]
      exact ⟨nil_good, hB.2.2.1, hB.1⟩

/-! Spine operation lemmas -/

theorem frame_childOK (fk : Kind) (fl : Int) (n : Node)
    (hfk : fk = Kind.preamble ∨ isSectionKind fk = true) (hg : goodN n) :
    childOK fk fl n.data = true :=
  childOK_of_plain fk fl n.data (secFree_kind n hg.2) (frame_kind_nocontainer fk hfk)

theorem childOK_section_adj (pk : Kind) (pl : Int) (c : NodeData)
    (hsec : isSectionKind c.kind = true) (hpk : pk = sectionPred c.kind)
    (hcont : containerItemKind pk = none) : childOK pk pl c = true := by
  unfold childOK secEdge listEdge
  rw [hcont, hsec, hpk]
  simp

theorem attach_inv (sp : Spine) (n : Node) (hsp : SPinv sp) (hg : goodN n) :
    SPinv (sp.attach n) := by
  obtain ⟨hF, hA, hR⟩ := hsp
  unfold Spine.attach
  cases hfr : sp.frames with
  | nil =>
    rw [hfr] at hA
    refine ⟨?_, ?_, ?_⟩
    · intro f hf
      simp at hf
    · exact trivial
    · intro m hm
      rcases List.mem_append.mp hm with h | h
      · exact hR m h
      · rw [List.mem_singleton.mp h]
        exact hg.1
  | cons f rest =>
    have hfo : frameOKd f := hF f (by rw [hfr]; simp)
    refine ⟨?_, ?_, hR⟩
    · intro g hg2
      rcases List.mem_cons.mp hg2 with hm | hm
      · rw [hm]
        refine ⟨hfo.1, ?_⟩
        intro m hm2
        rcases List.mem_append.mp hm2 with h | h
        · exact hfo.2 m h
        · rw [List.mem_singleton.mp h]
          exact ⟨hg.1, frame_childOK _ _ _ hfo.1 hg⟩
      · exact hF g (by rw [hfr]; simp [hm])
    · have hA2 : adjOK (f :: rest) := by rw [← hfr]; exact hA
      cases rest with
      | nil => exact trivial
      | cons g rest2 => exact hA2

theorem termCur_inv (sp : Spine) (cur : Node) (hsp : SPinv sp) (hc : curOK cur) :
    SPinv (termCur sp cur).1 ∧ (termCur sp cur).2 = freshNode := by
  unfold termCur
  by_cases hk : cur.data.kind ≠ Kind.unknown
  · rw [if_pos hk]
    refine ⟨?_, rfl⟩
    refine attach_inv sp _ hsp ?_
    cases cur with
    | mk d kids => exact goodN_container_plain d kids hc.1 hc.2
  · rw [if_neg hk]
    exact ⟨hsp, rfl⟩

theorem curOK_fresh : curOK freshNode :=
  ⟨⟨rfl, rfl⟩, nil_good⟩

set_option maxHeartbeats 1000000 in
theorem walkPop_inv (exp : Kind) : ∀ (gl : List Frame) (rk : List Node) (n : Node),
    (∀ f ∈ gl, frameOKd f) → adjOK gl → (∀ m ∈ rk, wfF m = true) →
    wfF n = true →
    (∀ g grest, gl = g :: grest → childOK g.data.kind g.data.level n.data = true) →
    (∀ f ∈ (walkPop exp n gl rk).1, frameOKd f) ∧ adjOK (walkPop exp n gl rk).1 ∧
    (∀ m ∈ (walkPop exp n gl rk).2, wfF m = true) ∧
    ((walkPop exp n gl rk).1 = [] ∨
      ∃ g grest, (walkPop exp n gl rk).1 = g :: grest ∧ g.data.kind = exp) := by
  intro gl
  induction gl with
  | nil =>
    intro rk n hF hA hR hw hfit
    rw [walkPop]
    refine ⟨?_, trivial, ?_, Or.inl rfl⟩
    · intro f hf
      simp at hf
    · intro m hm
      rcases List.mem_append.mp hm with h | h
      · exact hR m h
      · rw [List.mem_singleton.mp h]
        exact hw
  | cons g rest ih =>
    intro rk n hF hA hR hw hfit
    rw [walkPop]
    dsimp only
    have hgo : frameOKd g := hF g (by simp)
    have hgo2 : frameOKd ⟨g.data, g.kids ++ [n]⟩ := by
      refine ⟨hgo.1, ?_⟩
      intro m hm
      rcases List.mem_append.mp hm with hx | hx
      · exact hgo.2 m hx
      · rw [List.mem_singleton.mp hx]
        exact ⟨hw, hfit g rest rfl⟩
    by_cases hge : g.data.kind = exp
    · rw [if_pos hge]
      refine ⟨?_, ?_, hR, Or.inr ⟨_, _, rfl, hge⟩⟩
      · intro f hf
        rcases List.mem_cons.mp hf with hm | hm
        · rw [hm]
          exact hgo2
        · exact hF f (by simp [hm])
      · cases rest with
        | nil => exact trivial
        | cons g2 rest2 => exact hA
    · rw [if_neg hge]
      have hwn : wfF (Node.mk g.data (g.kids ++ [n])) = true := by
        rw [wfF_mk, wfL_iff]
        intro m hm
        rcases List.mem_append.mp hm with hx | hx
        · exact ⟨(hgo.2 m hx).2, (hgo.2 m hx).1⟩
        · rw [List.mem_singleton.mp hx]
          exact ⟨hfit g rest rfl, hw⟩
      refine ih rk _ (fun f hf => hF f (by simp [hf])) ?_ hR hwn ?_
      · cases rest with
        | nil => exact trivial
        | cons g2 rest2 => exact hA.2
      · intro g2 grest2 hrest
        subst hrest
        have hg2o : frameOKd g2 := hF g2 (by simp)
        exact childOK_section_adj _ _ _ hA.1.1 hA.1.2
          (frame_kind_nocontainer _ hg2o.1)

set_option maxHeartbeats 1000000 in
theorem walkAux_inv (exp : Kind) (fr : List Frame) (rk : List Node)
    (hF : ∀ f ∈ fr, frameOKd f) (hA : adjOK fr)
    (hR : ∀ m ∈ rk, wfF m = true) :
    (∀ f ∈ (walkAux exp fr rk).1, frameOKd f) ∧ adjOK (walkAux exp fr rk).1 ∧
    (∀ m ∈ (walkAux exp fr rk).2, wfF m = true) ∧
    ((walkAux exp fr rk).1 = [] ∨
      ∃ g grest, (walkAux exp fr rk).1 = g :: grest ∧ g.data.kind = exp) := by
  cases fr with
  | nil =>
    rw [walkAux]
    exact ⟨hF, trivial, hR, Or.inl rfl⟩
  | cons f rest =>
    rw [walkAux]
    have hfo : frameOKd f := hF f (by simp)
    by_cases hfe : f.data.kind = exp
    · rw [if_pos hfe]
      exact ⟨hF, hA, hR, Or.inr ⟨f, rest, rfl, hfe⟩⟩
    · rw [if_neg hfe]
      have hwn : wfF (Node.mk f.data f.kids) = true := by
        rw [wfF_mk, wfL_iff]
        intro m hm
        exact ⟨(hfo.2 m hm).2, (hfo.2 m hm).1⟩
      refine walkPop_inv exp rest rk _ (fun g hg => hF g (by simp [hg])) ?_ hR hwn ?_
      · cases rest with
        | nil => exact trivial
        | cons g2 rest2 => exact hA.2
      · intro g2 grest2 hrest
        subst hrest
        have hg2o : frameOKd g2 := hF g2 (by simp)
        exact childOK_section_adj _ _ _ hA.1.1 hA.1.2
          (frame_kind_nocontainer _ hg2o.1)

theorem walkSpine_inv (exp : Kind) (sp : Spine) (hsp : SPinv sp) :
    SPinv (walkSpine exp sp) ∧ ((walkSpine exp sp).frames = [] ∨
      ∃ g grest, (walkSpine exp sp).frames = g :: grest ∧ g.data.kind = exp) := by
  unfold walkSpine
  dsimp only
  obtain ⟨h1, h2, h3, h4⟩ := walkAux_inv exp sp.frames sp.rootKids hsp.1 hsp.2.1 hsp.2.2
  exact ⟨⟨h1, h2, h3⟩, h4⟩

set_option maxHeartbeats 1000000 in
theorem closeIntoAux_wf : ∀ (fr : List Frame) (n : Node) (rk : List Node),
    (∀ f ∈ fr, frameOKd f) → adjOK fr → (∀ m ∈ rk, wfF m = true) →
    wfF n = true →
    (∀ g grest, fr = g :: grest → childOK g.data.kind g.data.level n.data = true) →
    ∀ m ∈ closeIntoAux n fr rk, wfF m = true := by
  intro fr
  induction fr with
  | nil =>
    intro n rk hF hA hR hw hfit m hm
    rw [closeIntoAux] at hm
    rcases List.mem_append.mp hm with h | h
    · exact hR m h
    · rw [List.mem_singleton.mp h]
      exact hw
  | cons g rest ih =>
    intro n rk hF hA hR hw hfit m hm
    rw [closeIntoAux] at hm
    have hgo : frameOKd g := hF g (by simp)
    have hwn : wfF (Node.mk g.data (g.kids ++ [n])) = true := by
      rw [wfF_mk, wfL_iff]
      intro x hx
      rcases List.mem_append.mp hx with hy | hy
      · exact ⟨(hgo.2 x hy).2, (hgo.2 x hy).1⟩
      · rw [List.mem_singleton.mp hy]
        exact ⟨hfit g rest rfl, hw⟩
    refine ih _ rk (fun f hf => hF f (by simp [hf])) ?_ hR hwn ?_ m hm
    · cases rest with
      | nil => exact trivial
      | cons g2 rest2 => exact hA.2
    · intro g2 grest2 hrest
      subst hrest
      have hg2o : frameOKd g2 := hF g2 (by simp)
      exact childOK_section_adj _ _ _ hA.1.1 hA.1.2
        (frame_kind_nocontainer _ hg2o.1)

theorem closeInto_wf (fr : List Frame) (rk : List Node)
    (hF : ∀ f ∈ fr, frameOKd f) (hA : adjOK fr)
    (hR : ∀ m ∈ rk, wfF m = true) :
    ∀ m ∈ closeInto fr rk, wfF m = true := by
  cases fr with
  | nil =>
    rw [closeInto]
    exact hR
  | cons f rest =>
    rw [closeInto]
    have hfo : frameOKd f := hF f (by simp)
    have hwn : wfF (Node.mk f.data f.kids) = true := by
      rw [wfF_mk, wfL_iff]
      intro m hm
      exact ⟨(hfo.2 m hm).2, (hfo.2 m hm).1⟩
    refine closeIntoAux_wf rest _ rk (fun g hg => hF g (by simp [hg])) ?_ hR hwn ?_
    · cases rest with
      | nil => exact trivial
      | cons g2 rest2 => exact hA.2
    · intro g2 grest2 hrest
      subst hrest
      have hg2o : frameOKd g2 := hF g2 (by simp)
      exact childOK_section_adj _ _ _ hA.1.1 hA.1.2
        (frame_kind_nocontainer _ hg2o.1)
theorem foldl_attach_inv : ∀ (l : List Node) (sp : Spine), SPinv sp →
    (∀ n ∈ l, goodN n) → SPinv (l.foldl Spine.attach sp) := by
  intro l
  induction l with
  | nil => intro sp hsp _; exact hsp
  | cons m rest ih =>
    intro sp hsp hl
    rw [List.foldl_cons]
    exact ih _ (attach_inv sp m hsp (hl m (by simp)))
      (fun n hn => hl n (by simp [hn]))

theorem section_frame_nocontainer (k : Kind) (h : isSectionKind k = true) :
    containerItemKind k = none :=
  frame_kind_nocontainer k (Or.inr h)

theorem term_step (sp : Spine) (cur2 : Node) (hsp : SPinv sp) (hc2 : curOK cur2) :
    SPinv (termCur sp cur2).1 ∧ curOK (termCur sp cur2).2 :=
  ⟨(termCur_inv sp cur2 hsp hc2).1,
   by rw [(termCur_inv sp cur2 hsp hc2).2]; exact curOK_fresh⟩

set_option maxHeartbeats 4000000 in
theorem bodyParsers_inv : ∀ fuel : Nat,
    (∀ st sp cur line spaces c st2 sp2, SPinv sp → curOK cur →
      parseBody fuel st sp cur line spaces c = .ok (st2, sp2) → SPinv sp2) ∧
    (∀ st sp cur line spaces c st2 sp2, SPinv sp → curOK cur →
      bodyStep fuel st sp cur line spaces c = .ok (st2, sp2) → SPinv sp2) := by
  intro fuel
  induction fuel with
  | zero =>
    constructor
    · intro st sp cur line spaces c st2 sp2 hsp hc h
      rw [parseBody] at h
      injection h with h
      injection h with h1 h2
      rw [← h2]
      exact hsp
    · intro st sp cur line spaces c st2 sp2 hsp hc h
      rw [bodyStep] at h
      injection h with h
      injection h with h1 h2
      rw [← h2]
      exact hsp
  | succ fuel ih =>
    obtain ⟨ihB, ihS⟩ := ih
    constructor
    · intro st sp cur line spaces c st2 sp2 hsp hc h
      rw [parseBody] at h
      by_cases h0 : line = []
      · rw [if_pos h0] at h
        rcases hdl : docLine st with ⟨s1, l1, ac, st1⟩
        rw [hdl] at h
        dsimp only at h
        by_cases he : l1 = [] ∧ ac = false
        · rw [if_pos he] at h
          injection h with h
          injection h with h1 h2
          rw [← h2]
          exact hsp
        · rw [if_neg he] at h
          exact ihS _ _ _ _ _ _ _ _ hsp hc h
      · rw [if_neg h0] at h
        exact ihS _ _ _ _ _ _ _ _ hsp hc h
    · intro st sp cur line spaces c st2 sp2 hsp hc h
      rw [bodyStep] at h
      dsimp only at h
      by_cases b1 : st.kind = Kind.lineEmpty
      · rw [if_pos b1] at h
        by_cases hcu : cur.data.kind ≠ Kind.unknown
        · rw [if_pos hcu] at h
          have ht := termCur_inv sp cur hsp hc
          exact ihB _ _ _ _ _ _ _ _ ht.1 (by rw [ht.2]; exact curOK_fresh) h
        · rw [if_neg hcu] at h
          exact ihB _ _ _ _ _ _ _ _ hsp hc h
      · rw [if_neg b1] at h
        by_cases b2 : st.kind = Kind.lineBlockComment
        · rw [if_pos b2] at h
          exact ihB _ _ _ _ _ _ _ _ hsp hc h
        · rw [if_neg b2] at h
          by_cases b3 : st.kind = Kind.lineComment
          · rw [if_pos b3] at h
            exact ihB _ _ _ _ _ _ _ _ hsp hc h
          · rw [if_neg b3] at h
            by_cases b4 : st.kind = Kind.lineHorizontalRule ∨
                st.kind = Kind.linePageBreak
            · rw [if_pos b4] at h
              have hpk : plainKind st.kind := by
                rcases b4 with hb | hb <;> rw [hb] <;> exact ⟨rfl, rfl⟩
              by_cases hcu : cur.data.kind ≠ Kind.unknown
              · rw [if_pos hcu] at h
                have ht := termCur_inv sp cur hsp hc
                have hkids0 : ∀ n ∈ (termCur sp cur).2.kids, goodN n := by
                  rw [ht.2]
                  exact nil_good
                exact ihB _ _ _ _ _ _ _ _
                  (term_step _ _ ht.1 (by exact ⟨hpk, hkids0⟩)).1
                  (term_step _ _ ht.1 (by exact ⟨hpk, hkids0⟩)).2 h
              · rw [if_neg hcu] at h
                exact ihB _ _ _ _ _ _ _ _
                  (term_step _ _ hsp (by exact ⟨hpk, hc.2⟩)).1
                  (term_step _ _ hsp (by exact ⟨hpk, hc.2⟩)).2 h
            · rw [if_neg b4] at h
              by_cases b5 : st.kind = Kind.lineAttribute
              · rw [if_pos b5] at h
                split at h
                · exact Except.noConfusion h
                · have ht := termCur_inv sp cur hsp hc
                  exact ihB _ _ _ _ _ _ _ _ ht.1 (by rw [ht.2]; exact curOK_fresh) h
                · by_cases hcu : cur.data.kind ≠ Kind.unknown
                  · rw [if_pos hcu] at h
                    exact ihB _ _ _ _ _ _ _ _ hsp (by exact ⟨hc.1, hc.2⟩) h
                  · rw [if_neg hcu] at h
                    exact ihB _ _ _ _ _ _ _ _ hsp hc h
              · rw [if_neg b5] at h
                by_cases b6 : st.kind = Kind.lineStyle
                · rw [if_pos b6] at h
                  by_cases hsk : (parseStyle line).2 ≠ 0
                  · rw [if_pos hsk] at h
                    by_cases hadm : isStyleAdmonitionB (parseStyle line).2 = true
                    · rw [if_pos hadm] at h
                      refine ihB _ _ _ _ _ _ _ _ hsp ?_ h
                      refine ⟨?_, hc.2⟩
                      show plainKind (setStyleAdmonition _ _).kind
                      rw [setStyleAdmonition_kind]
                      exact hc.1
                    · rw [if_neg hadm] at h
                      exact ihB _ _ _ _ _ _ _ _ hsp (by exact ⟨hc.1, hc.2⟩) h
                  · rw [if_neg hsk] at h
                    exact ihB _ _ _ _ _ _ _ _ hsp hc h
                · rw [if_neg b6] at h
                  by_cases b7 : st.kind = Kind.lineStyleClass
                  · rw [if_pos b7] at h
                    refine ihB _ _ _ _ _ _ _ _ hsp ?_ h
                    refine ⟨?_, hc.2⟩
                    show plainKind (parseStyleClass _ _).kind
                    rw [parseStyleClass_kind]
                    exact hc.1
                  · rw [if_neg b7] at h
                    by_cases b8 : st.kind = Kind.lineText ∨
                        st.kind = Kind.lineListContinue
                    · rw [if_pos b8] at h
                      by_cases hcu : cur.data.kind = Kind.unknown
                      · rw [if_pos hcu] at h
                        exact ihB _ _ _ _ _ _ _ _
                          (term_step _ _ hsp (by exact ⟨⟨rfl, rfl⟩, hc.2⟩)).1
                          (term_step _ _ hsp (by exact ⟨⟨rfl, rfl⟩, hc.2⟩)).2 h
                      · rw [if_neg hcu] at h
                        exact ihB _ _ _ _ _ _ _ _ hsp (by exact ⟨hc.1, hc.2⟩) h
                    · rw [if_neg b8] at h
                      by_cases b9 : st.kind = Kind.lineBlockTitle
                      · rw [if_pos b9] at h
                        exact ihB _ _ _ _ _ _ _ _ hsp (by exact ⟨hc.1, hc.2⟩) h
                      · rw [if_neg b9] at h
                        by_cases b10 : st.kind = Kind.lineAdmonition
                        · rw [if_pos b10] at h
                          have hpl : plainKind (parseLineAdmonition
                              { cur.data with kind := Kind.lineAdmonition } line).kind := by
                            rw [parseLineAdmonition_kind]
                            exact ⟨rfl, rfl⟩
                          exact ihB _ _ _ _ _ _ _ _
                            (term_step _ _ hsp (by exact ⟨hpl, hc.2⟩)).1
                            (term_step _ _ hsp (by exact ⟨hpl, hc.2⟩)).2 h
                        · rw [if_neg b10] at h
                          by_cases b11 : isSectionKind st.kind = true
                          · rw [if_pos b11] at h
                            by_cases hcu : cur.data.kind ≠ Kind.unknown
                            · rw [if_pos hcu] at h
                              have ht := termCur_inv sp cur hsp hc
                              have hw := walkSpine_inv (sectionPred st.kind) _ ht.1
                              refine ihB _ _ _ _ _ _ _ _ ?_ curOK_fresh h
                              refine ⟨?_, ?_, hw.1.2.2⟩
                              · intro f hf
                                rcases List.mem_cons.mp hf with hm | hm
                                · rw [hm]
                                  refine ⟨Or.inr b11, ?_⟩
                                  intro m hm2
                                  rw [ht.2] at hm2
                                  exact absurd hm2 (List.not_mem_nil m)
                                · exact hw.1.1 f hm
                              · rcases hw.2 with hnil | ⟨g, grest, hfr, hgk⟩
                                · rw [hnil]
                                  exact trivial
                                · rw [hfr]
                                  have h2 := hw.1.2.1
                                  rw [hfr] at h2
                                  exact ⟨⟨b11, hgk⟩, h2⟩
                            · rw [if_neg hcu] at h
                              have hw := walkSpine_inv (sectionPred st.kind) sp hsp
                              refine ihB _ _ _ _ _ _ _ _ ?_ curOK_fresh h
                              refine ⟨?_, ?_, hw.1.2.2⟩
                              · intro f hf
                                rcases List.mem_cons.mp hf with hm | hm
                                · rw [hm]
                                  refine ⟨Or.inr b11, ?_⟩
                                  intro m hm2
                                  refine ⟨(hc.2 m hm2).1, ?_⟩
                                  exact childOK_of_plain _ _ _
                                    (secFree_kind m (hc.2 m hm2).2)
                                    (section_frame_nocontainer _ b11)
                                · exact hw.1.1 f hm
                              · rcases hw.2 with hnil | ⟨g, grest, hfr, hgk⟩
                                · rw [hnil]
                                  exact trivial
                                · rw [hfr]
                                  have h2 := hw.1.2.1
                                  rw [hfr] at h2
                                  exact ⟨⟨b11, hgk⟩, h2⟩
                          · rw [if_neg b11] at h
                            by_cases b12 : st.kind = Kind.literalParagraph
                            · rw [if_pos b12] at h
                              have hpl : plainKind st.kind := by
                                rw [b12]
                                exact ⟨rfl, rfl⟩
                              by_cases hsa : cur.data.kind = Kind.unknown ∧
                                  nodeIsStyleAdmonition cur.data = true
                              · rw [if_pos hsa] at h
                                exact ihB _ _ _ _ _ _ _ _
                                  (term_step _ _ hsp (by exact ⟨⟨rfl, rfl⟩, hc.2⟩)).1
                                  (term_step _ _ hsp (by exact ⟨⟨rfl, rfl⟩, hc.2⟩)).2 h
                              · rw [if_neg hsa] at h
                                exact ihB _ _ _ _ _ _ _ _
                                  (term_step _ _ hsp (by exact ⟨hpl, hc.2⟩)).1
                                  (term_step _ _ hsp (by exact ⟨hpl, hc.2⟩)).2 h
                            · rw [if_neg b12] at h
                              by_cases b13 : st.kind = Kind.blockLiteralDelimiter ∨
                                  st.kind = Kind.blockListingDelimiter
                              · rw [if_pos b13] at h
                                have hpl : plainKind st.kind := by
                                  rcases b13 with hb | hb <;> rw [hb] <;> exact ⟨rfl, rfl⟩
                                exact ihB _ _ _ _ _ _ _ _
                                  (term_step _ _ hsp (by exact ⟨hpl, hc.2⟩)).1
                                  (term_step _ _ hsp (by exact ⟨hpl, hc.2⟩)).2 h
                              · rw [if_neg b13] at h
                                by_cases b14 : st.kind = Kind.blockLiteralNamed
                                · rw [if_pos b14] at h
                                  have hpl : plainKind st.kind := by
                                    rw [b14]
                                    exact ⟨rfl, rfl⟩
                                  exact ihB _ _ _ _ _ _ _ _
                                    (term_step _ _ hsp (by exact ⟨hpl, hc.2⟩)).1
                                    (term_step _ _ hsp (by exact ⟨hpl, hc.2⟩)).2 h
                                · rw [if_neg b14] at h
                                  by_cases b15 : st.kind = Kind.listOrderedItem
                                  · rw [if_pos b15] at h
                                    exact ihB _ _ _ _ _ _ _ _
                                      (by exact (term_step _ cur (attach_inv sp _ hsp
                                        ((listParsers_good fuel).1 _ _ _ _ _ _)) hc).1)
                                      (by exact (term_step _ cur (attach_inv sp _ hsp
                                        ((listParsers_good fuel).1 _ _ _ _ _ _)) hc).2) h
                                  · rw [if_neg b15] at h
                                    by_cases b16 : st.kind = Kind.listUnorderedItem
                                    · rw [if_pos b16] at h
                                      exact ihB _ _ _ _ _ _ _ _
                                        (by exact (term_step _ cur (attach_inv sp _ hsp
                                          ((listParsers_good fuel).2.2.1 _ _ _ _ _)) hc).1)
                                        (by exact (term_step _ cur (attach_inv sp _ hsp
                                          ((listParsers_good fuel).2.2.1 _ _ _ _ _)) hc).2) h
                                    · rw [if_neg b16] at h
                                      by_cases b17 : st.kind = Kind.listDescriptionItem
                                      · rw [if_pos b17] at h
                                        exact ihB _ _ _ _ _ _ _ _
                                          (by exact (term_step _ cur (attach_inv sp _ hsp
                                            ((listParsers_good fuel).2.2.2.2.1 _ _ _ _ _)) hc).1)
                                          (by exact (term_step _ cur (attach_inv sp _ hsp
                                            ((listParsers_good fuel).2.2.2.2.1 _ _ _ _ _)) hc).2) h
                                      · rw [if_neg b17] at h
                                        by_cases b18 : st.kind = Kind.blockImage
                                        · rw [if_pos b18] at h
                                          by_cases hcu : cur.data.kind ≠ Kind.unknown
                                          · rw [if_pos hcu] at h
                                            have ht := termCur_inv sp cur hsp hc
                                            have hkids0 : ∀ n ∈ (termCur sp cur).2.kids,
                                                goodN n := by
                                              rw [ht.2]
                                              exact nil_good
                                            split at h
                                            · exact Except.noConfusion h
                                            · exact ihB _ _ _ _ _ _ _ _
                                                (term_step _ _ ht.1
                                                  (by exact ⟨⟨rfl, rfl⟩, hkids0⟩)).1
                                                (term_step _ _ ht.1
                                                  (by exact ⟨⟨rfl, rfl⟩, hkids0⟩)).2 h
                                            · exact ihB _ _ _ _ _ _ _ _ ht.1
                                                (by exact ⟨⟨rfl, rfl⟩, hkids0⟩) h
                                          · rw [if_neg hcu] at h
                                            split at h
                                            · exact Except.noConfusion h
                                            · exact ihB _ _ _ _ _ _ _ _
                                                (term_step _ _ hsp
                                                  (by exact ⟨⟨rfl, rfl⟩, hc.2⟩)).1
                                                (term_step _ _ hsp
                                                  (by exact ⟨⟨rfl, rfl⟩, hc.2⟩)).2 h
                                            · exact ihB _ _ _ _ _ _ _ _ hsp
                                                (by exact ⟨⟨rfl, rfl⟩, hc.2⟩) h
                                        · rw [if_neg b18] at h
                                          by_cases b19 : st.kind = Kind.blockOpen ∨
                                              st.kind = Kind.blockExample
                                          · rw [if_pos b19] at h
                                            split at h
                                            · exact Except.noConfusion h
                                            · rename_i st3 adds2 ca heq
                                              have hg := parseBlockF_good fuel st _
                                                cur.kids _ st3 adds2 ca
                                                (by rcases b19 with hb | hb <;> rw [hb] <;>
                                                  exact ⟨rfl, rfl⟩)
                                                (fun n hn => hc.2 n hn) heq
                                              have hf := foldl_attach_inv adds2 sp hsp hg.1
                                              have ht := termCur_inv _ ca hf ⟨hg.2.1, hg.2.2⟩
                                              exact ihB _ _ _ _ _ _ _ _ ht.1
                                                (by rw [ht.2]; exact curOK_fresh) h
                                          · rw [if_neg b19] at h
                                            by_cases b20 : st.kind = Kind.blockVideo
                                            · rw [if_pos b20] at h
                                              by_cases hcu : cur.data.kind ≠ Kind.unknown
                                              · rw [if_pos hcu] at h
                                                have ht := termCur_inv sp cur hsp hc
                                                have hkids0 : ∀ n ∈ (termCur sp cur).2.kids,
                                                    goodN n := by
                                                  rw [ht.2]
                                                  exact nil_good
                                                split at h
                                                · exact Except.noConfusion h
                                                · exact ihB _ _ _ _ _ _ _ _
                                                    (term_step _ _ ht.1
                                                      (by exact ⟨⟨rfl, rfl⟩, hkids0⟩)).1
                                                    (term_step _ _ ht.1
                                                      (by exact ⟨⟨rfl, rfl⟩, hkids0⟩)).2 h
                                                · exact ihB _ _ _ _ _ _ _ _ ht.1
                                                    (by exact ⟨⟨rfl, rfl⟩, hkids0⟩) h
                                              · rw [if_neg hcu] at h
                                                split at h
                                                · exact Except.noConfusion h
                                                · exact ihB _ _ _ _ _ _ _ _
                                                    (term_step _ _ hsp
                                                      (by exact ⟨⟨rfl, rfl⟩, hc.2⟩)).1
                                                    (term_step _ _ hsp
                                                      (by exact ⟨⟨rfl, rfl⟩, hc.2⟩)).2 h
                                                · exact ihB _ _ _ _ _ _ _ _ hsp
                                                    (by exact ⟨⟨rfl, rfl⟩, hc.2⟩) h
                                            · rw [if_neg b20] at h
                                              by_cases b21 : st.kind = Kind.blockAudio
                                              · rw [if_pos b21] at h
                                                by_cases hcu : cur.data.kind ≠ Kind.unknown
                                                · rw [if_pos hcu] at h
                                                  have ht := termCur_inv sp cur hsp hc
                                                  have hkids0 : ∀ n ∈ (termCur sp cur).2.kids,
                                                      goodN n := by
                                                    rw [ht.2]
                                                    exact nil_good
                                                  split at h
                                                  · exact Except.noConfusion h
                                                  · exact ihB _ _ _ _ _ _ _ _
                                                      (term_step _ _ ht.1
                                                        (by exact ⟨⟨rfl, rfl⟩, hkids0⟩)).1
                                                      (term_step _ _ ht.1
                                                        (by exact ⟨⟨rfl, rfl⟩, hkids0⟩)).2 h
                                                  · exact ihB _ _ _ _ _ _ _ _ ht.1
                                                      (by exact ⟨⟨rfl, rfl⟩, hkids0⟩) h
                                                · rw [if_neg hcu] at h
                                                  split at h
                                                  · exact Except.noConfusion h
                                                  · exact ihB _ _ _ _ _ _ _ _
                                                      (term_step _ _ hsp
                                                        (by exact ⟨⟨rfl, rfl⟩, hc.2⟩)).1
                                                      (term_step _ _ hsp
                                                        (by exact ⟨⟨rfl, rfl⟩, hc.2⟩)).2 h
                                                  · exact ihB _ _ _ _ _ _ _ _ hsp
                                                      (by exact ⟨⟨rfl, rfl⟩, hc.2⟩) h
                                              · rw [if_neg b21] at h
                                                exact ihB _ _ _ _ _ _ _ _ hsp hc h
theorem sp0_inv :
    SPinv { frames := [⟨{ kind := Kind.preamble }, []⟩], rootKids := [] } := by
  refine ⟨?_, trivial, ?_⟩
  · intro f hf
    rw [List.mem_singleton.mp hf]
    exact ⟨Or.inl rfl, fun n hn => absurd hn (List.not_mem_nil n)⟩
  · intro n hn
    exact absurd hn (List.not_mem_nil n)

theorem parse_wf (input : GoStr) (fuel : Nat) (doc : Doc)
    (h : parseDoc input fuel = .ok doc) : wfF doc.content = true := by
  unfold parseDoc at h
  dsimp only at h
  split at h
  · exact Except.noConfusion h
  · rename_i spaces0 line0 c0 stH heq
    split at h
    · exact Except.noConfusion h
    · rename_i stF spF heq2
      injection h with h
      rw [← h]
      have hsp : SPinv spF := (bodyParsers_inv fuel).1 _ _ _ _ _ _ _ _
        sp0_inv curOK_fresh heq2
      show wfF (Node.mk { kind := Kind.docContent }
        (closeInto spF.frames spF.rootKids)) = true
      rw [wfF_mk, wfL_iff]
      intro n hn
      exact ⟨childOK_docContent _ _,
        closeInto_wf spF.frames spF.rootKids hsp.1 hsp.2.1 hsp.2.2 n hn⟩

/-- C4: in any tree Document.Parse returns, every section node of kind
L_k has as its parent either the content root or a section of kind
L_{k-1}: the section handler terminates the current node and walks the
open-section chain until the expected one-level-shallower ancestor is on
top, closing frames as it goes, and falls back to the content root when
no such ancestor exists. -/
theorem parse_section_monotone (input : GoStr) (fuel : Nat) (doc : Doc)
    (h : parseDoc input fuel = .ok doc) : secOKF doc.content = true :=
  wf_sec doc.content (parse_wf input fuel doc h)

/-- The document parsed from a level-1 section with a paragraph. -/
def c4doc : Doc :=
  { title := [], author := [], revNumber := [], revSeparator := [], revDate := [],
    attributes := [], headerRaw := none,
    content := .mk { kind := .docContent }
      [.mk { kind := .preamble } [],
       .mk { kind := .sectionL1, raw := gs "A" }
         [.mk { kind := .paragraph, raw := gs "b\n" } []]] }

/-- C4 witness: the section-monotonicity predicate holds of the document
parsed from a level-1 section with a paragraph. -/
theorem parse_section_monotone_witness : secOKF c4doc.content = true :=
  parse_section_monotone (gs "== A\nb\n") 64 c4doc (by decide)

/-- C5: in any tree Document.Parse returns, every child of a list
container node (list_ordered, list_unordered or list_description) that is
itself a list item has the container's item kind and a level equal to the
container's level; different items spawn nested sub-parsers or end the
container instead of being appended to it. -/
theorem parse_list_homogeneous (input : GoStr) (fuel : Nat) (doc : Doc)
    (h : parseDoc input fuel = .ok doc) : listOKF doc.content = true :=
  wf_list doc.content (parse_wf input fuel doc h)

/-- The document parsed from a two-item ordered list. -/
def c5doc : Doc :=
  { title := [], author := [], revNumber := [], revSeparator := [], revDate := [],
    attributes := [], headerRaw := none,
    content := .mk { kind := .docContent }
      [.mk { kind := .preamble }
        [.mk { kind := .listOrdered, level := 1 }
          [.mk { kind := .listOrderedItem, level := 1, raw := gs "a\n" } [],
           .mk { kind := .listOrderedItem, level := 1, raw := gs "b\n" } []]]] }

/-- C5 witness: the list-homogeneity predicate holds of the document
parsed from a two-item ordered list. -/
theorem parse_list_homogeneous_witness : listOKF c5doc.content = true :=
  parse_list_homogeneous (gs ". a\n. b\n") 64 c5doc (by decide)

end Ciigo
